import Mathlib

/-! Verification of fex: serializer, modification log, full-sync
reconciliation and log transmission.

A shallow embedding of parts of the fex file-exchange daemon
(`serial.h`, `modlog.h`, `modlog.cpp`, `watchpoint.cpp`, `client.cpp`,
`dialog.cpp`) together with theorems about them.

Conventions of the embedding:

* a `std::string` / `char` buffer is a list of bytes, each byte a natural
  number (`Str`); `c_str()` is the list followed by a terminating NUL, so a
  read at the end of the list yields `0`;
* `size_t` is 8 bytes wide and stored little-endian (LP64);
* `time_t` and `off_t` are signed and modelled by `Int`;
* an `assert` that fails, and a loop that does not terminate within the
  given fuel, make the embedded function return `none`.
-/

namespace Fex

/-! ## Byte strings -/

/-- Byte string: the content of a `std::string`. -/
abbrev Str := List Nat

/-- Bytes of an ASCII literal. -/
def bytes (s : String) : Str := s.toList.map Char.toNat

/-- Predicate saying that the string holds no NUL byte (it is a C string). -/
def NulFree (s : Str) : Prop := ∀ c ∈ s, c ≠ 0

instance (s : Str) : Decidable (NulFree s) := by
  unfold NulFree; infer_instance

/-- Width of `size_t` in bytes. -/
def sizeofSizeT : Nat := 8

/-- Object representation of an unsigned integer: `w` bytes, little-endian. -/
def encodeLE : Nat → Nat → List Nat
  | 0, _ => []
  | w + 1, n => (n % 256) :: encodeLE w (n / 256)

/-- Value of a little-endian object representation. -/
def decodeLE : List Nat → Nat
  | [] => 0
  | b :: bs => b + 256 * decodeLE bs

/-! ## Streams -/

/-- Input stream: the bytes not yet consumed and the `good()` flag. -/
structure IStream where
  buf : List Nat
  good : Bool
deriving DecidableEq, Repr

/-- The call `istream::read(p, n)`: returns the bytes stored (`gcount()` is
their number) and the new stream.  A stream that is not good stores nothing;
a short read sets `eofbit | failbit`. -/
def IStream.read (s : IStream) (n : Nat) : List Nat × IStream :=
  if s.good then
    if n ≤ s.buf.length then (s.buf.take n, { s with buf := s.buf.drop n })
    else (s.buf, { buf := [], good := false })
  else ([], s)

/-- The call `istream::get()`: `none` stands for `traits::eof()`. -/
def IStream.get (s : IStream) : Option Nat × IStream :=
  if s.good then
    match s.buf with
    | [] => (none, { buf := [], good := false })
    | c :: cs => (some c, { s with buf := cs })
  else (none, s)

/-! ## Serializer (`serial.h`) -/

/-- The private helper `Serializer::same_to`: length of the common prefix of
two C strings. -/
def same_to : Str → Str → Nat
  | a :: as, b :: bs => if a = b ∧ a ≠ 0 ∧ b ≠ 0 then same_to as bs + 1 else 0
  | _, _ => 0

/-- Writing side of a `Serializer`: the output stream and `_M_LastKey`. -/
structure Writer where
  out : List Nat
  lastKey : Str
deriving DecidableEq, Repr

/-- Reading side of a `Serializer`: the input stream and `_M_LastKey`. -/
structure Reader where
  inp : IStream
  lastKey : Str
deriving DecidableEq, Repr

/-- A fresh writer on an empty stream. -/
def Writer.fresh : Writer := { out := [], lastKey := [] }

/-- A fresh reader on the given bytes. -/
def Reader.fresh (data : List Nat) : Reader :=
  { inp := { buf := data, good := true }, lastKey := [] }

/-- The method `Serializer::write(key, container)`; `container` is the object
representation of the container (its `sizeof(_Container)` bytes). -/
def Serializer.write (w : Writer) (key : Str) (container : List Nat) : Writer :=
  let pos := same_to key w.lastKey
  { out := w.out ++ encodeLE sizeofSizeT pos ++ (key.drop pos ++ [0]) ++ container,
    lastKey := key }

/-- The method `Serializer::reset()`. -/
def Serializer.reset (w : Writer) : Writer := { w with lastKey := [] }

/-- The loop `while (ch = _M_Stream.get()) *key += ch;` of `Serializer::read`.
At end of stream `get()` returns `EOF`, which converted to `char` is the byte
`0xFF`, so the loop goes on; `none` is returned when the fuel is used up. -/
def Serializer.readTail : Nat → IStream → Str → Option (Str × IStream)
  | 0, _, _ => none
  | fuel + 1, s, key =>
    let r := s.get
    let ch : Nat := match r.1 with
      | none => 255
      | some c => c
    if ch = 0 then some (key, r.2) else Serializer.readTail fuel r.2 (key ++ [ch])

/-- Result of `Serializer::read`: the return value, the reader afterwards and
the two out-parameters. -/
structure ReadResult where
  ok : Bool
  reader : Reader
  key : Str
  container : List Nat
deriving DecidableEq, Repr

/-- The method `Serializer::read(key, container)` for a container of `csize`
bytes.  `key` and `container` are the values the out-parameters hold before
the call: they are left alone when the header is short, and a short read of
the container overwrites only its first bytes. -/
def Serializer.read (csize fuel : Nat) (r : Reader) (key : Str) (container : List Nat) :
    Option ReadResult :=
  let h := r.inp.read sizeofSizeT
  if h.1.length ≠ sizeofSizeT then
    some { ok := false, reader := { r with inp := { h.2 with good := false } },
           key := key, container := container }
  else
    let pos := decodeLE h.1
    match Serializer.readTail fuel h.2 [] with
    | none => none
    | some (tail, s1) =>
      let c := s1.read csize
      let key1 := r.lastKey.take pos ++ tail
      some { ok := true, reader := { inp := c.2, lastKey := key1 },
             key := key1, container := c.1 ++ container.drop c.1.length }

/-- Writes the records in order. -/
def Serializer.writeAll (w : Writer) : List (Str × List Nat) → Writer
  | [] => w
  | (k, c) :: rest => Serializer.writeAll (Serializer.write w k c) rest

/-- Calls `read` until it returns false, collecting the records read; the
out-parameters are fresh for every call. -/
def Serializer.readAll (csize : Nat) : Nat → Reader → Option (List (Str × List Nat) × Reader)
  | 0, _ => none
  | fuel + 1, r =>
    match Serializer.read csize (fuel + 1) r [] (List.replicate csize 0) with
    | none => none
    | some res =>
      if res.ok then
        match Serializer.readAll csize fuel res.reader with
        | none => none
        | some (recs, r1) => some ((res.key, res.container) :: recs, r1)
      else some ([], res.reader)

/-! ## C string helpers -/

/-- The comparison `std::string::operator<`: lexicographic on the bytes, a
proper prefix being smaller. -/
def strLt : Str → Str → Bool
  | [], [] => false
  | [], _ :: _ => true
  | _ :: _, [] => false
  | a :: as, b :: bs => if a < b then true else if b < a then false else strLt as bs

/-- The C function `strncmp(s1, s2, n)` on `c_str()` buffers: the difference
of the first differing bytes among the first `n`, stopping after a NUL. -/
def strncmp : Str → Str → Nat → Int
  | _, _, 0 => 0
  | a, b, n + 1 =>
    if a.headD 0 ≠ b.headD 0 then (a.headD 0 : Int) - (b.headD 0 : Int)
    else if a.headD 0 = 0 then 0
    else strncmp a.tail b.tail n

/-- The call `s.find(pat)` of `std::string`: position of the first occurrence
of `pat` in `s`; `none` stands for `npos`. -/
def strFind : Str → Str → Option Nat
  | [], pat => if pat = [] then some 0 else none
  | c :: cs, pat =>
    if pat.isPrefixOf (c :: cs) then some 0 else (strFind cs pat).map (fun i => i + 1)

/-! ## State and Path (`modlog.h`, `modlog.cpp`) -/

/-- The struct `State`: the state of a file. -/
structure State where
  md4 : List Nat
  uid : Nat
  gid : Nat
  mode : Nat
  mtime : Int
  ctime : Int
  size : Int
  action : Nat
deriving DecidableEq, Repr

/-- Enumerator `State::removed`. -/
def State.removed : Nat := 0x01
/-- Enumerator `State::newaccess`. -/
def State.newaccess : Nat := 0x02
/-- Enumerator `State::created`. -/
def State.created : Nat := 0x04
/-- Enumerator `State::changed`. -/
def State.changed : Nat := 0x08
/-- Enumerator `State::mkdired`. -/
def State.mkdired : Nat := 0x10
/-- Enumerator `State::rmdired`. -/
def State.rmdired : Nat := 0x20
/-- Enumerator `State::newlink`. -/
def State.newlink : Nat := 0x80

/-- The class `Path`: a tail and a pointer to the parent path whose string it
continues.  `root` is a path with `_M_Parent == NULL`.  The pointee is a key
of the same map and is neither changed nor moved while it is in the map, so
the pointer is replaced by the value it points to. -/
inductive Path where
  | root (tail : Str)
  | child (parent : Path) (tail : Str)
deriving DecidableEq, Repr

/-- The method `Path::str()`. -/
def Path.str : Path → Str
  | Path.root t => t
  | Path.child p t => p.str ++ t

/-- The method `Path::isParentOf(cmp)`. -/
def Path.isParentOf (p : Path) (cmp : Str) : Bool :=
  decide (strncmp p.str cmp p.str.length = 0)

/-- The method `Path::getMatchingParent(path)`; `none` is the `NULL` pointer.
`path[tmp.length()]` is read from the `c_str()` buffer. -/
def Path.getMatchingParent : Path → Str → Option Path
  | Path.root t, path =>
    if strncmp t path t.length = 0 ∧ path.getD t.length 0 = 47 then some (Path.root t)
    else none
  | Path.child p t, path =>
    if strncmp (p.str ++ t) path (p.str ++ t).length = 0
        ∧ path.getD (p.str ++ t).length 0 = 47 then
      some (Path.child p t)
    else p.getMatchingParent path

/-- The constructor `Path::Path(const Path* parent, const std::string& tail)`;
`none` when its assertion `tail.find(parent->str()) == 0` fails. -/
def Path.ofParent (parent : Option Path) (tail : Str) : Option Path :=
  match parent with
  | some p =>
    if strFind tail p.str = some 0 then some (Path.child p (tail.drop p.str.length))
    else none
  | none => some (Path.root tail)

/-! ## ModLog (`modlog.h`, `modlog.cpp`) -/

/-- The container `std::map<Path, State>` in iteration order; an iterator is
an index into the list and `end()` is its length. -/
abbrev ModLog := List (Path × State)

/-- The call `std::map::lower_bound(key)`: the first position whose key is
not less than `key`. -/
def ModLog.lower_bound : ModLog → Str → Nat
  | [], _ => 0
  | e :: es, k => if strLt e.1.str k then ModLog.lower_bound es k + 1 else 0

/-- The call `std::map::insert(value_type(p, s))`: the map afterwards, the
position of the element with that key and whether the element was inserted
(an element with an equivalent key is left as it is). -/
def ModLog.mapInsert : ModLog → Path → State → ModLog × Nat × Bool
  | [], p, s => ([(p, s)], 0, true)
  | e :: es, p, s =>
    if strLt e.1.str p.str then
      ((e :: (ModLog.mapInsert es p s).1), (ModLog.mapInsert es p s).2.1 + 1,
        (ModLog.mapInsert es p s).2.2)
    else if strLt p.str e.1.str then ((p, s) :: e :: es, 0, true)
    else (e :: es, 0, false)

/-- The method `ModLog::insert(path, state)`; `none` when the assertion of the
`Path` constructor fails. -/
def ModLog.insert (m : ModLog) (path : Str) (state : State) : Option (ModLog × Nat × Bool) :=
  let tmp := Path.root path
  let j := ModLog.lower_bound m tmp.str
  if j ≠ 0 then
    match m.get? (j - 1) with
    | none => none
    | some e =>
      match Path.ofParent (e.1.getMatchingParent path) path with
      | none => none
      | some child => some (ModLog.mapInsert m child state)
  else some (ModLog.mapInsert m tmp state)

/-- The method `ModLog::find(path)`; `none` is `end()`. -/
def ModLog.find (m : ModLog) (path : Str) : Option Nat :=
  match m.get? (ModLog.lower_bound m path) with
  | none => none
  | some e => if strLt path e.1.str then none else some (ModLog.lower_bound m path)

/-- The method `ModLog::erase(i)`: erases `i` and the entries after it up to
the first one `i` is no parent of; `none` when the assertion `i != end()`
fails.  The iterator returned refers to the entry that followed the erased
range, which in the new list stands at index `i`. -/
def ModLog.erase (m : ModLog) (i : Nat) : Option (ModLog × Nat) :=
  match m.get? i with
  | none => none
  | some e =>
    let n := ((m.drop (i + 1)).takeWhile (fun x => e.1.isParentOf x.1.str)).length
    some (m.take i ++ m.drop (i + 1 + n), i)

/-- The method `ModLog::insert(begin, end)` applied to the entries of a log. -/
def ModLog.insertRange (m : ModLog) : List (Path × State) → Option ModLog
  | [] => some m
  | e :: es =>
    match ModLog.insert m e.1.str e.2 with
    | none => none
    | some r => ModLog.insertRange r.1 es

/-- Iteration order of a log: keys strictly increasing by their full string. -/
def ModLog.Sorted (m : ModLog) : Prop :=
  m.Pairwise (fun a b => strLt a.1.str b.1.str = true)

/-- Well-formed log: strictly sorted, all keys C strings without NUL. -/
def ModLog.WF (m : ModLog) : Prop :=
  ModLog.Sorted m ∧ ∀ e ∈ m, NulFree e.1.str

instance (m : ModLog) : Decidable (ModLog.Sorted m) := by
  unfold ModLog.Sorted; infer_instance

instance (m : ModLog) : Decidable (ModLog.WF m) := by
  unfold ModLog.WF; infer_instance

/-- Logs built from the empty log by calls of `insert` with C-string paths. -/
inductive ModLog.Built : ModLog → Prop where
  | empty : ModLog.Built []
  | step (m : ModLog) (path : Str) (state : State) (r : ModLog × Nat × Bool) :
      ModLog.Built m → NulFree path → ModLog.insert m path state = some r → ModLog.Built r.1

/-! ## Session log (`watchpoint.cpp`) -/

/-- The method `ConnectedWatchPoint::addToLog(key, state, lock_id, do_sync)`
acting on the write-log; `ownLock` is `lock_id == this`.  Returns the log and
whether `requireSync()` was called; `none` when an assertion fails. -/
def addToLog (log : ModLog) (key : Str) (state : State) (ownLock do_sync : Bool) :
    Option (ModLog × Bool) :=
  if ownLock then some (log, false)
  else
    match ModLog.insert log key state with
    | none => none
    | some (m, i, inserted) =>
      if ¬ inserted then
        match m.get? i with
        | none => none
        | some org =>
          let action :=
            if state.action = State.newaccess then org.2.action
            else if state.action = State.changed then
              (if org.2.action = State.created then State.created else state.action)
            else state.action
          some (m.set i (org.1, { state with action := action }), do_sync)
      else some (m, do_sync)

/-! ## Three-way reconciliation (`client.cpp`) -/

/-- The constant `client::LAST_KEY`: the string made of the byte `0xFF`. -/
def LAST_KEY : Str := [0xFF]

/-- The macro `S_ISDIR` of `<sys/stat.h>`. -/
def S_ISDIR (mode : Nat) : Bool := mode &&& 0o170000 == 0o040000
/-- The macro `S_ISLNK` of `<sys/stat.h>`. -/
def S_ISLNK (mode : Nat) : Bool := mode &&& 0o170000 == 0o120000
/-- The macro `S_ISREG` of `<sys/stat.h>`. -/
def S_ISREG (mode : Nat) : Bool := mode &&& 0o170000 == 0o100000

/-- The helper `set(state, action)` of `client.cpp`: stores the action that
the letter stands for into the state and returns the state. -/
def set (state : State) (action : Char) : State :=
  if action = 'N' then
    if S_ISDIR state.mode then { state with action := State.mkdired }
    else if S_ISLNK state.mode then { state with action := State.newlink }
    else if S_ISREG state.mode then { state with action := State.created }
    else { state with action := 0 }
  else if action = 'C' then
    if S_ISDIR state.mode then { state with action := State.mkdired }
    else if S_ISLNK state.mode then { state with action := State.newlink }
    else if S_ISREG state.mode then { state with action := State.changed }
    else { state with action := 0 }
  else if action = 'D' then
    { state with action := if S_ISDIR state.mode then State.rmdired else State.removed }
  else if action = 'A' then { state with action := State.newaccess }
  else state

/-- A snapshot file read through a `Serializer`: the records not yet read and
the `good()` flag of the stream.  The file is a stream written by
`Serializer::write`, so each `read` yields the next record and leaves the
stream good (`read_written`), and the `read` after the last record returns
false and leaves the stream not good (`read_at_end`); a file that could not be
opened behaves like a file without records. -/
structure SnapReader where
  rest : List (Str × State)
  good : Bool
deriving DecidableEq, Repr

/-- The call `reader.read(&key, &state)` on a snapshot file; the out-parameters
keep their values when the read fails. -/
def SnapReader.read (r : SnapReader) (key : Str) (state : State) :
    Bool × SnapReader × Str × State :=
  match r.rest with
  | [] => (false, { rest := [], good := false }, key, state)
  | (k, s) :: rs => (true, { r with rest := rs }, k, s)

/-- What `compareState` does to the outside, in the order it does it. -/
inductive Effect where
  /-- The call `_M_ServerLog.insert(key, state)`: a record for the log that is
  sent with `FullSyncLog`. -/
  | serverLog (key : Str) (state : State)
  /-- The call `addToLog(key, state)` of the dialog, which adds the record to
  the client's write-log and sets `_M_RequireResync`. -/
  | clientLog (key : Str) (state : State)
  /-- The call `parent().wp()->backup(key)`. -/
  | backup (key : Str)
deriving DecidableEq, Repr

/-- The key an effect is about. -/
def Effect.key : Effect → Str
  | Effect.serverLog k _ => k
  | Effect.clientLog k _ => k
  | Effect.backup k => k

/-- Local variables of `FullSyncDialog::compareState` and the effects so
far. -/
structure CmpVars where
  in_client : SnapReader
  in_server : SnapReader
  in_lsynst : SnapReader
  key_client : Str
  key_server : Str
  key_lsynst : Str
  state_client : State
  state_server : State
  state_lsynst : State
  inc_client : Bool
  inc_server : Bool
  inc_lsynst : Bool
  effects : List Effect
deriving DecidableEq, Repr

/-- The statements of the first part of the loop body of `compareState` that
concern one stream: `if (inc) reader.read(&key, &state);`, for the server
followed by `translateReceivedState(state)` (here `f`), and
`if (! in.good()) key = LAST_KEY;`. -/
def readStream (f : State → State) (inc : Bool) (r : SnapReader) (key : Str) (st : State) :
    SnapReader × Str × State :=
  let x : SnapReader × Str × State :=
    if inc then ((r.read key st).2.1, (r.read key st).2.2.1, f (r.read key st).2.2.2)
    else (r, key, st)
  (x.1, if ¬ x.1.good then LAST_KEY else x.2.1, x.2.2)

/-- First part of the loop body of `compareState`: the reads selected by the
`inc_` flags and the replacement of the key of a stream that is not good by
`LAST_KEY`.  `tr` is `translateReceivedState`.  The statements of the three
streams touch disjoint variables and are grouped by stream. -/
def compareRead (tr : State → State) (v : CmpVars) : CmpVars :=
  let c := readStream id v.inc_client v.in_client v.key_client v.state_client
  let s := readStream tr v.inc_server v.in_server v.key_server v.state_server
  let l := readStream id v.inc_lsynst v.in_lsynst v.key_lsynst v.state_lsynst
  { v with in_client := c.1, key_client := c.2.1, state_client := c.2.2,
           in_server := s.1, key_server := s.2.1, state_server := s.2.2,
           in_lsynst := l.1, key_lsynst := l.2.1, state_lsynst := l.2.2 }

/-- The part of `compareState` after the label `check_access`. -/
def checkAccess (v : CmpVars) : CmpVars :=
  let v1 :=
    if v.state_client.mode ≠ v.state_server.mode ∨ v.state_client.uid ≠ v.state_server.uid
        ∨ v.state_client.gid ≠ v.state_server.gid then
      if v.state_client.ctime > v.state_server.ctime then
        { v with state_client := set v.state_client 'A',
                 effects := v.effects ++ [Effect.clientLog v.key_client (set v.state_client 'A')] }
      else
        { v with state_server := set v.state_server 'A',
                 effects := v.effects ++ [Effect.serverLog v.key_server (set v.state_server 'A')] }
    else v
  if v1.state_server.md4 ≠ v1.state_client.md4 then
    { v1 with state_server := set v1.state_server 'C',
              effects := v1.effects ++ [Effect.backup v1.key_client,
                Effect.serverLog v1.key_server (set v1.state_server 'C')] }
  else v1

/-- The last case of the loop body of `compareState`, the one for a key that
both snapshots hold: the code from `inc_client = inc_server = true` to the end
of the loop body. -/
def compareBoth (v : CmpVars) : CmpVars :=
  let w0 := { v with inc_client := true, inc_server := true }
  let w :=
    if w0.key_lsynst = w0.key_client then { w0 with inc_lsynst := true }
    else { w0 with state_lsynst := { w0.state_lsynst with mtime := 0 } }
  if S_ISDIR w.state_server.mode ∧ S_ISDIR w.state_client.mode then checkAccess w
  else if w.state_client.mtime > w.state_lsynst.mtime
      ∧ w.state_server.mtime > w.state_lsynst.mtime
      ∧ w.state_client.mtime ≠ w.state_server.mtime then
    if w.state_client.md4 ≠ w.state_server.md4 then
      { w with state_server := set w.state_server 'C',
               effects := w.effects ++ [Effect.backup w.key_client,
                 Effect.serverLog w.key_server (set w.state_server 'C')] }
    else if S_ISLNK w.state_server.mode ∧ S_ISLNK w.state_client.mode then w
    else
      { w with state_server := set w.state_server 'A',
               effects := w.effects ++ [Effect.serverLog w.key_server (set w.state_server 'A')] }
  else if w.state_client.mtime > w.state_server.mtime then
    if w.state_client.md4 ≠ w.state_server.md4 then
      { w with state_client := set w.state_client 'C',
               effects := w.effects ++ [Effect.clientLog w.key_client (set w.state_client 'C')] }
    else if S_ISLNK w.state_server.mode ∧ S_ISLNK w.state_client.mode then w
    else
      { w with state_client := set w.state_client 'A',
               effects := w.effects ++ [Effect.clientLog w.key_client (set w.state_client 'A')] }
  else if w.state_server.mtime > w.state_client.mtime then
    if w.state_client.md4 ≠ w.state_server.md4 then
      { w with state_server := set w.state_server 'C',
               effects := w.effects ++ [Effect.serverLog w.key_server (set w.state_server 'C')] }
    else if S_ISLNK w.state_server.mode ∧ S_ISLNK w.state_client.mode then w
    else
      { w with state_server := set w.state_server 'A',
               effects := w.effects ++ [Effect.serverLog w.key_server (set w.state_server 'A')] }
  else checkAccess w

/-- Second part of the loop body of `compareState`, from the test for the end
of both streams on; the flag returned is false when the loop is left by
`break`.  The assertion `key_server == key_client` before the last case holds
because neither key is smaller than the other (`strLt_total`). -/
def compareDecide (v0 : CmpVars) : CmpVars × Bool :=
  if v0.key_server = LAST_KEY ∧ v0.key_client = LAST_KEY then (v0, false)
  else
    let v := { v0 with inc_client := false, inc_server := false, inc_lsynst := false }
    if strLt v.key_lsynst v.key_client ∧ strLt v.key_lsynst v.key_server then
      ({ v with inc_lsynst := true }, true)
    else if strLt v.key_client v.key_server then
      if v.key_lsynst = v.key_client then
        ({ v with inc_client := true, inc_lsynst := true, state_client := set v.state_client 'D',
                  effects := v.effects ++ [Effect.serverLog v.key_client (set v.state_client 'D')] },
          true)
      else
        ({ v with inc_client := true, state_client := set v.state_client 'N',
                  effects := v.effects ++ [Effect.clientLog v.key_client (set v.state_client 'N')] },
          true)
    else if strLt v.key_server v.key_client then
      if v.key_lsynst = v.key_server then
        ({ v with inc_server := true, inc_lsynst := true, state_server := set v.state_server 'D',
                  effects := v.effects ++ [Effect.clientLog v.key_server (set v.state_server 'D')] },
          true)
      else
        ({ v with inc_server := true, state_server := set v.state_server 'N',
                  effects := v.effects ++ [Effect.serverLog v.key_server (set v.state_server 'N')] },
          true)
    else (compareBoth v, true)

/-- The loop `while (true)` of `compareState`; `none` when the fuel is used
up before the loop is left. -/
def compareLoop (tr : State → State) : Nat → CmpVars → Option (List Effect)
  | 0, _ => none
  | fuel + 1, v =>
    if (compareDecide (compareRead tr v)).2 then
      compareLoop tr fuel (compareDecide (compareRead tr v)).1
    else some (compareDecide (compareRead tr v)).1.effects

/-- The method `client::FullSyncDialog::compareState` on the records of the
client snapshot, of the server snapshot and of the last-sync snapshot.  `s0`
is the content of the three uninitialised `State` variables. -/
def compareState (tr : State → State) (s0 : State) (client server lsynst : List (Str × State))
    (fuel : Nat) : Option (List Effect) :=
  compareLoop tr fuel
    { in_client := { rest := client, good := true },
      in_server := { rest := server, good := true },
      in_lsynst := { rest := lsynst, good := true },
      key_client := [], key_server := [], key_lsynst := [],
      state_client := s0, state_server := s0, state_lsynst := s0,
      inc_client := true, inc_server := true, inc_lsynst := true,
      effects := [] }

/-! ### Recursive characterisation of the reconciliation loop

The loop of `compareState` is a merge of three record lists.  The functions
below describe it by recursion on the lists; `compareLoop_eq_merge3` shows
that the loop computes the same effects. -/

/-- Key at the head of a list of records; `LAST_KEY` when there is none. -/
def keyOf : List (Str × State) → Str
  | [] => LAST_KEY
  | r :: _ => r.1

/-- Keys of a list of records. -/
def keysOf (l : List (Str × State)) : List Str := l.map (fun r => r.1)

/-- The look-ahead record of the last-sync stream after `state_lsynst.mtime = 0`. -/
def clobber : List (Str × State) → List (Str × State)
  | [] => []
  | (k, st) :: rest => (k, { st with mtime := 0 }) :: rest

/-- Effects of the access check for client state `sc` and server state `ss`. -/
def accessEffects (kc ks : Str) (sc ss : State) : List Effect :=
  (if sc.mode ≠ ss.mode ∨ sc.uid ≠ ss.uid ∨ sc.gid ≠ ss.gid then
    (if sc.ctime > ss.ctime then [Effect.clientLog kc (set sc 'A')]
     else [Effect.serverLog ks (set ss 'A')])
   else [])
  ++ (if ss.md4 ≠ sc.md4 then [Effect.backup kc, Effect.serverLog ks (set ss 'C')] else [])

/-- Effects of the loop body for a key held by both snapshots, with client
state `sc`, server state `ss` and `lm` the value of `state_lsynst.mtime`. -/
def bothEffects (kc ks : Str) (sc ss : State) (lm : Int) : List Effect :=
  if S_ISDIR ss.mode ∧ S_ISDIR sc.mode then accessEffects kc ks sc ss
  else if sc.mtime > lm ∧ ss.mtime > lm ∧ sc.mtime ≠ ss.mtime then
    if sc.md4 ≠ ss.md4 then [Effect.backup kc, Effect.serverLog ks (set ss 'C')]
    else if S_ISLNK ss.mode ∧ S_ISLNK sc.mode then []
    else [Effect.serverLog ks (set ss 'A')]
  else if sc.mtime > ss.mtime then
    if sc.md4 ≠ ss.md4 then [Effect.clientLog kc (set sc 'C')]
    else if S_ISLNK ss.mode ∧ S_ISLNK sc.mode then []
    else [Effect.clientLog kc (set sc 'A')]
  else if ss.mtime > sc.mtime then
    if sc.md4 ≠ ss.md4 then [Effect.serverLog ks (set ss 'C')]
    else if S_ISLNK ss.mode ∧ S_ISLNK sc.mode then []
    else [Effect.serverLog ks (set ss 'A')]
  else accessEffects kc ks sc ss

/-- The merge that `compareState` performs on the records still to be looked
at: `c` of the client, `s` of the server and `l` of the last sync. -/
def merge3 (tr : State → State) :
    Nat → List (Str × State) → List (Str × State) → List (Str × State) → Option (List Effect)
  | 0, _, _, _ => none
  | n + 1, c, s, l =>
    if keyOf s = LAST_KEY ∧ keyOf c = LAST_KEY then some []
    else if strLt (keyOf l) (keyOf c) ∧ strLt (keyOf l) (keyOf s) then merge3 tr n c s l.tail
    else if strLt (keyOf c) (keyOf s) then
      match c with
      | [] => none
      | (k, st) :: c1 =>
        if keyOf l = k then
          (merge3 tr n c1 s l.tail).map (fun e => Effect.serverLog k (set st 'D') :: e)
        else (merge3 tr n c1 s l).map (fun e => Effect.clientLog k (set st 'N') :: e)
    else if strLt (keyOf s) (keyOf c) then
      match s with
      | [] => none
      | (k, st) :: s1 =>
        if keyOf l = k then
          (merge3 tr n c s1 l.tail).map (fun e => Effect.clientLog k (set (tr st) 'D') :: e)
        else (merge3 tr n c s1 l).map (fun e => Effect.serverLog k (set (tr st) 'N') :: e)
    else
      match c, s with
      | (kc, sc) :: c1, (ks, ss) :: s1 =>
        match l with
        | [] => (merge3 tr n c1 s1 []).map (fun e => bothEffects kc ks sc (tr ss) 0 ++ e)
        | (kl, sl) :: l1 =>
          if kl = kc then
            (merge3 tr n c1 s1 l1).map (fun e => bothEffects kc ks sc (tr ss) sl.mtime ++ e)
          else
            (merge3 tr n c1 s1 (clobber ((kl, sl) :: l1))).map
              (fun e => bothEffects kc ks sc (tr ss) 0 ++ e)
      | _, _ => none

/-- Records sorted strictly by key, all keys below `LAST_KEY`. -/
def Snapshot (l : List (Str × State)) : Prop :=
  l.Pairwise (fun a b => strLt a.1 b.1 = true) ∧ ∀ r ∈ l, strLt r.1 LAST_KEY = true

instance (l : List (Str × State)) : Decidable (Snapshot l) := by
  unfold Snapshot; infer_instance

/-- The variables of one stream once the loop body has read: they hold the
first of the records `lst` still to be looked at, or `LAST_KEY`. -/
def StreamCur (f : State → State) (x : SnapReader × Str × State) (lst : List (Str × State)) :
    Prop :=
  (lst = [] ∧ x.1 = { rest := [], good := false } ∧ x.2.1 = LAST_KEY)
    ∨ (∃ k s rest, lst = (k, s) :: rest ∧ x.1 = { rest := rest, good := true } ∧ x.2.1 = k
        ∧ x.2.2 = f s)

/-- The variables of one stream at the head of the loop: either the stream is
selected for reading and all of `lst` is unread, or they hold the first record
of `lst`. -/
def StreamInv (f : State → State) (inc : Bool) (r : SnapReader) (key : Str) (st : State)
    (lst : List (Str × State)) : Prop :=
  (inc = true ∧ r = { rest := lst, good := true })
    ∨ (inc = false ∧ ((lst = [] ∧ r = { rest := [], good := false })
        ∨ (∃ k s rest, lst = (k, s) :: rest ∧ r = { rest := rest, good := true } ∧ key = k
            ∧ st = f s)))

/-- The effects that are about key `K`, in order. -/
def effectsFor (K : Str) (E : List Effect) : List Effect :=
  E.filter (fun e => decide (e.key = K))

/-- What the effects `E` of merging the records `c`, `s` and `l` are, key by
key: nothing for a key that neither `c` nor `s` holds, one record for a key
held by exactly one of them, and the effects of `bothEffects` for a key held
by both, where the last-sync mtime used is the one `l` holds for the key or
`0`. -/
def EffectsSpec (tr : State → State) (c s l : List (Str × State)) (E : List Effect) : Prop :=
  (∀ K, K ∉ keysOf c → K ∉ keysOf s → effectsFor K E = [])
  ∧ (∀ K st, (K, st) ∈ c → K ∉ keysOf s →
      effectsFor K E = [if K ∈ keysOf l then Effect.serverLog K (set st 'D')
                        else Effect.clientLog K (set st 'N')])
  ∧ (∀ K st, (K, st) ∈ s → K ∉ keysOf c →
      effectsFor K E = [if K ∈ keysOf l then Effect.clientLog K (set (tr st) 'D')
                        else Effect.serverLog K (set (tr st) 'N')])
  ∧ (∀ K sc ss, (K, sc) ∈ c → (K, ss) ∈ s →
      ∃ lm : Int, (lm = 0 ∨ ∃ sl, (K, sl) ∈ l ∧ lm = sl.mtime)
        ∧ effectsFor K E = bothEffects K K sc (tr ss) lm)

/-! ## SendLogDialog (`dialog.cpp`) -/

/-- The constant `MAX_COPY_SIZE` of `connection.h`. -/
def MAX_COPY_SIZE : Nat := 1024 * 16

/-- Two's complement object representation of a signed integer of `w` bytes. -/
def encodeSignedLE (w : Nat) (x : Int) : List Nat :=
  encodeLE w (x % (256 : Int) ^ w).toNat

/-- Object representation of a `State` (LP64 layout, padding bytes zero):
`md4[16]`, `uid`, `gid`, `mode` (4 bytes each), 4 bytes of padding, `mtime`,
`ctime`, `size` (8 bytes each), `action` (2 bytes), 6 bytes of padding. -/
def State.repr (s : State) : List Nat :=
  (s.md4 ++ List.replicate 16 0).take 16 ++ encodeLE 4 s.uid ++ encodeLE 4 s.gid
    ++ encodeLE 4 s.mode ++ List.replicate 4 0 ++ encodeSignedLE 8 s.mtime
    ++ encodeSignedLE 8 s.ctime ++ encodeSignedLE 8 s.size ++ encodeLE 2 s.action
    ++ List.replicate 6 0

/-- The members of a `SendLogDialog`, the blocks it has written to the
connection and the records it has passed to its serializer. -/
structure SendLogDialog where
  /-- The log `*_M_Log`. -/
  log : ModLog
  /-- The iterator `_M_iter`, as an index into the log. -/
  iter : Nat
  /-- The content of the stream `_M_msg`. -/
  msg : List Nat
  /-- The last key of the serializer `_M_writer`. -/
  lastKey : Str
  /-- Payloads of the messages written so far, in order. -/
  blocks : List (List Nat)
  /-- Keys and states passed to `_M_writer.write` so far, in order. -/
  sent : List (Str × State)
deriving DecidableEq, Repr

/-- The constructor `SendLogDialog(wp, msg_type, log)`. -/
def SendLogDialog.new (log : ModLog) : SendLogDialog :=
  { log := log, iter := 0, msg := [], lastKey := [], blocks := [], sent := [] }

/-- The method `SendLogDialog::start()`.  `tr` is `translateSendState`, `repr`
gives the object representation of a state, and `pending n` is the answer of
`write_bytes_pending()` after the `n`-th block.  The flag returned is true when
the dialog has ended and false when it has returned to wait for `ME_wavail`;
`none` when the fuel is used up. -/
def SendLogDialog.start (tr : State → State) (repr : State → List Nat) (pending : Nat → Bool) :
    Nat → SendLogDialog → Option (SendLogDialog × Bool)
  | 0, _ => none
  | fuel + 1, d =>
    match d.log.get? d.iter with
    | none => some ({ d with blocks := d.blocks ++ [d.msg] }, true)
    | some e =>
      let w := Serializer.write { out := d.msg, lastKey := d.lastKey } e.1.str (repr (tr e.2))
      let log1 :=
        if e.2.action = State.rmdired then
          d.log.take (d.iter + 1) ++ d.log.drop (d.iter + 1
            + ((d.log.drop (d.iter + 1)).takeWhile (fun x => e.1.isParentOf x.1.str)).length)
        else d.log
      let d1 : SendLogDialog :=
        { d with log := log1, iter := d.iter + 1, msg := w.out, lastKey := w.lastKey,
                 sent := d.sent ++ [(e.1.str, tr e.2)] }
      if MAX_COPY_SIZE ≤ d1.msg.length then
        let d2 : SendLogDialog :=
          { d1 with blocks := d1.blocks ++ [d1.msg], msg := [], lastKey := [] }
        if pending d2.blocks.length then some (d2, false)
        else SendLogDialog.start tr repr pending fuel d2
      else SendLogDialog.start tr repr pending fuel d1

/-! ## IDTranslator (`configfile.h`) -/

/-- The type `std::map<id_t, id_t>`: the pairs of the map, at most one per
key. -/
abbrev IdMap := List (Nat × Nat)

/-- The call `m.find(k)` followed by the read of `f->second`; `none` is
`end()`. -/
def IdMap.find : IdMap → Nat → Option Nat
  | [], _ => none
  | (a, b) :: rest, k => if a = k then some b else IdMap.find rest k

/-- The assignment `m[k] = v`. -/
def IdMap.assign (m : IdMap) (k v : Nat) : IdMap :=
  (k, v) :: m.filter (fun e => e.1 ≠ k)

/-- The class `IDTranslator`. -/
structure IDTranslator where
  userClientToServer : IdMap
  userServerToClient : IdMap
  groupClientToServer : IdMap
  groupServerToClient : IdMap
deriving DecidableEq, Repr

/-- A translator without rules. -/
def IDTranslator.empty : IDTranslator := ⟨[], [], [], []⟩

/-- The method `IDTranslator::getServerUid`. -/
def IDTranslator.getServerUid (t : IDTranslator) (client : Nat) : Nat :=
  match t.userClientToServer.find client with
  | some s => s
  | none => client

/-- The method `IDTranslator::getClientUid`. -/
def IDTranslator.getClientUid (t : IDTranslator) (server : Nat) : Nat :=
  match t.userServerToClient.find server with
  | some c => c
  | none => server

/-- The method `IDTranslator::getServerGid`. -/
def IDTranslator.getServerGid (t : IDTranslator) (client : Nat) : Nat :=
  match t.groupClientToServer.find client with
  | some s => s
  | none => client

/-- The method `IDTranslator::getClientGid`. -/
def IDTranslator.getClientGid (t : IDTranslator) (server : Nat) : Nat :=
  match t.groupServerToClient.find server with
  | some c => c
  | none => server

/-- The method `IDTranslator::addUid(server, client)`. -/
def IDTranslator.addUid (t : IDTranslator) (server client : Nat) : IDTranslator :=
  { t with userClientToServer := t.userClientToServer.assign client server,
           userServerToClient := t.userServerToClient.assign server client }

/-- The method `IDTranslator::addGid(server, client)`. -/
def IDTranslator.addGid (t : IDTranslator) (server client : Nat) : IDTranslator :=
  { t with groupClientToServer := t.groupClientToServer.assign client server,
           groupServerToClient := t.groupServerToClient.assign server client }

/-- The translator after the rules `uids` and `gids`, each a pair
`(server, client)`, added in order as `cb_uid_replace` and `cb_gid_replace`
do. -/
def IDTranslator.build (uids gids : List (Nat × Nat)) : IDTranslator :=
  gids.foldl (fun t r => t.addGid r.1 r.2) (uids.foldl (fun t r => t.addUid r.1 r.2) IDTranslator.empty)

/-- Rules that pair ids one to one: two rules with the same server id have
the same client id and conversely. -/
def OneToOne (rules : List (Nat × Nat)) : Prop :=
  ∀ r1 ∈ rules, ∀ r2 ∈ rules, (r1.1 = r2.1 ↔ r1.2 = r2.2)

instance (rules : List (Nat × Nat)) : Decidable (OneToOne rules) := by
  unfold OneToOne; infer_instance

/-! ## Path policy (`configfile.cpp`) -/

/-- The loop `for (i = globs.begin(); ...) if (fnmatch(i->c_str(), path.c_str(), 0) == 0)`:
whether some glob of the list matches.  `fnmatch` is the C library function
with flags `0`. -/
def anyGlob (fnmatch : Str → Str → Int) : List Str → Str → Bool
  | [], _ => false
  | g :: gs, path => if fnmatch g path = 0 then true else anyGlob fnmatch gs path

/-- The method `WatchPoint::isValidPath(path)` for the given `_M_Includes` and
`_M_Excludes`. -/
def WatchPoint.isValidPath (fnmatch : Str → Str → Int) (includes excludes : List Str)
    (path : Str) : Bool :=
  if strFind path (bytes "/.fextmp") ≠ none then false
  else if anyGlob fnmatch includes path then true
  else if anyGlob fnmatch excludes path then false
  else true

/-! ## Incremental synchronisation (`watchpoint.cpp`, `dialog.cpp`, `configfile.cpp`) -/

/-- The method `ConnectedWatchPoint::undoSync()` on the write-log and the
send-log: the logs afterwards and whether `requireSync()` was called; `none`
when an assertion fails. -/
def undoSync (writeLog sendLog : ModLog) : Option (ModLog × ModLog × Bool) :=
  match ModLog.insertRange writeLog sendLog with
  | none => none
  | some w => some (w, [], true)

/-- The method `ConnectedWatchPoint::findInLog(key)`: the state the returned
pointer refers to; `none` is `NULL`. -/
def findInLog (sendLog writeLog : ModLog) (key : Str) : Option State :=
  match ModLog.find sendLog key with
  | some i => (sendLog.get? i).map (fun e => e.2)
  | none =>
    match ModLog.find writeLog key with
    | some i => (writeLog.get? i).map (fun e => e.2)
    | none => none

/-- The fields of `struct stat` that the program reads. -/
structure Stat where
  st_mode : Nat
  st_uid : Nat
  st_gid : Nat
  st_mtime : Int
  st_ctime : Int
  st_size : Int
deriving DecidableEq, Repr

/-- The constant `S_IWUSR` of `<sys/stat.h>`. -/
def S_IWUSR : Nat := 0o200
/-- The constant `S_IWGRP` of `<sys/stat.h>`. -/
def S_IWGRP : Nat := 0o020
/-- The constant `S_IWOTH` of `<sys/stat.h>`. -/
def S_IWOTH : Nat := 0o002
/-- The constant `S_IROTH` of `<sys/stat.h>`. -/
def S_IROTH : Nat := 0o004

/-- The method `WatchPoint::isWriteable(path, state)`: `buf` is what `lstat`
left in the `struct stat`, `readonly` is `_M_Readonly`, `state` the content of
`*state` before the call.  Returns the result and `*state` afterwards (its
`md4` is not assigned). -/
def WatchPoint.isWriteable (readonly : Bool) (buf : Stat) (state : State) : Bool × State :=
  (!readonly && (buf.st_uid != 0 || (buf.st_mode &&& (S_IWUSR ||| S_IWGRP ||| S_IWOTH)) != 0),
   { state with uid := buf.st_uid, gid := buf.st_gid, mode := buf.st_mode,
                mtime := buf.st_mtime, ctime := buf.st_ctime, size := buf.st_size,
                action := State.changed })

/-- What `SyncReceiveDialog::doSync` does for a record, in the order it does
it. -/
inductive SyncOp where
  /-- The call `parent().write(fex_header(ME_Backup), constbuf(path))`. -/
  | sendBackup (path : Str)
  /-- The call `parent().wp()->backup(path)`. -/
  | backup (path : Str)
  /-- The call `parent().addToLog(key, state, 0, true)`. -/
  | addToLog (key : Str) (state : State)
  /-- The call `parent().wp()->remove(key)`. -/
  | remove (key : Str)
  /-- The call `parent().wp()->mkdir(key, state)`. -/
  | mkdir (key : Str) (state : State)
  /-- The call `parent().wp()->changeAccess(key, state)`. -/
  | changeAccess (key : Str) (state : State)
  /-- The call `dialog->push_back(new LinkDialog(parent(), key, state))`. -/
  | pushLink (key : Str) (state : State)
  /-- The call `dialog->push_back(new RsyncSendDialog(parent(), key, state))`. -/
  | pushRsync (key : Str) (state : State)
deriving DecidableEq, Repr

/-- The method `SyncReceiveDialog::checkBackup(path, state)`: the result, the
record `state` afterwards (it is passed by reference) and what was done. -/
def checkBackup (sendLog writeLog : ModLog) (path : Str) (state : State) :
    Bool × State × List SyncOp :=
  match findInLog sendLog writeLog path with
  | none => (true, state, [])
  | some log_state =>
    if log_state.action = State.newaccess then
      (true, { state with uid := log_state.uid, gid := log_state.gid, mode := log_state.mode,
                          mtime := log_state.mtime, ctime := log_state.ctime }, [])
    else if log_state.action = State.removed ∨ log_state.action = State.rmdired then
      (false, state, if state.action ≠ log_state.action then [SyncOp.sendBackup path] else [])
    else if log_state.action = State.created ∨ log_state.action = State.changed then
      if state.action = State.removed then (true, state, [SyncOp.backup path])
      else if log_state.md4 ≠ state.md4 then (false, state, [SyncOp.sendBackup path])
      else (true, { state with action := State.newaccess }, [])
    else if log_state.action = State.mkdired then
      (false, state, if state.action ≠ State.rmdired then [SyncOp.sendBackup path] else [])
    else (true, state, [])

/-- The body of the loop of `SyncReceiveDialog::doSync` for the record
`(key, state)` of the received log: the record afterwards and what was done;
`none` when the assertion of the `default` case fails.  `asClient` is
`_M_AsClient`, `readonly` and `buf` are those of `isWriteable`, `junk` is the
content of the uninitialised local `State state`. -/
def doSyncRecord (asClient readonly : Bool) (buf : Stat) (junk : State)
    (sendLog writeLog : ModLog) (key : Str) (state : State) : Option (State × List SyncOp) :=
  let cb := checkBackup sendLog writeLog key state
  if ¬ cb.1 then some (cb.2.1, cb.2.2)
  else if ¬ asClient ∧ ¬ (WatchPoint.isWriteable readonly buf junk).1 then
    let own := (WatchPoint.isWriteable readonly buf junk).2
    let action :=
      if cb.2.1.action = State.removed then
        (if S_ISLNK own.mode then State.newlink else State.created)
      else if cb.2.1.action = State.newlink ∨ cb.2.1.action = State.created then State.removed
      else if cb.2.1.action = State.mkdired then State.rmdired
      else if cb.2.1.action = State.rmdired then State.mkdired
      else cb.2.1.action
    some (cb.2.1, cb.2.2 ++ [SyncOp.addToLog key { own with action := action }])
  else if cb.2.1.action = State.removed then some (cb.2.1, cb.2.2 ++ [SyncOp.remove key])
  else if cb.2.1.action = State.newlink then
    some (cb.2.1, cb.2.2 ++ [SyncOp.pushLink key cb.2.1])
  else if cb.2.1.action = State.newaccess then
    some (cb.2.1, cb.2.2 ++ [SyncOp.changeAccess key cb.2.1])
  else if cb.2.1.action = State.created then
    some (cb.2.1, cb.2.2 ++ [SyncOp.pushRsync key cb.2.1])
  else if cb.2.1.action = State.changed then
    some (cb.2.1, cb.2.2 ++ [SyncOp.pushRsync key cb.2.1])
  else if cb.2.1.action = State.mkdired then
    some (cb.2.1, cb.2.2 ++ [SyncOp.remove key, SyncOp.mkdir key cb.2.1])
  else if cb.2.1.action = State.rmdired then some (cb.2.1, cb.2.2 ++ [SyncOp.remove key])
  else if cb.2.1.action = 0 then some (cb.2.1, cb.2.2)
  else none

/-! ## State database (`modlog.cpp`, class `StateLog`) -/

/-- What the state database sees of the file system: `lstat` (`none` when the
call fails), the md4 digest that `mdfour_file` computes for a path, and the
names that `readdir` returns for a directory, in the order it returns them
(`none` when `opendir` fails). -/
structure FS where
  lstat : Str → Option Stat
  md4 : Str → List Nat
  readdir : Str → Option (List Str)

/-- The state after `memset(state, 0, sizeof(*state))`. -/
def State.zero : State := State.mk (List.replicate 16 0) 0 0 0 0 0 0 0

/-- Writing through the pointer `&item->second`: nothing is stored in the
database when `item` is `end()`. -/
def StateLog.store (db : ModLog) (item : Nat) (state : State) : ModLog :=
  match db.get? item with
  | some e => db.set item (e.1, state)
  | none => db

/-- The method `StateLog::renewState(key, item)`: the database, the iterator
`item` and the result afterwards; `none` when an assertion fails.  An `item`
that is no index of the database is `end()`. -/
def StateLog.renewState (fs : FS) (db : ModLog) (key : Str) (item : Nat) :
    Option (ModLog × Nat × Nat) :=
  let atEnd : Bool := (db.get? item).isNone
  let keyOk : Bool :=
    match db.get? item with
    | some e => decide (e.1.str = key)
    | none => true
  let state : State :=
    match db.get? item with
    | some e => e.2
    | none => State.zero
  if ¬ keyOk then none
  else
    match fs.lstat key with
    | none =>
      if state.mode ≠ 0 then
        some (StateLog.store db item
            (State.mk state.md4 state.uid state.gid state.mode state.mtime state.ctime state.size
              (if S_ISDIR state.mode then State.rmdired else State.removed)),
          item, if S_ISDIR state.mode then State.rmdired else State.removed)
      else some (db, item, 0)
    | some buf =>
      let access : Bool :=
        decide (buf.st_mode ≠ state.mode ∨ buf.st_gid ≠ state.gid ∨ buf.st_uid ≠ state.uid)
      let s1 : State :=
        if access then
          State.mk state.md4 buf.st_uid buf.st_gid buf.st_mode state.mtime buf.st_ctime state.size
            state.action
        else state
      let r1 : Nat := if access then State.newaccess else 0
      let modified : Bool := decide (buf.st_mtime > s1.mtime ∨ buf.st_size ≠ s1.size)
      let s2 : State :=
        if modified then
          State.mk (if ¬ S_ISDIR s1.mode then fs.md4 key else s1.md4) s1.uid s1.gid s1.mode
            buf.st_mtime s1.ctime buf.st_size s1.action
        else s1
      let r2 : Nat :=
        if modified ∧ ¬ S_ISDIR s1.mode then
          (if S_ISLNK s1.mode then State.newlink else State.changed)
        else r1
      let result : Nat :=
        if atEnd then
          (if S_ISDIR s2.mode then State.mkdired
           else if S_ISLNK s2.mode then State.newlink
           else if S_ISREG s2.mode then State.created
           else 0)
        else r2
      if result ≠ 0 then
        let s3 : State := State.mk s2.md4 s2.uid s2.gid s2.mode s2.mtime s2.ctime s2.size result
        if atEnd then
          match ModLog.insert db key s3 with
          | none => none
          | some res => if res.2.2 then some (res.1, res.2.1, result) else none
        else some (StateLog.store db item s3, item, result)
      else some (StateLog.store db item s2, item, result)

/-- The loop `while(item != end())` of `StateLog::testPath`, which looks for
removed items after the tested one; `events` collects the calls of `change`. -/
def StateLog.testPathLoop (fs : FS) :
    Nat → ModLog → Nat → List (Str × State) → Option (ModLog × List (Str × State))
  | 0, _, _, _ => none
  | fuel + 1, db, item, events =>
    match db.get? item with
    | none => some (db, events)
    | some e =>
      match StateLog.renewState fs db e.1.str item with
      | none => none
      | some r =>
        let events1 :=
          if r.2.2 ≠ 0 then events ++ (r.1.get? r.2.1).toList.map (fun x => (x.1.str, x.2))
          else events
        if r.2.2 &&& (State.rmdired ||| State.removed) ≠ 0 then
          match ModLog.erase r.1 r.2.1 with
          | none => none
          | some er => StateLog.testPathLoop fs fuel er.1 er.2 events1
        else some (r.1, events1)

/-- The method `StateLog::testPath(path)`: the database afterwards, the calls
of `change` in order, and the result. -/
def StateLog.testPath (fs : FS) (fuel : Nat) (db : ModLog) (path : Str) :
    Option (ModLog × List (Str × State) × Nat) :=
  match StateLog.renewState fs db path ((ModLog.find db path).getD db.length) with
  | none => none
  | some r =>
    match r.1.get? r.2.1 with
    | none => some (r.1, [], r.2.2)
    | some x =>
      let events : List (Str × State) := if r.2.2 ≠ 0 then [(x.1.str, x.2)] else []
      if r.2.2 &&& (State.rmdired ||| State.removed) ≠ 0 then
        match ModLog.erase r.1 r.2.1 with
        | none => none
        | some er =>
          (StateLog.testPathLoop fs fuel er.1 er.2 events).map (fun t => (t.1, t.2, r.2.2))
      else
        (StateLog.testPathLoop fs fuel r.1 (r.2.1 + 1) events).map (fun t => (t.1, t.2, r.2.2))

/-- The test of `StateLog::walkTree` that skips the directory entry `.` and
every entry whose name starts with two dots. -/
def StateLog.skipName (d_name : Str) : Bool :=
  (d_name.get? 0 == some 46 && d_name.get? 1 == some 46)
    || (d_name.get? 0 == some 46 && d_name.get? 1 == none)

mutual
/-- The method `StateLog::walkTree(full_path)`; `isValidPath` is the virtual
method of that name and `junk` is what the uninitialised `struct stat` holds
when `lstat` fails. -/
def StateLog.walkTree (fs : FS) (isValidPath : Str → Bool) (junk : Stat) :
    Nat → ModLog → Str → Option (ModLog × List (Str × State))
  | 0, _, _ => none
  | fuel + 1, db, full_path =>
    match fs.readdir full_path with
    | none => some (db, [])
    | some names => StateLog.walkItems fs isValidPath junk fuel db full_path names
/-- The loop `while(item = readdir(dirf))` of `StateLog::walkTree` over the
entries that are left; `dir` is the first `length` bytes of `full_path`. -/
def StateLog.walkItems (fs : FS) (isValidPath : Str → Bool) (junk : Stat) :
    Nat → ModLog → Str → List Str → Option (ModLog × List (Str × State))
  | 0, _, _, _ => none
  | _ + 1, db, _, [] => some (db, [])
  | fuel + 1, db, dir, d_name :: rest =>
    if StateLog.skipName d_name then StateLog.walkItems fs isValidPath junk fuel db dir rest
    else if ¬ isValidPath (dir ++ d_name) then
      StateLog.walkItems fs isValidPath junk fuel db dir rest
    else
      match StateLog.testPath fs fuel db (dir ++ d_name) with
      | none => none
      | some t =>
        if S_ISDIR ((fs.lstat (dir ++ d_name)).getD junk).st_mode then
          if t.2.2 &&& State.mkdired = 0 then
            match t.1.get? (ModLog.lower_bound t.1 (dir ++ d_name ++ [48])) with
            | none =>
              (StateLog.walkItems fs isValidPath junk fuel t.1 dir rest).map
                (fun w => (w.1, t.2.1 ++ w.2))
            | some i =>
              match StateLog.testPath fs fuel t.1 i.1.str with
              | none => none
              | some u =>
                (StateLog.walkItems fs isValidPath junk fuel u.1 dir rest).map
                  (fun w => (w.1, t.2.1 ++ u.2.1 ++ w.2))
          else
            match StateLog.walkTree fs isValidPath junk fuel t.1 (dir ++ d_name ++ [47]) with
            | none => none
            | some v =>
              (StateLog.walkItems fs isValidPath junk fuel v.1 dir rest).map
                (fun w => (w.1, t.2.1 ++ v.2 ++ w.2))
        else
          (StateLog.walkItems fs isValidPath junk fuel t.1 dir rest).map
            (fun w => (w.1, t.2.1 ++ w.2))
end

/-- The method `StateLog::validateMD4(path, md4)`. -/
def StateLog.validateMD4 (db : ModLog) (path : Str) (md4 : List Nat) : ModLog :=
  match ModLog.find db path with
  | none => db
  | some i =>
    match db.get? i with
    | none => db
    | some e =>
      if S_ISREG e.2.mode ∧ e.2.md4 ≠ md4 then
        db.set i (e.1, State.mk e.2.md4 e.2.uid e.2.gid e.2.mode 0 e.2.ctime e.2.size e.2.action)
      else db

/-- The method `StateLog::changeDB(path, md4)`, `md4 = none` for the default
argument `NULL`: the database afterwards and the calls of `change` in order;
`none` when an assertion fails or the fuel runs out. -/
def StateLog.changeDB (fs : FS) (isValidPath : Str → Bool) (junk : Stat) (fuel : Nat)
    (db : ModLog) (path : Str) (md4 : Option (List Nat)) : Option (ModLog × List (Str × State)) :=
  let db0 :=
    match md4 with
    | some m => StateLog.validateMD4 db path m
    | none => db
  match StateLog.testPath fs fuel db0 path with
  | none => none
  | some t =>
    (StateLog.walkTree fs isValidPath junk fuel t.1 (path ++ [47])).map
      (fun w => (w.1, t.2.1 ++ w.2))
/-- A directory `/w` that holds the regular files `Z` and `a.txt`; `readdir`
returns `a.txt` before `Z`. -/
def rescanFS : FS :=
  FS.mk
    (fun p =>
      if p = bytes "/w" then some (Stat.mk 0o040755 1000 1000 5 5 4096)
      else if p = bytes "/w/Z" ∨ p = bytes "/w/a.txt" then some (Stat.mk 0o100644 1000 1000 5 5 4)
      else none)
    (fun _ => List.replicate 16 7)
    (fun p => if p = bytes "/w/" then some [bytes ".", bytes "..", bytes "a.txt", bytes "Z"] else none)

/-- The state the database holds for the directory `/w` of `rescanFS`. -/
def rescanDir : State := State.mk (List.replicate 16 0) 1000 1000 0o040755 5 5 4096 State.mkdired

/-- The state the database holds for a regular file of `rescanFS`. -/
def rescanFile : State := State.mk (List.replicate 16 7) 1000 1000 0o100644 5 5 4 State.created

/-! ## Backup names (`modlog.cpp`, `StateLog::backup`) -/

/-- The C function `isdigit` on a byte. -/
def isdigit (c : Nat) : Bool := 48 ≤ c && c ≤ 57

/-- The C function `isspace` on a byte (C locale). -/
def isspace (c : Nat) : Bool := c == 32 || (9 ≤ c && c ≤ 13)

/-- The C function `atoi` on the bytes of a C string: white space, an optional
sign, then decimal digits.  The value is not reduced to the range of `int`
(the C function is undefined there). -/
def atoi (s : Str) : Int :=
  let t := s.dropWhile isspace
  let neg : Bool := t.head? == some 45
  let u := if t.head? == some 45 ∨ t.head? == some 43 then t.tail else t
  let v : Int := (u.takeWhile isdigit).foldl (fun (a : Int) (c : Nat) => a * 10 + ((c : Int) - 48)) 0
  if neg then -v else v

/-- The function `to_string` on an `int`: its decimal digits. -/
def to_string (n : Int) : Str :=
  if n < 0 then 45 :: (Nat.toDigits 10 n.natAbs).map Char.toNat
  else (Nat.toDigits 10 n.natAbs).map Char.toNat

/-- The call `s.rfind(c)` of `std::string`: the position of the last
occurrence of the byte `c`; `none` stands for `npos`. -/
def strRfind : Str → Nat → Option Nat
  | [], _ => none
  | a :: as, c =>
    match strRfind as c with
    | some i => some (i + 1)
    | none => if a = c then some 0 else none

/-- The loop of `StateLog::backup` over the database entries from
`lower_bound(base)` on: the highest revision number found, `none` when the
loop returns because a backup with the same md4 exists.  `ext` is
`full_path.substr(ext_pos)`, `none` when `ext_pos` is `npos`.  Keys are C
strings, so the bytes from `pa.c_str() + base.length()` on are
`pa.drop base.length`. -/
def StateLog.backupScan (base : Str) (ext : Option Str) (md4 : List Nat) :
    List (Path × State) → Int → Option Int
  | [], revision => some revision
  | i :: rest, revision =>
    if strncmp i.1.str base base.length ≠ 0 then some revision
    else
      if ext = none ∨ ext = some
          (((i.1.str.drop base.length).dropWhile isdigit).takeWhile (fun c => c ≠ 0)) then
        if md4 = i.2.md4 then none
        else StateLog.backupScan base ext md4 rest (max (atoi (i.1.str.drop base.length)) revision)
      else StateLog.backupScan base ext md4 rest revision

/-- The name that `StateLog::backup(full_path)` gives to the copy: `none` when
the assertion fails, `some none` when it returns without making a backup. -/
def StateLog.backupName (db : ModLog) (full_path : Str) : Option (Option Str) :=
  let ext_pos := strRfind full_path 46
  let base :=
    (match ext_pos with
     | some p => full_path.take p
     | none => full_path) ++ [45]
  let ext := ext_pos.map (fun p => full_path.drop p)
  match ModLog.find db full_path with
  | none => none
  | some i =>
    match db.get? i with
    | none => none
    | some e =>
      match StateLog.backupScan base ext e.2.md4 (db.drop (ModLog.lower_bound db base)) 0 with
      | none => some none
      | some revision =>
        some (some (base ++ to_string (revision + 1) ++
          (match ext with
           | some x => x
           | none => [])))

/-! ## Log transfer (`dialog.cpp`, `watchpoint.cpp`) -/

/-- The value of a signed integer of `w` bytes from its two's complement
object representation. -/
def decodeSignedLE (w : Nat) (b : List Nat) : Int :=
  if decodeLE b < 2 ^ (8 * w - 1) then (decodeLE b : Int)
  else (decodeLE b : Int) - (2 : Int) ^ (8 * w)

/-- The size `sizeof(State)` (LP64 layout). -/
def sizeofState : Nat := 64

/-- The `State` whose object representation the bytes are (LP64 layout), the
reverse of `State.repr`. -/
def State.ofRepr (b : List Nat) : State :=
  State.mk (b.take 16) (decodeLE ((b.drop 16).take 4)) (decodeLE ((b.drop 20).take 4))
    (decodeLE ((b.drop 24).take 4)) (decodeSignedLE 8 ((b.drop 32).take 8))
    (decodeSignedLE 8 ((b.drop 40).take 8)) (decodeSignedLE 8 ((b.drop 48).take 8))
    (decodeLE ((b.drop 56).take 2))

/-- The loop `while(in.good())` of `ConnectedWatchPoint::receiveLog`.
`isValidPath` is `wp()->isValidPath`, `wpPath` is `wp()->path()`, `tr` is
`translateReceivedState` and `junk` holds the bytes of the uninitialised
`State state`; `none` when an assertion fails or the fuel is used up. -/
def receiveLogLoop (isValidPath : Str → Bool) (wpPath : Str) (tr : State → State)
    (junk : List Nat) : Nat → Reader → ModLog → Option ModLog
  | 0, r, log => if r.inp.good then none else some log
  | fuel + 1, r, log =>
    if r.inp.good then
      match Serializer.read sizeofState (fuel + 1) r [] junk with
      | none => none
      | some res =>
        if res.ok then
          if isValidPath (wpPath ++ res.key) then
            match ModLog.insert log res.key (tr (State.ofRepr res.container)) with
            | none => none
            | some x => receiveLogLoop isValidPath wpPath tr junk fuel res.reader x.1
          else receiveLogLoop isValidPath wpPath tr junk fuel res.reader log
        else receiveLogLoop isValidPath wpPath tr junk fuel res.reader log
    else some log

/-- The method `ConnectedWatchPoint::receiveLog(buf, log)`: the log
afterwards. -/
def receiveLog (isValidPath : Str → Bool) (wpPath : Str) (tr : State → State)
    (junk : List Nat) (fuel : Nat) (buf : List Nat) (log : ModLog) : Option ModLog :=
  receiveLogLoop isValidPath wpPath tr junk fuel (Reader.fresh buf) log

/-- The blocks passed to `receiveLog` one by one, in order. -/
def receiveBlocks (isValidPath : Str → Bool) (wpPath : Str) (tr : State → State)
    (junk : List Nat) (fuel : Nat) : List (List Nat) → ModLog → Option ModLog
  | [], log => some log
  | b :: bs, log =>
    match receiveLog isValidPath wpPath tr junk fuel b log with
    | none => none
    | some log1 => receiveBlocks isValidPath wpPath tr junk fuel bs log1

/-- The life of a `SendLogDialog`: `start()` is called, and called again for
every `ME_wavail` message (`incoming_message`) until it has ended the dialog.
`rounds` bounds the number of calls; the result is the dialog at its end. -/
def SendLogDialog.run (tr : State → State) (repr : State → List Nat) (pending : Nat → Bool)
    (fuel : Nat) : Nat → SendLogDialog → Option SendLogDialog
  | 0, _ => none
  | rounds + 1, d =>
    match SendLogDialog.start tr repr pending fuel d with
    | none => none
    | some r => if r.2 then some r.1 else SendLogDialog.run tr repr pending fuel rounds r.1
/-- The payload of a block that holds the records `seg`: what a serializer
writes for them after a reset. -/
def blockOf (seg : List (Str × State)) : List Nat :=
  (Serializer.writeAll Writer.fresh (seg.map (fun r => (r.1, State.repr r.2)))).out

/-- Invariant of a `SendLogDialog` on the log `log0`: the blocks written hold
the records sent so far, split into segments, the stream `_M_msg` holds the
segment being built, the log is what is left of `log0`, and the records sent
are the translated entries before the iterator. -/
def SendLogDialog.Inv (tr : State → State) (log0 : ModLog) (d : SendLogDialog) : Prop :=
  (∃ (segs : List (List (Str × State))) (cur : List (Str × State)), d.blocks = segs.map blockOf ∧ d.sent = segs.flatten ++ cur
      ∧ Serializer.writeAll Writer.fresh (cur.map (fun r => (r.1, State.repr r.2)))
          = Writer.mk d.msg d.lastKey)
    ∧ d.log.Sublist log0
    ∧ d.sent = (d.log.take d.iter).map (fun e => (e.1.str, tr e.2))

/-- What holds of a `SendLogDialog` on the log `log0` that has ended: the
blocks written hold exactly the records sent, which are translated entries of
`log0` in the order of the log. -/
def SendLogDialog.Ended (tr : State → State) (log0 : ModLog) (d : SendLogDialog) : Prop :=
  (∃ segs : List (List (Str × State)), d.blocks = segs.map blockOf ∧ d.sent = segs.flatten)
    ∧ ∃ l : ModLog, l.Sublist log0 ∧ d.sent = l.map (fun e => (e.1.str, tr e.2))

/-! ## Backup mode (`modlog.cpp`, `StateLog::backup`) -/

/-- The statement `state.mode &= ~(S_IWUSR | S_IWGRP | S_IROTH)` of
`StateLog::backup` on a 32-bit `mode_t`: the mode that `chmod` gives to the
backup file. -/
def StateLog.backupMode (mode : Nat) : Nat :=
  mode &&& (2 ^ 32 - 1 - (S_IWUSR ||| S_IWGRP ||| S_IROTH))

/-! ## Connection (`connection.cpp`) -/

/-- The method `ClientConnection::verifyServer(buf)`: `version_string` is the
client's own banner, `buf` the bytes of the `Start` message (a C string with
its NUL).  True means accepted; on false the connection is dropped.  `none`
when the own banner holds no `.` (`rindex` returns `NULL`). -/
def ClientConnection.verifyServer (version_string buf : Str) : Option Bool :=
  match strRfind version_string 46 with
  | none => none
  | some length => some (decide (strncmp buf version_string length = 0))

/-- The members `_M_UploadSpeed` (a `size_t`) and `_M_CompressionLevel` of a
`Connection`. -/
structure Connection where
  uploadSpeed : Nat
  compressionLevel : Int
deriving DecidableEq, Repr

/-- The method `Connection::init()`. -/
def Connection.init : Connection := { uploadSpeed := 0, compressionLevel := 0 }

/-- The branch of `Connection::incoming_message` for `ME_AdjustSpeed`; `delta`
is the `int` of the message.  The addition to the `size_t` is modulo
`2 ^ 64`. -/
def Connection.adjustSpeed (c : Connection) (delta : Int) : Connection :=
  let speed := (c.uploadSpeed + (delta % (2 : Int) ^ 64).toNat) % 2 ^ 64
  if speed < 1000000 then
    if delta > 0 ∨ c.compressionLevel = 0 then
      if c.compressionLevel < 4 then { uploadSpeed := speed, compressionLevel := 4 }
      else if c.compressionLevel < 9 then
        { uploadSpeed := speed, compressionLevel := c.compressionLevel + 1 }
      else { uploadSpeed := speed, compressionLevel := c.compressionLevel }
    else
      if c.compressionLevel > 4 then
        { uploadSpeed := speed, compressionLevel := c.compressionLevel - 1 }
      else { uploadSpeed := speed, compressionLevel := c.compressionLevel }
  else { uploadSpeed := speed, compressionLevel := 0 }

/-! ## Held file locks (`connection.cpp`) -/

/-- The struct `Connection::lock`; `wp` names the `WatchPoint`. -/
structure Lock where
  path : Str
  fd : Int
  wp : Nat
deriving DecidableEq, Repr

/-- The call `lower_bound(_M_LockedFiles.begin(), _M_LockedFiles.end(), tmp)`
with `lock::operator<`, which compares the paths: the first position whose
path is not less than `path` (the vector is kept sorted). -/
def lockLowerBound : List Lock → Str → Nat
  | [], _ => 0
  | l :: ls, path => if strLt l.path path then lockLowerBound ls path + 1 else 0

/-- What `lockFile` and `unlockFile` do to the outside, in order. -/
inductive LockOp where
  /-- The call `open(path, O_RDWR)`. -/
  | openFile (path : Str)
  /-- The call `fcntl(fd, F_SETLK, &fl)` with the lock type for `type`. -/
  | setlk (fd : Int) (type : Char)
  /-- The call `wp->notifyFileLock(path, type, NULL, session)`. -/
  | notifyFileLock (wp : Nat) (path : Str) (type : Char)
  /-- The call `close(fd)`. -/
  | closeFile (fd : Int)
deriving DecidableEq, Repr

/-- The method `Connection::lockFile(wp, path, type)` on the vector
`_M_LockedFiles`; `wp` names `wp->wp()` and `fd` is what `open` returns. -/
def Connection.lockFile (locks : List Lock) (wp : Nat) (path : Str) (type : Char) (fd : Int) :
    List Lock × List LockOp :=
  if (match locks.get? (lockLowerBound locks path) with
      | some f => decide (f.path = path)
      | none => false) then (locks, [])
  else
    (locks.take (lockLowerBound locks path) ++ Lock.mk path fd wp
        :: locks.drop (lockLowerBound locks path),
      [LockOp.openFile path, LockOp.setlk fd type, LockOp.notifyFileLock wp path type])

/-- The method `Connection::unlockFile(wp, path)` on the vector
`_M_LockedFiles`. -/
def Connection.unlockFile (locks : List Lock) (path : Str) : List Lock × List LockOp :=
  match locks.get? (lockLowerBound locks path) with
  | some f =>
    if f.path = path then
      (locks.eraseIdx (lockLowerBound locks path),
        [LockOp.closeFile f.fd, LockOp.notifyFileLock f.wp path 'u'])
    else (locks, [])
  | none => (locks, [])

/-- A call of `lockFile` (with the descriptor that `open` returns) or of
`unlockFile`. -/
inductive LockCall where
  | lock (wp : Nat) (path : Str) (type : Char) (fd : Int)
  | unlock (path : Str)
deriving DecidableEq, Repr

/-- The vector `_M_LockedFiles` after a call. -/
def Connection.lockStep (locks : List Lock) : LockCall → List Lock
  | LockCall.lock wp path type fd => (Connection.lockFile locks wp path type fd).1
  | LockCall.unlock path => (Connection.unlockFile locks path).1

/-- The log `_M_ServerLog` of the dialog, which is sent with `FullSyncLog`,
after the calls `_M_ServerLog.insert(key, state)` among the effects of
`compareState` are made in order, starting from `log`; `none` when an
assertion of `ModLog::insert` fails. -/
def serverLogAfter : List Effect → ModLog → Option ModLog
  | [], log => some log
  | Effect.serverLog key state :: es, log =>
    match ModLog.insert log key state with
    | none => none
    | some r => serverLogAfter es r.1
  | Effect.clientLog _ _ :: es, log => serverLogAfter es log
  | Effect.backup _ :: es, log => serverLogAfter es log

/-- Invariant of a `SendLogDialog` for the size of its blocks, `L` being a
bound for the length of the keys: the stream `_M_msg` is below
`MAX_COPY_SIZE` at the head of the loop, and every block written has reached
`MAX_COPY_SIZE` with its last record. -/
def SendLogDialog.BlockInv (L : Nat) (d : SendLogDialog) : Prop :=
  d.msg.length < MAX_COPY_SIZE
    ∧ (∀ e ∈ d.log, e.1.str.length ≤ L)
    ∧ ∀ b ∈ d.blocks, MAX_COPY_SIZE ≤ b.length ∧ b.length < MAX_COPY_SIZE + L + 73

/-- The blocks of a `SendLogDialog` that has ended: every block but the last
has reached `MAX_COPY_SIZE` with its last record, the last is what was left in
`_M_msg`. -/
def SendLogDialog.BlockEnd (L : Nat) (d : SendLogDialog) : Prop :=
  (∀ b ∈ d.blocks, b.length < MAX_COPY_SIZE + L + 73)
    ∧ (∀ b ∈ d.blocks.dropLast, MAX_COPY_SIZE ≤ b.length)
    ∧ ∀ b, d.blocks.getLast? = some b → b.length < MAX_COPY_SIZE

/-! ## Session state machine (`watchpoint.cpp`, `dialog.cpp`) -/

/-- The message types that `ConnectedWatchPoint::incoming_message` and
`SyncSendDialog::incoming_message` tell apart; `other` is any other type
(`ME_wavail` among them). -/
inductive Msg where
  | CreateWriteLock
  | CreateReadLock
  | ReleaseLock
  | FullSyncStart
  | SyncStart
  | Reject
  | Accept
  | SyncStartOk
  | SyncComplete
  | RsyncStart
  | Backup
  | GetLink
  | other (type : Nat)
deriving DecidableEq, Repr

/-- The dialog classes other than `SyncSendDialog`. -/
inductive DialogClass where
  | SyncReceiveDialog
  | SendLogDialog
  | StackedDialog
  | RsyncSendDialog
  | RsyncReceiveDialog
  | LinkDialog
  | ServerFullSyncDialog
  | ClientFullSyncDialog
deriving DecidableEq, Repr

/-- An entry of `_M_DialogStack`: a `SyncSendDialog` with its members
`_M_AsClient` and `_M_Mode`, or a dialog of another class, of which only the
class is kept. -/
inductive Dialog where
  | syncSend (asClient : Bool) (mode : Nat)
  | other (cls : DialogClass)
deriving DecidableEq, Repr

/-- Enumerator `SyncSendDialog::SSD_Start`. -/
def SSD_Start : Nat := 0
/-- Enumerator `SyncSendDialog::SSD_SendingSyncLog`. -/
def SSD_SendingSyncLog : Nat := 1
/-- Enumerator `SyncSendDialog::SSD_WaitForComplete`. -/
def SSD_WaitForComplete : Nat := 2
/-- Enumerator `SyncSendDialog::SSD_Receive`. -/
def SSD_Receive : Nat := 3
/-- Enumerator `ConnectedWatchPoint::MO_start`. -/
def MO_start : Nat := 0
/-- Enumerator `ConnectedWatchPoint::MO_fullsynched`. -/
def MO_fullsynched : Nat := 1

/-- The members of a `ConnectedWatchPoint` that the synchronisation uses.
`stack` is `_M_DialogStack` with `back()` first; `writeLog` and `sendLog` are
the logs that `_M_WriteLog` and `_M_SendLog` point to; `isClient` tells a
`ClientWatchPoint`. -/
structure Session where
  isClient : Bool
  mode : Nat
  stack : List Dialog
  pendingSync : Bool
  writeLog : ModLog
  sendLog : ModLog
deriving DecidableEq, Repr

/-- The state after the constructor of `ConnectedWatchPoint`. -/
def Session.init (isClient : Bool) : Session :=
  { isClient := isClient, mode := MO_start, stack := [], pendingSync := false,
    writeLog := [], sendLog := [] }

/-- The messages that `ConnectedWatchPoint::incoming_message` passes to the
`Connection` as lock requests before it looks at the dialog stack. -/
def Msg.isLock : Msg → Bool
  | Msg.CreateWriteLock => true
  | Msg.CreateReadLock => true
  | Msg.ReleaseLock => true
  | _ => false

/-- The member `_M_Mode` after `SyncSendDialog::popUp()`. -/
def SyncSendDialog.popUp (mode : Nat) : Nat :=
  if mode = SSD_SendingSyncLog then SSD_WaitForComplete
  else if mode = SSD_Receive then SSD_Start
  else mode

/-- The method `ConnectedWatchPoint::popDialog()`, with the call
`back->popUp()` when the new `back()` is a `SyncSendDialog`; the `popUp()` of a
dialog of another class is a move of that dialog (`Session.OtherMove`). -/
def Session.popDialog (s : Session) : Session :=
  match s.stack with
  | [] => s
  | [_] => { s with stack := [] }
  | _ :: Dialog.syncSend c m :: rest =>
    { s with stack := Dialog.syncSend c (SyncSendDialog.popUp m) :: rest }
  | _ :: Dialog.other cls :: rest => { s with stack := Dialog.other cls :: rest }

/-- The method `ConnectedWatchPoint::startSync()`: the two logs change their
roles and a `SyncSendDialog` is pushed and started; `none` when the assertion
`_M_SendLog->empty()` fails. -/
def Session.startSync (s : Session) : Option Session :=
  if s.sendLog ≠ [] then none
  else
    some { s with writeLog := s.sendLog, sendLog := s.writeLog,
                  stack := Dialog.syncSend s.isClient SSD_Start :: s.stack,
                  pendingSync := false }

/-- The method `ConnectedWatchPoint::fire()`. -/
def Session.fire (s : Session) : Option Session :=
  if s.mode < MO_fullsynched then some s
  else if s.stack ≠ [] then some { s with pendingSync := true }
  else s.startSync

/-- The method `ConnectedWatchPoint::file_changed(key, state, lock_id)`;
`ownLock` is `lock_id == this`. -/
def Session.file_changed (s : Session) (key : Str) (state : State) (ownLock : Bool) :
    Option Session :=
  (addToLog s.writeLog key state ownLock true).map (fun r => { s with writeLog := r.1 })

/-- The method `SyncSendDialog::incoming_message` of the dialog
`syncSend asClient mode` on top of the stack, `rest` being the stack below it,
up to the start of a dialog that it pushes; `none` when an assertion fails. -/
def SyncSendDialog.incoming_message (s : Session) (asClient : Bool) (mode : Nat)
    (rest : List Dialog) : Msg → Option Session
  | Msg.Reject =>
    if mode = SSD_WaitForComplete then
      match undoSync s.writeLog s.sendLog with
      | none => none
      | some r => some (Session.popDialog { s with writeLog := r.1, sendLog := r.2.1 })
    else some s
  | Msg.SyncStart =>
    if mode ≠ SSD_Start then none
    else if asClient then
      some { s with stack := Dialog.other DialogClass.SyncReceiveDialog
                      :: Dialog.syncSend asClient SSD_Receive :: rest }
    else some s
  | Msg.SyncStartOk =>
    some { s with stack := Dialog.other DialogClass.SendLogDialog
                    :: Dialog.syncSend asClient SSD_SendingSyncLog :: rest }
  | Msg.SyncComplete => some (Session.popDialog { s with sendLog := [] })
  | Msg.RsyncStart =>
    if mode ≠ SSD_WaitForComplete then none
    else
      some { s with stack := Dialog.other DialogClass.RsyncReceiveDialog
                      :: Dialog.syncSend asClient mode :: rest }
  | Msg.Backup => if mode ≠ SSD_WaitForComplete then none else some s
  | Msg.GetLink => if mode ≠ SSD_WaitForComplete then none else some s
  | _ => some s

/-- The method `ConnectedWatchPoint::incoming_message` for a message that is
no lock message, from the test of the dialog stack up to the start of the
dialog that takes the message; a message for a dialog of another class on top
of the stack is left to that dialog (`Session.OtherMove`). -/
def Session.deliver (s : Session) (m : Msg) : Option Session :=
  match s.stack with
  | [] =>
    match m with
    | Msg.FullSyncStart =>
      some { s with stack := [Dialog.other DialogClass.ServerFullSyncDialog],
                    mode := MO_fullsynched }
    | Msg.SyncStart => some { s with stack := [Dialog.other DialogClass.SyncReceiveDialog] }
    | Msg.Accept =>
      some { s with stack := [Dialog.other DialogClass.ClientFullSyncDialog],
                    mode := MO_fullsynched }
    | _ => some s
  | Dialog.syncSend c mode :: rest => SyncSendDialog.incoming_message s c mode rest m
  | Dialog.other _ :: _ => some s

/-- The last statement of `ConnectedWatchPoint::incoming_message`:
`if (_M_DialogStack.empty() && _M_PendingSync) startSync();`. -/
def Session.afterMessage (s : Session) : Option Session :=
  if s.stack = [] ∧ s.pendingSync = true then s.startSync else some s

/-- What the code of the dialogs other than `SyncSendDialog` (their `start`,
`incoming_message` and `popUp`) and the change notifications it causes can do
to the session while such a dialog is on top of the stack: push a dialog of
another class, end the dialog on top (`endDialog()`, always called by the
dialog on top), add to the write-log (`addToLog`, `receiveWriteLog`), and, in
`SendLogDialog::start`, erase entries of the send-log. -/
inductive Session.OtherMove : Session → Session → Prop where
  | push (s : Session) (cls top : DialogClass) (rest : List Dialog)
      (h : s.stack = Dialog.other top :: rest) :
      Session.OtherMove s { s with stack := Dialog.other cls :: s.stack }
  | endDialog (s : Session) (top : DialogClass) (rest : List Dialog)
      (h : s.stack = Dialog.other top :: rest) :
      Session.OtherMove s s.popDialog
  | writeLog (s : Session) (log : ModLog) : Session.OtherMove s { s with writeLog := log }
  | eraseSendLog (s : Session) (log : ModLog) (h : log.Sublist s.sendLog) :
      Session.OtherMove s { s with sendLog := log }

/-- One event of a session: a fire of the timer, a change notification, a
lock message, or another incoming message with what the dialogs make of
it. -/
inductive Session.Step : Session → Session → Prop where
  | fire (s s1 : Session) (h : s.fire = some s1) : Session.Step s s1
  | file_changed (s s1 : Session) (key : Str) (state : State) (ownLock : Bool)
      (h : s.file_changed key state ownLock = some s1) : Session.Step s s1
  | lockMessage (s : Session) (m : Msg) (hm : m.isLock = true) : Session.Step s s
  | message (s s1 s2 s3 : Session) (m : Msg) (hm : m.isLock = false)
      (h1 : s.deliver m = some s1)
      (h2 : Relation.ReflTransGen Session.OtherMove s1 s2)
      (h3 : s2.afterMessage = some s3) : Session.Step s s3

/-- The session states reachable from the initial state. -/
inductive Session.Reachable (isClient : Bool) : Session → Prop where
  | init : Session.Reachable isClient (Session.init isClient)
  | step (s s1 : Session) (h : Session.Reachable isClient s) (hs : Session.Step s s1) :
      Session.Reachable isClient s1

/-- Invariant of a session: a send-log with records belongs to a
`SyncSendDialog` at the bottom of the dialog stack. -/
def Session.SendInv (s : Session) : Prop :=
  s.sendLog = [] ∨ ∃ c m, s.stack.getLast? = some (Dialog.syncSend c m)

/-! # Theorems -/

/-! ## Serializer -/

theorem decodeLE_encodeLE (w n : Nat) (h : n < 256 ^ w) : decodeLE (encodeLE w n) = n := by
  induction w generalizing n with
  | zero => simp at h; subst h; rfl
  | succ w ih =>
    have h2 : n / 256 < 256 ^ w := by
      rw [Nat.div_lt_iff_lt_mul (by norm_num)]
      rw [pow_succ] at h; exact h
    simp only [encodeLE, decodeLE, ih _ h2]
    omega

theorem length_encodeLE (w n : Nat) : (encodeLE w n).length = w := by
  induction w generalizing n with
  | zero => rfl
  | succ w ih => simp [encodeLE, ih]

theorem same_to_le (a b : Str) : same_to a b ≤ a.length := by
  induction a generalizing b with
  | nil => simp [same_to]
  | cons x xs ih =>
    cases b with
    | nil => simp [same_to]
    | cons y ys =>
      simp only [same_to]
      split
      · simpa using ih ys
      · simp

theorem same_to_take (a b : Str) : b.take (same_to a b) = a.take (same_to a b) := by
  induction a generalizing b with
  | nil => simp [same_to]
  | cons x xs ih =>
    cases b with
    | nil => simp [same_to]
    | cons y ys =>
      simp only [same_to]
      split
      · rename_i h
        simp [List.take_succ_cons, ih ys, h.1]
      · simp

theorem readTail_spec (tail rest acc : Str) (fuel : Nat) (hn : NulFree tail)
    (hf : tail.length < fuel) :
    Serializer.readTail fuel { buf := tail ++ 0 :: rest, good := true } acc
      = some (acc ++ tail, { buf := rest, good := true }) := by
  induction tail generalizing acc fuel with
  | nil =>
    cases fuel with
    | zero => simp at hf
    | succ f => simp [Serializer.readTail, IStream.get]
  | cons c cs ih =>
    cases fuel with
    | zero => simp at hf
    | succ f =>
      have hc : c ≠ 0 := hn c (by simp)
      have hcs : NulFree cs := fun x hx => hn x (by simp [hx])
      have hf2 : cs.length < f := by simpa using hf
      simp only [Serializer.readTail, IStream.get, List.cons_append, if_true, hc, if_false]
      rw [ih (acc ++ [c]) f hcs hf2]
      simp

theorem writeAll_out (w : Writer) (recs : List (Str × List Nat)) :
    ∃ tailBytes, (Serializer.writeAll w recs).out = w.out ++ tailBytes := by
  induction recs generalizing w with
  | nil => exact ⟨[], by simp [Serializer.writeAll]⟩
  | cons r rs ih =>
    obtain ⟨k, c⟩ := r
    obtain ⟨t, ht⟩ := ih (Serializer.write w k c)
    refine ⟨encodeLE sizeofSizeT (same_to k w.lastKey) ++ (k.drop (same_to k w.lastKey) ++ [0])
      ++ c ++ t, ?_⟩
    rw [Serializer.writeAll, ht]
    simp [Serializer.write]

theorem read_written (csize fuel : Nat) (last key container rest k0 c0 : List Nat)
    (hn : NulFree key) (hl : key.length < 2 ^ 64) (hc : container.length = csize)
    (hc0 : c0.length ≤ csize) (hf : key.length - same_to key last < fuel) :
    Serializer.read csize fuel
        (Reader.mk (IStream.mk (encodeLE sizeofSizeT (same_to key last)
                     ++ (key.drop (same_to key last) ++ [0]) ++ container ++ rest) true) last)
        k0 c0
      = some (ReadResult.mk true (Reader.mk (IStream.mk rest true) key) key container) := by
  have hpos : same_to key last < 256 ^ sizeofSizeT := by
    have := same_to_le key last
    have h2 : (256 : Nat) ^ sizeofSizeT = 2 ^ 64 := by norm_num [sizeofSizeT]
    omega
  have hdrop : NulFree (key.drop (same_to key last)) :=
    fun x hx => hn x (List.mem_of_mem_drop hx)
  have hlen8 : (encodeLE sizeofSizeT (same_to key last)).length = sizeofSizeT :=
    length_encodeLE _ _
  have hfd : (key.drop (same_to key last)).length < fuel := by
    simp only [List.length_drop]; exact hf
  have hread : IStream.read (IStream.mk (encodeLE sizeofSizeT (same_to key last)
                     ++ (key.drop (same_to key last) ++ [0]) ++ container ++ rest) true)
        sizeofSizeT
      = (encodeLE sizeofSizeT (same_to key last),
         IStream.mk (key.drop (same_to key last) ++ 0 :: (container ++ rest)) true) := by
    simp only [IStream.read, if_true, List.append_assoc]
    rw [if_pos (by simp [hlen8])]
    rw [List.take_left' hlen8, List.drop_left' hlen8]
    simp
  have hread2 : IStream.read (IStream.mk (container ++ rest) true) csize
      = (container, IStream.mk rest true) := by
    simp only [IStream.read, if_true]
    rw [if_pos (by simp [hc])]
    rw [List.take_left' hc, List.drop_left' hc]
  simp only [Serializer.read, hread, hlen8, ne_eq, not_true_eq_false, if_false]
  rw [readTail_spec _ _ _ _ hdrop hfd]
  simp only [hread2, decodeLE_encodeLE _ _ hpos, List.nil_append]
  rw [same_to_take key last, List.take_append_drop]
  simp [hc, hc0]

theorem read_at_end (csize fuel : Nat) (last k0 c0 : List Nat) (g : Bool) :
    Serializer.read csize fuel (Reader.mk (IStream.mk [] g) last) k0 c0
      = some (ReadResult.mk false (Reader.mk (IStream.mk [] false) last) k0 c0) := by
  cases g <;> simp [Serializer.read, IStream.read, sizeofSizeT]

theorem readAll_writeAll (csize : Nat) (recs : List (Str × List Nat)) (w : Writer)
    (hn : ∀ r ∈ recs, NulFree r.1) (hl : ∀ r ∈ recs, r.1.length < 2 ^ 64)
    (hc : ∀ r ∈ recs, r.2.length = csize) (fuel : Nat) (t : List Nat)
    (ht : (Serializer.writeAll w recs).out = w.out ++ t)
    (hf : t.length < fuel) :
    Serializer.readAll csize fuel (Reader.mk (IStream.mk t true) w.lastKey)
      = some (recs, Reader.mk (IStream.mk [] false) (Serializer.writeAll w recs).lastKey) := by
  induction recs generalizing w fuel t with
  | nil =>
    cases fuel with
    | zero => simp at hf
    | succ f =>
      have : t = [] := by simpa [Serializer.writeAll] using ht
      subst this
      simp [Serializer.writeAll, Serializer.readAll, read_at_end]
  | cons r rs ih =>
    obtain ⟨k, c⟩ := r
    cases fuel with
    | zero => simp at hf
    | succ f =>
      obtain ⟨t2, ht2⟩ := writeAll_out (Serializer.write w k c) rs
      have hk : NulFree k := hn (k, c) (by simp)
      have hkl : k.length < 2 ^ 64 := hl (k, c) (by simp)
      have hcl : c.length = csize := hc (k, c) (by simp)
      have ht3 : t = encodeLE sizeofSizeT (same_to k w.lastKey)
              ++ (k.drop (same_to k w.lastKey) ++ [0]) ++ c ++ t2 := by
        have h1 : (Serializer.writeAll w ((k, c) :: rs)).out
            = w.out ++ (encodeLE sizeofSizeT (same_to k w.lastKey)
              ++ (k.drop (same_to k w.lastKey) ++ [0]) ++ c ++ t2) := by
          rw [Serializer.writeAll, ht2]
          simp [Serializer.write]
        rw [h1] at ht
        exact (List.append_cancel_left ht).symm
      have hsl := same_to_le k w.lastKey
      have hlt : t.length = sizeofSizeT + (k.length - same_to k w.lastKey + 1) + c.length
          + t2.length := by
        rw [ht3]
        simp only [List.length_append, length_encodeLE, List.length_drop, List.length_cons,
          List.length_nil]
      have hfk : k.length - same_to k w.lastKey < f + 1 := by
        simp only [sizeofSizeT] at hlt; omega
      have hf2 : t2.length < f := by simp only [sizeofSizeT] at hlt; omega
      have ih2 := ih (Serializer.write w k c) (fun r hr => hn r (by simp [hr]))
        (fun r hr => hl r (by simp [hr])) (fun r hr => hc r (by simp [hr])) f t2 ht2 hf2
      have hlk : (Serializer.write w k c).lastKey = k := rfl
      rw [hlk] at ih2
      rw [ht3]
      simp only [Serializer.readAll]
      rw [read_written csize (f + 1) w.lastKey k c t2 _ _ hk hkl hcl (by simp) hfk]
      simp only [if_true]
      rw [ih2]
      simp [Serializer.writeAll]

/-- Claim C1: records with NUL-free keys written in order by a fresh
`Serializer` and read back by a fresh `Serializer` come out identical and in
the same order (for every amount of fuel for the key loop that exceeds the
length of the stream); the next `read` returns false, and the reader ends
with the same `_M_LastKey` as the writer.  The order of the keys plays no
role in the proof, so the statement holds in particular for keys in
non-decreasing order. -/
theorem serializer_round_trip (csize : Nat) (recs : List (Str × List Nat))
    (hn : ∀ r ∈ recs, NulFree r.1) (hl : ∀ r ∈ recs, r.1.length < 2 ^ 64)
    (hc : ∀ r ∈ recs, r.2.length = csize) (fuel : Nat)
    (hf : (Serializer.writeAll Writer.fresh recs).out.length < fuel) :
    ∃ r : Reader,
      Serializer.readAll csize fuel (Reader.fresh (Serializer.writeAll Writer.fresh recs).out)
        = some (recs, r)
      ∧ r.lastKey = (Serializer.writeAll Writer.fresh recs).lastKey
      ∧ ∀ k c, (Serializer.read csize fuel r k c).map (fun res => res.ok) = some false := by
  have h := readAll_writeAll csize recs Writer.fresh hn hl hc fuel
    (Serializer.writeAll Writer.fresh recs).out (by simp [Writer.fresh]) hf
  refine ⟨Reader.mk (IStream.mk [] false) (Serializer.writeAll Writer.fresh recs).lastKey,
    ?_, rfl, ?_⟩
  · simpa [Writer.fresh, Reader.fresh] using h
  · intro k c
    rw [read_at_end]
    rfl

theorem serializer_round_trip_witness :
    ∃ r : Reader,
      Serializer.readAll 2 60
          (Reader.fresh (Serializer.writeAll Writer.fresh
            [(bytes "/a", [1, 2]), (bytes "/a/b", [3, 4]), (bytes "/ab", [5, 6])]).out)
        = some ([(bytes "/a", [1, 2]), (bytes "/a/b", [3, 4]), (bytes "/ab", [5, 6])], r)
      ∧ r.lastKey = (Serializer.writeAll Writer.fresh
            [(bytes "/a", [1, 2]), (bytes "/a/b", [3, 4]), (bytes "/ab", [5, 6])]).lastKey
      ∧ ∀ k c, (Serializer.read 2 60 r k c).map (fun res => res.ok) = some false :=
  serializer_round_trip 2 [(bytes "/a", [1, 2]), (bytes "/a/b", [3, 4]), (bytes "/ab", [5, 6])]
    (by decide) (by decide) (by decide) 60 (by decide)

/-! ## String order and prefixes -/

theorem strLt_irrefl (a : Str) : strLt a a = false := by
  induction a with
  | nil => rfl
  | cons x xs ih => simp [strLt, ih]

theorem strLt_trans (a b c : Str) (h1 : strLt a b = true) (h2 : strLt b c = true) :
    strLt a c = true := by
  induction a generalizing b c with
  | nil =>
    cases b with
    | nil => simp [strLt] at h1
    | cons y ys =>
      cases c with
      | nil => simp [strLt] at h2
      | cons z zs => rfl
  | cons x xs ih =>
    cases b with
    | nil => simp [strLt] at h1
    | cons y ys =>
      cases c with
      | nil => simp [strLt] at h2
      | cons z zs =>
        simp only [strLt] at h1 h2 ⊢
        by_cases hxy : x < y
        · by_cases hyz : y < z
          · simp [show x < z by omega]
          · simp only [hyz, if_false] at h2
            by_cases hzy : z < y
            · simp [hzy] at h2
            · simp [show x < z by omega]
        · simp only [hxy, if_false] at h1
          by_cases hyx : y < x
          · simp [hyx] at h1
          · simp only [hyx, if_false] at h1
            have hxy2 : x = y := by omega
            subst hxy2
            by_cases hyz : x < z
            · simp [hyz]
            · simp only [hyz, if_false] at h2 ⊢
              by_cases hzy : z < x
              · simp [hzy] at h2
              · simp only [hzy, if_false] at h2 ⊢
                exact ih ys zs h1 h2

theorem strLt_asymm (a b : Str) (h : strLt a b = true) : strLt b a = false := by
  cases hba : strLt b a with
  | false => rfl
  | true =>
    have := strLt_trans a b a h hba
    rw [strLt_irrefl] at this
    exact this.symm

theorem strLt_total (a b : Str) (h1 : strLt a b = false) (h2 : strLt b a = false) : a = b := by
  induction a generalizing b with
  | nil =>
    cases b with
    | nil => rfl
    | cons y ys => simp [strLt] at h1
  | cons x xs ih =>
    cases b with
    | nil => simp [strLt] at h2
    | cons y ys =>
      simp only [strLt] at h1 h2
      by_cases hxy : x < y
      · simp [hxy] at h1
      · by_cases hyx : y < x
        · simp [hyx] at h2
        · simp only [hxy, hyx, if_false] at h1 h2
          have : x = y := by omega
          rw [this, ih ys h1 h2]

theorem strLt_of_isPrefixOf (p x : Str) (h : p.isPrefixOf x = true) : strLt x p = false := by
  induction p generalizing x with
  | nil => cases x <;> rfl
  | cons a as ih =>
    cases x with
    | nil => simp at h
    | cons b bs =>
      simp only [List.isPrefixOf, Bool.and_eq_true, beq_iff_eq] at h
      obtain ⟨hab, hp⟩ := h
      subst hab
      simp [strLt, ih bs hp]

/-- Strings with a common prefix are contiguous in the order. -/
theorem prefix_between (p x y : Str) (hx : p.isPrefixOf x = true) (hpy : strLt y p = false)
    (hyx : strLt y x = true) : p.isPrefixOf y = true := by
  induction p generalizing x y with
  | nil => simp
  | cons a as ih =>
    cases x with
    | nil => simp at hx
    | cons b bs =>
      simp only [List.isPrefixOf, Bool.and_eq_true, beq_iff_eq] at hx
      obtain ⟨hab, hp⟩ := hx
      subst hab
      cases y with
      | nil => simp [strLt] at hpy
      | cons c cs =>
        simp only [strLt] at hpy hyx
        by_cases hca : c < a
        · simp [hca] at hpy
        · by_cases hac : a < c
          · simp [hca, hac] at hyx
          · simp only [hca, hac, if_false] at hpy hyx
            have : a = c := by omega
            subst this
            simp [List.isPrefixOf, ih bs cs hp hpy hyx]

theorem strncmp_self_length (a b : Str) (ha : NulFree a) :
    strncmp a b a.length = 0 ↔ a.isPrefixOf b = true := by
  induction a generalizing b with
  | nil => simp [strncmp]
  | cons x xs ih =>
    have hx : x ≠ 0 := ha x (by simp)
    have hxs : NulFree xs := fun c hc => ha c (by simp [hc])
    cases b with
    | nil =>
      simp only [List.length_cons, strncmp, List.headD_cons, List.headD_nil, ne_eq, hx,
        not_false_eq_true, if_true, List.isPrefixOf]
      constructor
      · intro h; omega
      · intro h; simp at h
    | cons y ys =>
      simp only [List.length_cons, strncmp, List.headD_cons, ne_eq, List.tail_cons,
        List.isPrefixOf, Bool.and_eq_true, beq_iff_eq]
      by_cases hxy : x = y
      · subst hxy
        simp [hx, ih ys hxs]
      · simp only [hxy, not_false_eq_true, if_true, false_and, iff_false]
        omega

theorem strFind_zero_iff (s pat : Str) : strFind s pat = some 0 ↔ pat.isPrefixOf s = true := by
  cases s with
  | nil =>
    cases pat <;> simp [strFind]
  | cons c cs =>
    simp only [strFind]
    by_cases h : pat.isPrefixOf (c :: cs) = true
    · simp [h]
    · simp only [h, if_false, iff_false]
      cases strFind cs pat <;> simp

theorem str_getMatchingParent (p q : Path) (path : Str) (hq : NulFree p.str)
    (h : p.getMatchingParent path = some q) : q.str.isPrefixOf path = true := by
  induction p with
  | root t =>
    simp only [Path.getMatchingParent] at h
    split at h
    · rename_i hc
      cases h
      exact (strncmp_self_length t path hq).1 hc.1
    · cases h
  | child par t ih =>
    simp only [Path.getMatchingParent] at h
    split at h
    · rename_i hc
      cases h
      exact (strncmp_self_length _ path hq).1 hc.1
    · have hpar : NulFree par.str := fun c hc => hq c (by simp [Path.str, hc])
      exact ih hpar h

theorem ofParent_getMatchingParent (p : Path) (path : Str) (hp : NulFree p.str) :
    ∃ c, Path.ofParent (p.getMatchingParent path) path = some c ∧ c.str = path := by
  cases hq : p.getMatchingParent path with
  | none => exact ⟨Path.root path, rfl, rfl⟩
  | some q =>
    have hpre := str_getMatchingParent p q path hp hq
    refine ⟨Path.child q (path.drop q.str.length), ?_, ?_⟩
    · simp [Path.ofParent, (strFind_zero_iff path q.str).2 hpre]
    · have := List.isPrefixOf_iff_prefix.1 hpre
      obtain ⟨t, ht⟩ := this
      simp [Path.str, ← ht]

/-! ## The ordered map -/

theorem mapInsert_mem (m : ModLog) (p : Path) (s : State) (x : Path × State) :
    x ∈ (ModLog.mapInsert m p s).1 ↔ x ∈ m ∨ ((ModLog.mapInsert m p s).2.2 = true ∧ x = (p, s)) := by
  induction m with
  | nil => simp [ModLog.mapInsert]
  | cons e es ih =>
    simp only [ModLog.mapInsert]
    split
    · simp only [List.mem_cons, ih]
      tauto
    · split
      · simp only [List.mem_cons]
        tauto
      · simp

theorem mapInsert_index (m : ModLog) (p : Path) (s : State) :
    (ModLog.mapInsert m p s).2.1 = ModLog.lower_bound m p.str := by
  induction m with
  | nil => rfl
  | cons e es ih =>
    simp only [ModLog.mapInsert, ModLog.lower_bound]
    split
    · simp [ih]
    · split <;> rfl

theorem mapInsert_sorted (m : ModLog) (p : Path) (s : State) (hs : ModLog.Sorted m) :
    ModLog.Sorted (ModLog.mapInsert m p s).1 := by
  induction m with
  | nil => simp [ModLog.mapInsert, ModLog.Sorted]
  | cons e es ih =>
    unfold ModLog.Sorted at hs ih ⊢
    rw [List.pairwise_cons] at hs
    simp only [ModLog.mapInsert]
    split
    · rename_i hlt
      rw [List.pairwise_cons]
      refine ⟨?_, ih hs.2⟩
      intro x hx
      rcases (mapInsert_mem es p s x).1 hx with h | ⟨_, h⟩
      · exact hs.1 x h
      · rw [h]; exact hlt
    · split
      · rename_i hlt
        rw [List.pairwise_cons, List.pairwise_cons]
        refine ⟨?_, hs⟩
        intro x hx
        rcases List.mem_cons.1 hx with h | h
        · rw [h]; exact hlt
        · exact strLt_trans _ _ _ hlt (hs.1 x h)
      · rw [List.pairwise_cons]; exact hs

theorem mapInsert_get (m : ModLog) (p : Path) (s : State) :
    ∃ e, (ModLog.mapInsert m p s).1.get? (ModLog.mapInsert m p s).2.1 = some e
      ∧ e.1.str = p.str
      ∧ ((ModLog.mapInsert m p s).2.2 = true → e = (p, s))
      ∧ ((ModLog.mapInsert m p s).2.2 = false →
          (ModLog.mapInsert m p s).1 = m ∧ m.get? (ModLog.mapInsert m p s).2.1 = some e)
      ∧ ModLog.lower_bound (ModLog.mapInsert m p s).1 p.str = (ModLog.mapInsert m p s).2.1 := by
  induction m with
  | nil => exact ⟨(p, s), by simp [ModLog.mapInsert, ModLog.lower_bound, strLt_irrefl]⟩
  | cons e es ih =>
    obtain ⟨x, h1, h2, h3, h4, h5⟩ := ih
    simp only [ModLog.mapInsert]
    split
    · rename_i hlt
      refine ⟨x, by simpa using h1, h2, h3, ?_, ?_⟩
      · intro hb
        have := h4 hb
        refine ⟨by rw [this.1], ?_⟩
        simpa using this.2
      · simp [ModLog.lower_bound, hlt, h5]
    · rename_i hnlt
      split
      · rename_i hlt
        exact ⟨(p, s), by simp [ModLog.lower_bound, strLt_irrefl]⟩
      · rename_i hnlt2
        have heq : e.1.str = p.str :=
          strLt_total _ _ (by simpa using hnlt) (by simpa using hnlt2)
        refine ⟨e, by simp, heq, by simp, by simp, ?_⟩
        simp [ModLog.lower_bound, hnlt]

theorem mapInsert_inserted_iff (m : ModLog) (p : Path) (s : State) :
    (ModLog.mapInsert m p s).2.2 = true ↔ ModLog.find m p.str = none := by
  induction m with
  | nil => simp [ModLog.mapInsert, ModLog.find, ModLog.lower_bound]
  | cons e es ih =>
    simp only [ModLog.mapInsert, ModLog.find, ModLog.lower_bound]
    split
    · rename_i hlt
      simp only [ModLog.find] at ih
      rw [ih]
      simp only [List.get?_cons_succ]
      cases es.get? (ModLog.lower_bound es p.str) with
      | none => simp
      | some y => simp only; split <;> simp
    · split
      · rename_i hlt
        simp [hlt]
      · rename_i hnlt
        simp [hnlt]

theorem lower_bound_pred (m : ModLog) (k : Str) (h : ModLog.lower_bound m k ≠ 0) :
    ∃ e, m.get? (ModLog.lower_bound m k - 1) = some e ∧ e ∈ m := by
  induction m with
  | nil => simp [ModLog.lower_bound] at h
  | cons e es ih =>
    simp only [ModLog.lower_bound] at h ⊢
    split
    · by_cases h0 : ModLog.lower_bound es k = 0
      · exact ⟨e, by simp [h0], by simp⟩
      · obtain ⟨x, hx, hm⟩ := ih h0
        refine ⟨x, ?_, by simp [hm]⟩
        have : ModLog.lower_bound es k + 1 - 1 = (ModLog.lower_bound es k - 1) + 1 := by omega
        rw [this]
        simpa using hx
    · rename_i hn
      simp [hn] at h

/-- The call `ModLog::insert` never fails its assertion on a log whose keys are
C strings: it is `std::map::insert` with a `Path` whose string is `path`. -/
theorem insert_eq_mapInsert (m : ModLog) (path : Str) (s : State)
    (hn : ∀ e ∈ m, NulFree e.1.str) :
    ∃ c : Path, c.str = path ∧ ModLog.insert m path s = some (ModLog.mapInsert m c s) := by
  unfold ModLog.insert
  by_cases h0 : ModLog.lower_bound m (Path.root path).str = 0
  · exact ⟨Path.root path, rfl, by simp [h0]⟩
  · obtain ⟨e, he, hm⟩ := lower_bound_pred m _ h0
    obtain ⟨c, hc, hstr⟩ := ofParent_getMatchingParent e.1 path (hn e hm)
    refine ⟨c, hstr, ?_⟩
    simp only [ne_eq, h0, not_false_eq_true, if_true, he, hc]

theorem insert_wf (m : ModLog) (path : Str) (s : State) (r : ModLog × Nat × Bool)
    (hw : ModLog.WF m) (hp : NulFree path) (h : ModLog.insert m path s = some r) :
    ModLog.WF r.1 := by
  obtain ⟨c, hc, heq⟩ := insert_eq_mapInsert m path s hw.2
  rw [heq] at h
  cases h
  refine ⟨mapInsert_sorted m c s hw.1, ?_⟩
  intro e he
  rcases (mapInsert_mem m c s e).1 he with h1 | ⟨_, h1⟩
  · exact hw.2 e h1
  · rw [h1]; simpa [hc] using hp

theorem built_wf (m : ModLog) (h : ModLog.Built m) : ModLog.WF m := by
  induction h with
  | empty => exact ⟨List.Pairwise.nil, by simp⟩
  | step m path state r _ hp hins ih => exact insert_wf m path state r ih hp hins

theorem find_after_mapInsert (m : ModLog) (c : Path) (s : State) :
    ModLog.find (ModLog.mapInsert m c s).1 c.str = some (ModLog.mapInsert m c s).2.1 := by
  obtain ⟨e, h1, h2, _, _, h5⟩ := mapInsert_get m c s
  unfold ModLog.find
  rw [h5, h1]
  simp [h2, strLt_irrefl]

theorem find_of_mem (m : ModLog) (e : Path × State) (hs : ModLog.Sorted m) (he : e ∈ m) :
    ∃ i, ModLog.find m e.1.str = some i ∧ m.get? i = some e := by
  induction m with
  | nil => simp at he
  | cons x xs ih =>
    unfold ModLog.Sorted at hs ih
    rw [List.pairwise_cons] at hs
    rcases List.mem_cons.1 he with h | h
    · subst h
      exact ⟨0, by simp [ModLog.find, ModLog.lower_bound, strLt_irrefl], rfl⟩
    · obtain ⟨i, hi, hg⟩ := ih hs.2 h
      have hlt := hs.1 e h
      refine ⟨i + 1, ?_, by simpa using hg⟩
      unfold ModLog.find at hi ⊢
      simp only [ModLog.lower_bound, hlt, if_true, List.get?_cons_succ]
      cases hq : xs.get? (ModLog.lower_bound xs e.1.str) with
      | none => rw [hq] at hi; cases hi
      | some y =>
        rw [hq] at hi
        simp only at hi ⊢
        split at hi
        · cases hi
        · rename_i hn
          simp only [hn]
          simpa using hi

theorem sorted_get_unique (m : ModLog) (hs : ModLog.Sorted m) (i j : Nat) (a b : Path × State)
    (hi : m.get? i = some a) (hj : m.get? j = some b) (hab : a.1.str = b.1.str) : i = j := by
  unfold ModLog.Sorted at hs
  rw [List.pairwise_iff_getElem] at hs
  rw [List.get?_eq_getElem?] at hi hj
  obtain ⟨hil, hia⟩ := List.getElem?_eq_some_iff.1 hi
  obtain ⟨hjl, hjb⟩ := List.getElem?_eq_some_iff.1 hj
  rcases Nat.lt_trichotomy i j with h | h | h
  · have := hs i j hil hjl h
    rw [hia, hjb, hab, strLt_irrefl] at this
    cases this
  · exact h
  · have := hs j i hjl hil h
    rw [hia, hjb, hab, strLt_irrefl] at this
    cases this

/-- Claim C2: when the write-log holds a record `old` for key `K`, `addToLog`
with a foreign lock id replaces the state of that record by the new state
with the merged action (`created` for `changed` over `created`, the old
action for `newaccess`, the new action otherwise), and the log holds exactly
one record for `K`. -/
theorem addToLog_action_merge (log : ModLog) (K : Str) (old : Path × State) (s_new : State)
    (do_sync : Bool) (hw : ModLog.WF log) (hmem : old ∈ log) (hK : old.1.str = K) :
    ∃ i, log.get? i = some old
      ∧ addToLog log K s_new false do_sync
          = some (log.set i (old.1,
              { s_new with action :=
                  if s_new.action = State.changed ∧ old.2.action = State.created then State.created
                  else if s_new.action = State.newaccess then old.2.action
                  else s_new.action }), do_sync)
      ∧ ∀ j e, (log.set i (old.1,
              { s_new with action :=
                  if s_new.action = State.changed ∧ old.2.action = State.created then State.created
                  else if s_new.action = State.newaccess then old.2.action
                  else s_new.action })).get? j = some e → e.1.str = K → j = i := by
  obtain ⟨i, hfind, hget⟩ := find_of_mem log old hw.1 hmem
  rw [hK] at hfind
  obtain ⟨c, hc, hins⟩ := insert_eq_mapInsert log K s_new hw.2
  have hnot : (ModLog.mapInsert log c s_new).2.2 = false := by
    cases hb : (ModLog.mapInsert log c s_new).2.2 with
    | false => rfl
    | true =>
      have := (mapInsert_inserted_iff log c s_new).1 hb
      rw [hc, hfind] at this
      cases this
  obtain ⟨e, _, _, _, h4, _⟩ := mapInsert_get log c s_new
  obtain ⟨hsame, hget2⟩ := h4 hnot
  have hidx : (ModLog.mapInsert log c s_new).2.1 = i := by
    rw [mapInsert_index, hc]
    simp only [ModLog.find] at hfind
    split at hfind
    · cases hfind
    · split at hfind
      · cases hfind
      · simpa using hfind
  refine ⟨i, hget, ?_, ?_⟩
  · have hres : ModLog.mapInsert log c s_new = (log, i, false) :=
      Prod.ext hsame (Prod.ext hidx hnot)
    simp only [addToLog, hins, hres, hget]
    simp only [Bool.false_eq_true, if_false, not_false_eq_true, if_true]
    congr 3
    have hne : State.newaccess ≠ State.changed := by decide
    by_cases h1 : s_new.action = State.newaccess
    · simp [h1, hne]
    · by_cases h2 : s_new.action = State.changed
      · simp [h2, hne.symm]
      · simp [h1, h2]
  · intro j e2 hj he2
    by_cases hji : j = i
    · exact hji
    · exfalso
      rw [List.get?_eq_getElem?, List.getElem?_set_ne (Ne.symm hji),
        ← List.get?_eq_getElem?] at hj
      exact hji (sorted_get_unique log hw.1 j i e2 old hj hget (by rw [he2, hK]))

theorem addToLog_action_merge_witness :
    ∃ i, [(Path.root (bytes "/a"), State.mk [] 0 0 0 5 5 1 State.created)].get? i
        = some (Path.root (bytes "/a"), State.mk [] 0 0 0 5 5 1 State.created)
      ∧ addToLog [(Path.root (bytes "/a"), State.mk [] 0 0 0 5 5 1 State.created)] (bytes "/a")
          (State.mk [] 1 1 0 9 9 2 State.changed) false true
          = some ([(Path.root (bytes "/a"), State.mk [] 0 0 0 5 5 1 State.created)].set i
              ((Path.root (bytes "/a"), State.mk [] 0 0 0 5 5 1 State.created).1,
              { State.mk [] 1 1 0 9 9 2 State.changed with action :=
                  if (State.mk [] 1 1 0 9 9 2 State.changed).action = State.changed
                      ∧ (Path.root (bytes "/a"), State.mk [] 0 0 0 5 5 1 State.created).2.action
                        = State.created then State.created
                  else if (State.mk [] 1 1 0 9 9 2 State.changed).action = State.newaccess then
                    (Path.root (bytes "/a"), State.mk [] 0 0 0 5 5 1 State.created).2.action
                  else (State.mk [] 1 1 0 9 9 2 State.changed).action }), true)
      ∧ ∀ j e, ([(Path.root (bytes "/a"), State.mk [] 0 0 0 5 5 1 State.created)].set i
              ((Path.root (bytes "/a"), State.mk [] 0 0 0 5 5 1 State.created).1,
              { State.mk [] 1 1 0 9 9 2 State.changed with action :=
                  if (State.mk [] 1 1 0 9 9 2 State.changed).action = State.changed
                      ∧ (Path.root (bytes "/a"), State.mk [] 0 0 0 5 5 1 State.created).2.action
                        = State.created then State.created
                  else if (State.mk [] 1 1 0 9 9 2 State.changed).action = State.newaccess then
                    (Path.root (bytes "/a"), State.mk [] 0 0 0 5 5 1 State.created).2.action
                  else (State.mk [] 1 1 0 9 9 2 State.changed).action })).get? j = some e →
            e.1.str = bytes "/a" → j = i :=
  addToLog_action_merge [(Path.root (bytes "/a"), State.mk [] 0 0 0 5 5 1 State.created)]
    (bytes "/a") (Path.root (bytes "/a"), State.mk [] 0 0 0 5 5 1 State.created)
    (State.mk [] 1 1 0 9 9 2 State.changed) true (by decide) (by decide) (by decide)

/-- Everything `ModLog::insert` does on a well-formed log: it succeeds, the
key it returns has the requested string, the new log is well formed and
contains the old entries, and `find` returns the position. -/
theorem insert_spec (m : ModLog) (path : Str) (s : State) (hw : ModLog.WF m)
    (hp : NulFree path) :
    ∃ r e, ModLog.insert m path s = some r
      ∧ r.1.get? r.2.1 = some e ∧ e.1.str = path
      ∧ ModLog.find r.1 path = some r.2.1
      ∧ ModLog.WF r.1
      ∧ (∀ x ∈ m, x ∈ r.1)
      ∧ (ModLog.find m path = none → r.2.2 = true ∧ e.2 = s) := by
  obtain ⟨c, hc, hins⟩ := insert_eq_mapInsert m path s hw.2
  obtain ⟨e, h1, h2, h3, _, _⟩ := mapInsert_get m c s
  refine ⟨ModLog.mapInsert m c s, e, hins, h1, by rw [h2, hc], ?_,
    insert_wf m path s _ hw hp hins, ?_, ?_⟩
  · rw [← hc]; exact find_after_mapInsert m c s
  · intro x hx
    exact (mapInsert_mem m c s x).2 (Or.inl hx)
  · intro hnone
    have hb := (mapInsert_inserted_iff m c s).2 (by rw [hc]; exact hnone)
    exact ⟨hb, by rw [h3 hb]⟩

/-- Counterexample to claim C3 as stated: after `insert("/x", rmdired)` and
`insert("/x/f", created)` on an empty log, the log holds both `/x` and its
descendant `/x/f`; the same holds when the records arrive through
`addToLog`. -/
theorem insert_subtree_collapse_counterexample :
    (ModLog.insert [] (bytes "/x") (State.mk [] 0 0 0o40755 7 7 0 State.rmdired)).bind
        (fun r => ModLog.insert r.1 (bytes "/x/f") (State.mk [] 0 0 0o100644 8 8 1 State.created))
      = some ([(Path.root (bytes "/x"), State.mk [] 0 0 0o40755 7 7 0 State.rmdired),
               (Path.child (Path.root (bytes "/x")) (bytes "/f"),
                 State.mk [] 0 0 0o100644 8 8 1 State.created)], 1, true)
    ∧ (addToLog [] (bytes "/x") (State.mk [] 0 0 0o40755 7 7 0 State.rmdired) false true).bind
        (fun r => addToLog r.1 (bytes "/x/f") (State.mk [] 0 0 0o100644 8 8 1 State.created)
          false true)
      = some ([(Path.root (bytes "/x"), State.mk [] 0 0 0o40755 7 7 0 State.rmdired),
               (Path.child (Path.root (bytes "/x")) (bytes "/f"),
                 State.mk [] 0 0 0o100644 8 8 1 State.created)], true) := by
  constructor <;> decide

/-- Claim C3, amended: inserting a record for `K` (with action `rmdired` or
any other) and then a record for a descendant key `K/X` into a well-formed log
leaves the log containing both `K` and `K/X`: `insert` collapses nothing. -/
theorem insert_keeps_descendant (m : ModLog) (K X : Str) (s1 s2 : State) (hw : ModLog.WF m)
    (hK : NulFree K) (hX : NulFree X) :
    ∃ r1 r2 i, ModLog.insert m K s1 = some r1
      ∧ ModLog.insert r1.1 (K ++ 47 :: X) s2 = some r2
      ∧ ModLog.find r2.1 K = some i
      ∧ ModLog.find r2.1 (K ++ 47 :: X) = some r2.2.1 := by
  obtain ⟨r1, e1, h1, hg1, hs1, _, hw1, _, _⟩ := insert_spec m K s1 hw hK
  have hKX : NulFree (K ++ 47 :: X) := by
    intro c hc
    rcases List.mem_append.1 hc with h | h
    · exact hK c h
    · rcases List.mem_cons.1 h with h | h
      · rw [h]; decide
      · exact hX c h
  obtain ⟨r2, e2, h2, _, _, hf2, hw2, hsub, _⟩ := insert_spec r1.1 (K ++ 47 :: X) s2 hw1 hKX
  obtain ⟨i, hi, _⟩ := find_of_mem r2.1 e1 hw2.1 (hsub e1 (List.get?_mem hg1))
  rw [hs1] at hi
  exact ⟨r1, r2, i, h1, h2, hi, hf2⟩

theorem insert_keeps_descendant_witness :
    ∃ r1 r2 i,
      ModLog.insert [(Path.root (bytes "/a"), State.mk [] 0 0 0o100644 5 5 1 State.created)]
          (bytes "/x") (State.mk [] 0 0 0o40755 7 7 0 State.rmdired) = some r1
      ∧ ModLog.insert r1.1 (bytes "/x" ++ 47 :: bytes "f")
          (State.mk [] 0 0 0o100644 8 8 1 State.created) = some r2
      ∧ ModLog.find r2.1 (bytes "/x") = some i
      ∧ ModLog.find r2.1 (bytes "/x" ++ 47 :: bytes "f") = some r2.2.1 :=
  insert_keeps_descendant
    [(Path.root (bytes "/a"), State.mk [] 0 0 0o100644 5 5 1 State.created)]
    (bytes "/x") (bytes "f") (State.mk [] 0 0 0o40755 7 7 0 State.rmdired)
    (State.mk [] 0 0 0o100644 8 8 1 State.created) (by decide) (by decide) (by decide)

/-- Claim C5: on a log built by calls of `insert`, `insert(p, s)` with a C
string `p` passes the assertion of the `Path` constructor, the key at the
returned position has `str() = p` (with state `s` and the flag true when `p`
is new), `find(p)` afterwards returns that position, and the keys of the log
are strictly increasing by their full strings. -/
theorem insert_behaves_like_string_map (m : ModLog) (p : Str) (s : State)
    (hb : ModLog.Built m) (hp : NulFree p) :
    ∃ r e, ModLog.insert m p s = some r
      ∧ r.1.get? r.2.1 = some e ∧ e.1.str = p
      ∧ (ModLog.find m p = none → r.2.2 = true ∧ e.2 = s)
      ∧ ModLog.find r.1 p = some r.2.1
      ∧ ModLog.Sorted r.1 := by
  obtain ⟨r, e, h1, h2, h3, h4, h5, _, h7⟩ := insert_spec m p s (built_wf m hb) hp
  exact ⟨r, e, h1, h2, h3, h7, h4, h5.1⟩

theorem insert_behaves_like_string_map_witness :
    ∃ r e,
      ModLog.insert
          [(Path.root (bytes "/a"), State.mk [] 0 0 0o40755 5 5 0 State.mkdired)]
          (bytes "/a/b") (State.mk [] 0 0 0o100644 8 8 1 State.created) = some r
      ∧ r.1.get? r.2.1 = some e ∧ e.1.str = bytes "/a/b"
      ∧ (ModLog.find [(Path.root (bytes "/a"), State.mk [] 0 0 0o40755 5 5 0 State.mkdired)]
            (bytes "/a/b") = none →
          r.2.2 = true ∧ e.2 = State.mk [] 0 0 0o100644 8 8 1 State.created)
      ∧ ModLog.find r.1 (bytes "/a/b") = some r.2.1
      ∧ ModLog.Sorted r.1 :=
  insert_behaves_like_string_map
    [(Path.root (bytes "/a"), State.mk [] 0 0 0o40755 5 5 0 State.mkdired)]
    (bytes "/a/b") (State.mk [] 0 0 0o100644 8 8 1 State.created)
    (ModLog.Built.step [] (bytes "/a") (State.mk [] 0 0 0o40755 5 5 0 State.mkdired)
      ([(Path.root (bytes "/a"), State.mk [] 0 0 0o40755 5 5 0 State.mkdired)], 0, true)
      ModLog.Built.empty (by decide) (by decide))
    (by decide)

/-! ## Subtree erase -/

theorem isParentOf_eq_isPrefixOf (p : Path) (cmp : Str) (hp : NulFree p.str) :
    p.isParentOf cmp = p.str.isPrefixOf cmp := by
  unfold Path.isParentOf
  by_cases h : p.str.isPrefixOf cmp = true
  · rw [h]; simpa using (strncmp_self_length p.str cmp hp).2 h
  · have h2 : ¬ strncmp p.str cmp p.str.length = 0 :=
      fun hc => h ((strncmp_self_length p.str cmp hp).1 hc)
    simp [h2, h]

theorem filter_dropWhile_isPrefixOf (P : Str) (l : ModLog) (hs : ModLog.Sorted l)
    (hge : ∀ x ∈ l, strLt x.1.str P = false) :
    l.filter (fun x => !(P.isPrefixOf x.1.str)) = l.dropWhile (fun x => P.isPrefixOf x.1.str) := by
  induction l with
  | nil => rfl
  | cons x xs ih =>
    unfold ModLog.Sorted at hs ih
    rw [List.pairwise_cons] at hs
    have ih2 := ih hs.2 (fun y hy => hge y (by simp [hy]))
    by_cases hx : P.isPrefixOf x.1.str = true
    · simp only [List.filter_cons, hx, Bool.not_true, Bool.false_eq_true, if_false,
        List.dropWhile_cons, if_true]
      exact ih2
    · have hxf : P.isPrefixOf x.1.str = false := Bool.eq_false_iff.2 hx
      simp only [List.filter_cons, hxf, Bool.not_false, if_true, List.dropWhile_cons,
        Bool.false_eq_true, if_false]
      congr 1
      rw [List.filter_eq_self]
      intro y hy
      cases hpy : P.isPrefixOf y.1.str with
      | false => rfl
      | true =>
        have := prefix_between P y.1.str x.1.str hpy (hge x (by simp)) (hs.1 y hy)
        rw [hxf] at this
        cases this

theorem drop_length_takeWhile (l : ModLog) (f : Path × State → Bool) :
    l.drop (l.takeWhile f).length = l.dropWhile f := by
  induction l with
  | nil => rfl
  | cons x xs ih =>
    by_cases hx : f x = true
    · simp [List.takeWhile_cons, List.dropWhile_cons, hx, ih]
    · simp [List.takeWhile_cons, List.dropWhile_cons, hx]

/-- Claim C4: `ModLog::erase(i)` on a well-formed log removes exactly the
entries whose full key string has the full key string of entry `i` as a
prefix (entry `i` included) and keeps all other entries, with key and state,
in order; the entries before `i` stay in place and the returned position `i`
is where the remaining entries that followed `i` begin (or the end). -/
theorem erase_removes_prefix_range (m : ModLog) (i : Nat) (e : Path × State)
    (hw : ModLog.WF m) (hi : m.get? i = some e) :
    ModLog.erase m i
        = some (m.filter (fun x => !(e.1.str.isPrefixOf x.1.str)), i)
      ∧ (m.filter (fun x => !(e.1.str.isPrefixOf x.1.str))).take i = m.take i
      ∧ (m.filter (fun x => !(e.1.str.isPrefixOf x.1.str))).drop i
          = (m.drop (i + 1)).filter (fun x => !(e.1.str.isPrefixOf x.1.str)) := by
  have hil : i < m.length := by
    rw [List.get?_eq_getElem?] at hi
    exact (List.getElem?_eq_some_iff.1 hi).1
  have hmi : m[i] = e := by
    rw [List.get?_eq_getElem?] at hi
    exact (List.getElem?_eq_some_iff.1 hi).2
  have hsplit : m = m.take i ++ e :: m.drop (i + 1) := by
    rw [← hmi, List.getElem_cons_drop m i hil, List.take_append_drop]
  have hemem : e ∈ m := List.get?_mem hi
  have hen : NulFree e.1.str := hw.2 e hemem
  have hsorted : List.Pairwise (fun a b => strLt a.1.str b.1.str = true)
      (m.take i ++ e :: m.drop (i + 1)) := by
    rw [← hsplit]; exact hw.1
  rw [List.pairwise_append] at hsorted
  obtain ⟨_, hs2, hs3⟩ := hsorted
  rw [List.pairwise_cons] at hs2
  have hbefore : (m.take i).filter (fun x => !(e.1.str.isPrefixOf x.1.str)) = m.take i := by
    rw [List.filter_eq_self]
    intro y hy
    cases hpy : e.1.str.isPrefixOf y.1.str with
    | false => rfl
    | true =>
      have h1 := hs3 y hy e (by simp)
      rw [strLt_of_isPrefixOf _ _ hpy] at h1
      cases h1
  have hafter : (m.drop (i + 1)).filter (fun x => !(e.1.str.isPrefixOf x.1.str))
      = (m.drop (i + 1)).dropWhile (fun x => e.1.str.isPrefixOf x.1.str) :=
    filter_dropWhile_isPrefixOf e.1.str _ hs2.2 (fun x hx => strLt_asymm _ _ (hs2.1 x hx))
  have hself : e.1.str.isPrefixOf e.1.str = true := by
    rw [List.isPrefixOf_iff_prefix]
  have hfilter : m.filter (fun x => !(e.1.str.isPrefixOf x.1.str))
      = m.take i ++ (m.drop (i + 1)).filter (fun x => !(e.1.str.isPrefixOf x.1.str)) := by
    conv_lhs => rw [hsplit]
    rw [List.filter_append, hbefore, List.filter_cons]
    simp [hself]
  have hlen : (m.take i).length = i := by
    rw [List.length_take]; omega
  refine ⟨?_, ?_, ?_⟩
  · unfold ModLog.erase
    rw [hi]
    simp only
    have hfun : (fun x : Path × State => e.1.isParentOf x.1.str)
        = (fun x : Path × State => e.1.str.isPrefixOf x.1.str) := by
      funext x; exact isParentOf_eq_isPrefixOf e.1 x.1.str hen
    rw [hfun, hfilter, hafter, ← drop_length_takeWhile, List.drop_drop]
  · rw [hfilter, List.take_left' hlen]
  · rw [hfilter, List.drop_left' hlen]

theorem erase_removes_prefix_range_witness :
    ModLog.erase
        [(Path.root (bytes "/a"), State.mk [] 0 0 0o100644 5 5 1 State.created),
         (Path.root (bytes "/x"), State.mk [] 0 0 0o40755 7 7 0 State.rmdired),
         (Path.child (Path.root (bytes "/x")) (bytes "/f"),
           State.mk [] 0 0 0o100644 8 8 1 State.created),
         (Path.root (bytes "/xy"), State.mk [] 0 0 0o100644 9 9 1 State.changed),
         (Path.root (bytes "/z"), State.mk [] 0 0 0o100644 3 3 1 State.removed)] 1
      = some (
        [(Path.root (bytes "/a"), State.mk [] 0 0 0o100644 5 5 1 State.created),
         (Path.root (bytes "/x"), State.mk [] 0 0 0o40755 7 7 0 State.rmdired),
         (Path.child (Path.root (bytes "/x")) (bytes "/f"),
           State.mk [] 0 0 0o100644 8 8 1 State.created),
         (Path.root (bytes "/xy"), State.mk [] 0 0 0o100644 9 9 1 State.changed),
         (Path.root (bytes "/z"), State.mk [] 0 0 0o100644 3 3 1 State.removed)].filter
          (fun x => !((Path.root (bytes "/x"),
            State.mk [] 0 0 0o40755 7 7 0 State.rmdired).1.str.isPrefixOf x.1.str)), 1)
      ∧ ([(Path.root (bytes "/a"), State.mk [] 0 0 0o100644 5 5 1 State.created),
         (Path.root (bytes "/x"), State.mk [] 0 0 0o40755 7 7 0 State.rmdired),
         (Path.child (Path.root (bytes "/x")) (bytes "/f"),
           State.mk [] 0 0 0o100644 8 8 1 State.created),
         (Path.root (bytes "/xy"), State.mk [] 0 0 0o100644 9 9 1 State.changed),
         (Path.root (bytes "/z"), State.mk [] 0 0 0o100644 3 3 1 State.removed)].filter
          (fun x => !((Path.root (bytes "/x"),
            State.mk [] 0 0 0o40755 7 7 0 State.rmdired).1.str.isPrefixOf x.1.str))).take 1
        = [(Path.root (bytes "/a"), State.mk [] 0 0 0o100644 5 5 1 State.created),
         (Path.root (bytes "/x"), State.mk [] 0 0 0o40755 7 7 0 State.rmdired),
         (Path.child (Path.root (bytes "/x")) (bytes "/f"),
           State.mk [] 0 0 0o100644 8 8 1 State.created),
         (Path.root (bytes "/xy"), State.mk [] 0 0 0o100644 9 9 1 State.changed),
         (Path.root (bytes "/z"), State.mk [] 0 0 0o100644 3 3 1 State.removed)].take 1
      ∧ ([(Path.root (bytes "/a"), State.mk [] 0 0 0o100644 5 5 1 State.created),
         (Path.root (bytes "/x"), State.mk [] 0 0 0o40755 7 7 0 State.rmdired),
         (Path.child (Path.root (bytes "/x")) (bytes "/f"),
           State.mk [] 0 0 0o100644 8 8 1 State.created),
         (Path.root (bytes "/xy"), State.mk [] 0 0 0o100644 9 9 1 State.changed),
         (Path.root (bytes "/z"), State.mk [] 0 0 0o100644 3 3 1 State.removed)].filter
          (fun x => !((Path.root (bytes "/x"),
            State.mk [] 0 0 0o40755 7 7 0 State.rmdired).1.str.isPrefixOf x.1.str))).drop 1
        = ([(Path.root (bytes "/a"), State.mk [] 0 0 0o100644 5 5 1 State.created),
         (Path.root (bytes "/x"), State.mk [] 0 0 0o40755 7 7 0 State.rmdired),
         (Path.child (Path.root (bytes "/x")) (bytes "/f"),
           State.mk [] 0 0 0o100644 8 8 1 State.created),
         (Path.root (bytes "/xy"), State.mk [] 0 0 0o100644 9 9 1 State.changed),
         (Path.root (bytes "/z"), State.mk [] 0 0 0o100644 3 3 1 State.removed)].drop (1 + 1)).filter
          (fun x => !((Path.root (bytes "/x"),
            State.mk [] 0 0 0o40755 7 7 0 State.rmdired).1.str.isPrefixOf x.1.str)) :=
  erase_removes_prefix_range
    [(Path.root (bytes "/a"), State.mk [] 0 0 0o100644 5 5 1 State.created),
     (Path.root (bytes "/x"), State.mk [] 0 0 0o40755 7 7 0 State.rmdired),
     (Path.child (Path.root (bytes "/x")) (bytes "/f"),
       State.mk [] 0 0 0o100644 8 8 1 State.created),
     (Path.root (bytes "/xy"), State.mk [] 0 0 0o100644 9 9 1 State.changed),
     (Path.root (bytes "/z"), State.mk [] 0 0 0o100644 3 3 1 State.removed)] 1
    (Path.root (bytes "/x"), State.mk [] 0 0 0o40755 7 7 0 State.rmdired)
    (by decide) (by decide)

/-! ## Three-way reconciliation -/

theorem set_md4 (st : State) (a : Char) : (set st a).md4 = st.md4 := by
  unfold set; split_ifs <;> rfl

theorem set_mode (st : State) (a : Char) : (set st a).mode = st.mode := by
  unfold set; split_ifs <;> rfl

theorem set_set_C (st : State) : set (set st 'A') 'C' = set st 'C' := by
  simp [set]

theorem checkAccess_spec (v : CmpVars) :
    (checkAccess v).in_client = v.in_client ∧ (checkAccess v).in_server = v.in_server
      ∧ (checkAccess v).in_lsynst = v.in_lsynst
      ∧ (checkAccess v).key_client = v.key_client ∧ (checkAccess v).key_server = v.key_server
      ∧ (checkAccess v).key_lsynst = v.key_lsynst
      ∧ (checkAccess v).state_lsynst = v.state_lsynst
      ∧ (checkAccess v).inc_client = v.inc_client ∧ (checkAccess v).inc_server = v.inc_server
      ∧ (checkAccess v).inc_lsynst = v.inc_lsynst
      ∧ (checkAccess v).effects
          = v.effects ++ accessEffects v.key_client v.key_server v.state_client v.state_server := by
  unfold checkAccess accessEffects
  split_ifs <;> simp_all [set_md4, set_set_C]

theorem compareBoth_spec (v : CmpVars) :
    (compareBoth v).in_client = v.in_client ∧ (compareBoth v).in_server = v.in_server
      ∧ (compareBoth v).in_lsynst = v.in_lsynst
      ∧ (compareBoth v).key_client = v.key_client ∧ (compareBoth v).key_server = v.key_server
      ∧ (compareBoth v).key_lsynst = v.key_lsynst
      ∧ (compareBoth v).state_lsynst
          = (if v.key_lsynst = v.key_client then v.state_lsynst
             else { v.state_lsynst with mtime := 0 })
      ∧ (compareBoth v).inc_client = true ∧ (compareBoth v).inc_server = true
      ∧ (compareBoth v).inc_lsynst = (if v.key_lsynst = v.key_client then true else v.inc_lsynst)
      ∧ (compareBoth v).effects
          = v.effects ++ bothEffects v.key_client v.key_server v.state_client v.state_server
              (if v.key_lsynst = v.key_client then v.state_lsynst.mtime else 0) := by
  by_cases hk : v.key_lsynst = v.key_client
  · unfold compareBoth bothEffects
    simp only [hk, if_true]
    split_ifs <;> simp [checkAccess_spec]
  · unfold compareBoth bothEffects
    simp only [hk, if_false]
    split_ifs <;> simp [checkAccess_spec]

theorem readStream_cur (f : State → State) (inc : Bool) (r : SnapReader) (key : Str) (st : State)
    (lst : List (Str × State)) (h : StreamInv f inc r key st lst) :
    StreamCur f (readStream f inc r key st) lst := by
  rcases h with ⟨hi, hr⟩ | ⟨hi, ⟨hl, hr⟩ | ⟨k, s, rest, hl, hr, hk, hs⟩⟩
  · subst hi hr
    cases lst with
    | nil => left; simp [readStream, SnapReader.read]
    | cons x xs =>
      right
      exact ⟨x.1, x.2, xs, rfl, by simp [readStream, SnapReader.read]⟩
  · subst hi hr hl
    left; simp [readStream]
  · subst hi hr hl hk hs
    right
    exact ⟨_, _, _, rfl, by simp [readStream]⟩

theorem cur_key (f : State → State) (x : SnapReader × Str × State) (lst : List (Str × State))
    (h : StreamCur f x lst) : x.2.1 = keyOf lst := by
  rcases h with ⟨hl, _, hk⟩ | ⟨k, s, rest, hl, _, hk, _⟩
  · rw [hl, hk]; rfl
  · rw [hl, hk]; rfl

theorem keyOf_nil : keyOf [] = LAST_KEY := rfl

theorem keyOf_cons (r : Str × State) (rs : List (Str × State)) : keyOf (r :: rs) = r.1 := rfl

theorem not_lt_last (lst : List (Str × State)) (hb : ∀ r ∈ lst, strLt r.1 LAST_KEY = true) :
    strLt LAST_KEY (keyOf lst) = false := by
  cases lst with
  | nil => simp [keyOf, strLt_irrefl]
  | cons r rs => exact strLt_asymm _ _ (hb r (by simp))

theorem keyOf_eq_last (lst : List (Str × State)) (hb : ∀ r ∈ lst, strLt r.1 LAST_KEY = true)
    (h : keyOf lst = LAST_KEY) : lst = [] := by
  cases lst with
  | nil => rfl
  | cons r rs =>
    have := hb r (by simp)
    simp only [keyOf] at h
    rw [h, strLt_irrefl] at this
    cases this

theorem cur_to_inv (f : State → State) (r : SnapReader) (k : Str) (st : State)
    (lst : List (Str × State)) (h : StreamCur f (r, k, st) lst) : StreamInv f false r k st lst := by
  rcases h with ⟨hl, hr, _⟩ | ⟨k1, s1, rest, hl, hr, hk, hs⟩
  · exact Or.inr ⟨rfl, Or.inl ⟨hl, hr⟩⟩
  · exact Or.inr ⟨rfl, Or.inr ⟨k1, s1, rest, hl, hr, hk, hs⟩⟩

theorem cur_to_inv_next (f : State → State) (r : SnapReader) (k k1 : Str) (st st1 : State)
    (lst : List (Str × State)) (h : StreamCur f (r, k, st) lst) (hne : lst ≠ []) :
    StreamInv f true r k1 st1 lst.tail := by
  rcases h with ⟨hl, _, _⟩ | ⟨k2, s2, rest, hl, hr, _, _⟩
  · exact absurd hl hne
  · subst hl
    exact Or.inl ⟨rfl, hr⟩

theorem cur_state (f : State → State) (r : SnapReader) (k k1 : Str) (st s1 : State)
    (rest : List (Str × State)) (h : StreamCur f (r, k, st) ((k1, s1) :: rest)) :
    k = k1 ∧ st = f s1 := by
  rcases h with ⟨hl, _, _⟩ | ⟨k2, s2, rest2, hl, _, hk, hs⟩
  · cases hl
  · cases hl
    exact ⟨hk, hs⟩

theorem bound_tail (lst : List (Str × State)) (hb : ∀ r ∈ lst, strLt r.1 LAST_KEY = true) :
    ∀ r ∈ lst.tail, strLt r.1 LAST_KEY = true :=
  fun r hr => hb r (List.mem_of_mem_tail hr)

theorem bound_clobber (lst : List (Str × State)) (hb : ∀ r ∈ lst, strLt r.1 LAST_KEY = true) :
    ∀ r ∈ clobber lst, strLt r.1 LAST_KEY = true := by
  cases lst with
  | nil => simp [clobber]
  | cons x xs =>
    obtain ⟨k, st⟩ := x
    intro r hr
    simp only [clobber, List.mem_cons] at hr
    rcases hr with h | h
    · rw [h]; exact hb (k, st) (by simp)
    · exact hb r (by simp [h])

theorem compareDecide_step (tr : State → State) (w : CmpVars) (c s l : List (Str × State))
    (hbc : ∀ r ∈ c, strLt r.1 LAST_KEY = true) (hbs : ∀ r ∈ s, strLt r.1 LAST_KEY = true)
    (hbl : ∀ r ∈ l, strLt r.1 LAST_KEY = true)
    (hc : StreamCur id (w.in_client, w.key_client, w.state_client) c)
    (hs : StreamCur tr (w.in_server, w.key_server, w.state_server) s)
    (hl : StreamCur id (w.in_lsynst, w.key_lsynst, w.state_lsynst) l) :
    ((compareDecide w).2 = false ∧ (compareDecide w).1.effects = w.effects
        ∧ ∀ n, merge3 tr (n + 1) c s l = some [])
      ∨ (∃ E c1 s1 l1, (compareDecide w).2 = true
          ∧ (compareDecide w).1.effects = w.effects ++ E
          ∧ (∀ n, merge3 tr (n + 1) c s l = (merge3 tr n c1 s1 l1).map (fun e => E ++ e))
          ∧ StreamInv id (compareDecide w).1.inc_client (compareDecide w).1.in_client
              (compareDecide w).1.key_client (compareDecide w).1.state_client c1
          ∧ StreamInv tr (compareDecide w).1.inc_server (compareDecide w).1.in_server
              (compareDecide w).1.key_server (compareDecide w).1.state_server s1
          ∧ StreamInv id (compareDecide w).1.inc_lsynst (compareDecide w).1.in_lsynst
              (compareDecide w).1.key_lsynst (compareDecide w).1.state_lsynst l1
          ∧ (∀ r ∈ c1, strLt r.1 LAST_KEY = true) ∧ (∀ r ∈ s1, strLt r.1 LAST_KEY = true)
          ∧ (∀ r ∈ l1, strLt r.1 LAST_KEY = true)) := by
  obtain ⟨rc, rs, rl, kc, ks, kl, sc, ss, sl, ic, is, il, eff⟩ := w
  simp only at hc hs hl
  have hkc := cur_key _ _ _ hc
  have hks := cur_key _ _ _ hs
  have hkl := cur_key _ _ _ hl
  simp only at hkc hks hkl
  subst hkc hks hkl
  by_cases h1 : keyOf s = LAST_KEY ∧ keyOf c = LAST_KEY
  · left
    refine ⟨by simp [compareDecide, h1], by simp [compareDecide, h1], ?_⟩
    intro n
    simp [merge3, h1]
  · right
    by_cases h2 : strLt (keyOf l) (keyOf c) = true ∧ strLt (keyOf l) (keyOf s) = true
    · have hlne : l ≠ [] := by
        intro h
        subst h
        have := not_lt_last c hbc
        rw [keyOf_nil, this] at h2
        cases h2.1
      refine ⟨[], c, s, l.tail, ?_⟩
      simp only [compareDecide, h1, h2, if_true, if_false, and_self, List.append_nil,
        List.nil_append]
      refine ⟨trivial, trivial, ?_, cur_to_inv _ _ _ _ _ hc, cur_to_inv _ _ _ _ _ hs,
        cur_to_inv_next _ _ _ _ _ _ _ hl hlne, hbc, hbs, bound_tail l hbl⟩
      intro n
      simp [merge3, h1, h2]
    · by_cases h3 : strLt (keyOf c) (keyOf s) = true
      · cases c with
        | nil =>
          rw [keyOf_nil, not_lt_last s hbs] at h3
          cases h3
        | cons x c1 =>
          obtain ⟨k, st⟩ := x
          obtain ⟨_, hst⟩ := cur_state _ _ _ _ _ _ _ hc
          simp only [id] at hst
          subst hst
          have hk : strLt k LAST_KEY = true := hbc (k, sc) (by simp)
          by_cases h4 : keyOf l = k
          · have hlne : l ≠ [] := by
              intro h
              subst h
              rw [keyOf_nil] at h4
              rw [← h4, strLt_irrefl] at hk
              cases hk
            subst h4
            refine ⟨[Effect.serverLog (keyOf l) (set sc 'D')], c1, s, l.tail, ?_⟩
            simp only [keyOf_cons] at h1 h2 h3 ⊢
            simp only [compareDecide, h1, h2, h3, strLt_irrefl, Bool.false_eq_true, false_and,
              and_true, and_false, if_true, if_false]
            refine ⟨trivial, trivial, ?_, cur_to_inv_next _ _ _ _ _ _ _ hc (by simp),
              cur_to_inv _ _ _ _ _ hs, cur_to_inv_next _ _ _ _ _ _ _ hl hlne,
              bound_tail _ hbc, hbs, bound_tail l hbl⟩
            intro n
            simp [merge3, h1, h2, h3, keyOf_cons, strLt_irrefl]
          · refine ⟨[Effect.clientLog k (set sc 'N')], c1, s, l, ?_⟩
            simp only [keyOf_cons] at h1 h2 h3 ⊢
            simp only [compareDecide, h1, h2, h3, h4, if_true, if_false]
            refine ⟨trivial, trivial, ?_, cur_to_inv_next _ _ _ _ _ _ _ hc (by simp),
              cur_to_inv _ _ _ _ _ hs, cur_to_inv _ _ _ _ _ hl,
              bound_tail _ hbc, hbs, hbl⟩
            intro n
            simp [merge3, h1, h2, h3, h4, keyOf_cons]
      · by_cases h5 : strLt (keyOf s) (keyOf c) = true
        · cases s with
          | nil =>
            rw [keyOf_nil, not_lt_last c hbc] at h5
            cases h5
          | cons x s1 =>
            obtain ⟨k, st⟩ := x
            obtain ⟨_, hst⟩ := cur_state _ _ _ _ _ _ _ hs
            subst hst
            have hk : strLt k LAST_KEY = true := hbs (k, st) (by simp)
            by_cases h4 : keyOf l = k
            · have hlne : l ≠ [] := by
                intro h
                subst h
                rw [keyOf_nil] at h4
                rw [← h4, strLt_irrefl] at hk
                cases hk
              subst h4
              refine ⟨[Effect.clientLog (keyOf l) (set (tr st) 'D')], c, s1, l.tail, ?_⟩
              simp only [keyOf_cons] at h1 h2 h3 h5 ⊢
              simp only [compareDecide, h1, h2, h3, h5, strLt_irrefl, Bool.false_eq_true,
                false_and, and_true, and_false, if_true, if_false]
              refine ⟨trivial, trivial, ?_, cur_to_inv _ _ _ _ _ hc,
                cur_to_inv_next _ _ _ _ _ _ _ hs (by simp), cur_to_inv_next _ _ _ _ _ _ _ hl hlne,
                hbc, bound_tail _ hbs, bound_tail l hbl⟩
              intro n
              simp [merge3, h1, h2, h3, h5, keyOf_cons, strLt_irrefl]
            · refine ⟨[Effect.serverLog k (set (tr st) 'N')], c, s1, l, ?_⟩
              simp only [keyOf_cons] at h1 h2 h3 h5 ⊢
              simp only [compareDecide, h1, h2, h3, h4, h5, Bool.false_eq_true, if_true, if_false]
              refine ⟨trivial, trivial, ?_, cur_to_inv _ _ _ _ _ hc,
                cur_to_inv_next _ _ _ _ _ _ _ hs (by simp), cur_to_inv _ _ _ _ _ hl,
                hbc, bound_tail _ hbs, hbl⟩
              intro n
              simp [merge3, h1, h2, h3, h4, h5, keyOf_cons]
        · have hkeq : keyOf c = keyOf s :=
            strLt_total _ _ (Bool.eq_false_iff.2 h3) (Bool.eq_false_iff.2 h5)
          cases c with
          | nil =>
            exfalso
            rw [keyOf_nil] at hkeq
            exact h1 ⟨hkeq.symm, rfl⟩
          | cons x c1 =>
            cases s with
            | nil =>
              exfalso
              rw [keyOf_nil] at hkeq
              exact h1 ⟨rfl, hkeq⟩
            | cons y s1 =>
              obtain ⟨k, st⟩ := x
              obtain ⟨k2, st2⟩ := y
              obtain ⟨_, hst⟩ := cur_state _ _ _ _ _ _ _ hc
              obtain ⟨_, hst2⟩ := cur_state _ _ _ _ _ _ _ hs
              simp only [id] at hst
              subst hst hst2
              simp only [keyOf_cons] at h1 h2 h3 h5 hkeq
              subst hkeq
              have hk : strLt k LAST_KEY = true := hbc (k, sc) (by simp)
              have hkne : ¬ (k = LAST_KEY) := fun h => h1 ⟨h, h⟩
              have h2n : ¬ (strLt (keyOf l) k = true) := fun h => h2 ⟨h, h⟩
              obtain ⟨e1, e2, e3, e4, e5, e6, e7, e8, e9, e10, e11⟩ := compareBoth_spec
                (CmpVars.mk rc rs rl k k (keyOf l) sc (tr st2) sl false false false eff)
              simp only at e1 e2 e3 e4 e5 e6 e7 e8 e9 e10 e11
              cases l with
              | nil =>
                have hne : ¬ (LAST_KEY = k) := by
                  intro h
                  rw [← h, strLt_irrefl] at hk
                  cases hk
                simp only [keyOf_nil] at e1 e2 e3 e4 e5 e6 e7 e8 e9 e10 e11
                simp only [hne, if_false] at e7 e10 e11
                refine ⟨bothEffects k k sc (tr st2) 0, c1, s1, [], ?_⟩
                simp only [keyOf_cons, keyOf_nil] at h2n ⊢
                simp only [compareDecide, hkne, h2n, strLt_irrefl, and_self, Bool.false_eq_true,
                  if_true, if_false, e1, e2, e3, e4, e5, e6, e7, e8, e9, e10, e11]
                refine ⟨trivial, trivial, ?_, cur_to_inv_next _ _ _ _ _ _ _ hc (by simp),
                  cur_to_inv_next _ _ _ _ _ _ _ hs (by simp), cur_to_inv _ _ _ _ _ ?_,
                  bound_tail _ hbc, bound_tail _ hbs, hbl⟩
                · intro n
                  simp [merge3, hkne, h2n, strLt_irrefl, keyOf_cons, keyOf_nil]
                · rcases hl with ⟨_, hr, _⟩ | ⟨_, _, _, hl2, _⟩
                  · exact Or.inl ⟨rfl, hr, rfl⟩
                  · cases hl2
              | cons z l1 =>
                obtain ⟨k3, st3⟩ := z
                obtain ⟨_, hst3⟩ := cur_state _ _ _ _ _ _ _ hl
                simp only [id] at hst3
                subst hst3
                simp only [keyOf_cons] at h2n e1 e2 e3 e4 e5 e6 e7 e8 e9 e10 e11 ⊢
                by_cases h6 : k3 = k
                · subst h6
                  simp only [if_true] at e7 e10 e11
                  refine ⟨bothEffects k3 k3 sc (tr st2) sl.mtime, c1, s1, l1, ?_⟩
                  simp only [compareDecide, hkne, h2n, strLt_irrefl, and_self, Bool.false_eq_true,
                    if_true, if_false, e1, e2, e3, e4, e5, e6, e7, e8, e9, e10, e11]
                  refine ⟨trivial, trivial, ?_, cur_to_inv_next _ _ _ _ _ _ _ hc (by simp),
                    cur_to_inv_next _ _ _ _ _ _ _ hs (by simp),
                    cur_to_inv_next _ _ _ _ _ _ _ hl (by simp),
                    bound_tail _ hbc, bound_tail _ hbs, bound_tail _ hbl⟩
                  intro n
                  simp [merge3, hkne, strLt_irrefl, keyOf_cons]
                · simp only [h6, if_false] at e7 e10 e11
                  refine ⟨bothEffects k k sc (tr st2) 0, c1, s1,
                    clobber ((k3, sl) :: l1), ?_⟩
                  simp only [compareDecide, hkne, h2n, strLt_irrefl, and_self, Bool.false_eq_true,
                    if_true, if_false, e1, e2, e3, e4, e5, e6, e7, e8, e9, e10, e11]
                  refine ⟨trivial, trivial, ?_, cur_to_inv_next _ _ _ _ _ _ _ hc (by simp),
                    cur_to_inv_next _ _ _ _ _ _ _ hs (by simp), ?_,
                    bound_tail _ hbc, bound_tail _ hbs, bound_clobber _ hbl⟩
                  · intro n
                    simp [merge3, hkne, h2n, h6, strLt_irrefl, keyOf_cons]
                  · rcases hl with ⟨hl2, _, _⟩ | ⟨_, _, _, hl2, hr, _, _⟩
                    · cases hl2
                    · cases hl2
                      exact Or.inr ⟨rfl, Or.inr ⟨k3, _, l1, rfl, hr, rfl, rfl⟩⟩

/-- The loop of `compareState` computes the effects of `merge3`. -/
theorem compareLoop_eq_merge3 (tr : State → State) (fuel : Nat) (v : CmpVars)
    (c s l : List (Str × State))
    (hbc : ∀ r ∈ c, strLt r.1 LAST_KEY = true) (hbs : ∀ r ∈ s, strLt r.1 LAST_KEY = true)
    (hbl : ∀ r ∈ l, strLt r.1 LAST_KEY = true)
    (hc : StreamInv id v.inc_client v.in_client v.key_client v.state_client c)
    (hs : StreamInv tr v.inc_server v.in_server v.key_server v.state_server s)
    (hl : StreamInv id v.inc_lsynst v.in_lsynst v.key_lsynst v.state_lsynst l) :
    compareLoop tr fuel v = (merge3 tr fuel c s l).map (fun e => v.effects ++ e) := by
  induction fuel generalizing v c s l with
  | zero => rfl
  | succ n ih =>
    have hc1 : StreamCur id ((compareRead tr v).in_client, (compareRead tr v).key_client,
        (compareRead tr v).state_client) c := readStream_cur id _ _ _ _ c hc
    have hs1 : StreamCur tr ((compareRead tr v).in_server, (compareRead tr v).key_server,
        (compareRead tr v).state_server) s := readStream_cur tr _ _ _ _ s hs
    have hl1 : StreamCur id ((compareRead tr v).in_lsynst, (compareRead tr v).key_lsynst,
        (compareRead tr v).state_lsynst) l := readStream_cur id _ _ _ _ l hl
    have heff0 : (compareRead tr v).effects = v.effects := rfl
    rcases compareDecide_step tr (compareRead tr v) c s l hbc hbs hbl hc1 hs1 hl1 with
      ⟨h2, heff, hm⟩ | ⟨E, c1, s1, l1, h2, heff, hm, i1, i2, i3, b1, b2, b3⟩
    · simp only [compareLoop, h2, Bool.false_eq_true, if_false, heff, heff0, hm n,
        Option.map_some', List.append_nil]
    · simp only [compareLoop, h2, if_true]
      rw [ih _ c1 s1 l1 b1 b2 b3 i1 i2 i3, heff, heff0, hm n]
      cases merge3 tr n c1 s1 l1 <;> simp

theorem compareState_eq_merge3 (tr : State → State) (s0 : State) (c s l : List (Str × State))
    (fuel : Nat) (hc : Snapshot c) (hs : Snapshot s) (hl : Snapshot l) :
    compareState tr s0 c s l fuel = merge3 tr fuel c s l := by
  unfold compareState
  rw [compareLoop_eq_merge3 tr fuel _ c s l hc.2 hs.2 hl.2 (Or.inl ⟨rfl, rfl⟩)
    (Or.inl ⟨rfl, rfl⟩) (Or.inl ⟨rfl, rfl⟩)]
  cases merge3 tr fuel c s l <;> simp

theorem effectsFor_append (K : Str) (A B : List Effect) :
    effectsFor K (A ++ B) = effectsFor K A ++ effectsFor K B := by
  simp [effectsFor]

theorem effectsFor_all (K : Str) (A : List Effect) (h : ∀ e ∈ A, e.key = K) :
    effectsFor K A = A := by
  unfold effectsFor
  rw [List.filter_eq_self]
  intro e he
  simp [h e he]

theorem effectsFor_none (K k : Str) (A : List Effect) (h : ∀ e ∈ A, e.key = k) (hne : K ≠ k) :
    effectsFor K A = [] := by
  unfold effectsFor
  rw [List.filter_eq_nil_iff]
  intro e he
  simp [h e he, Ne.symm hne]

theorem mem_keysOf (K : Str) (l : List (Str × State)) : K ∈ keysOf l ↔ ∃ st, (K, st) ∈ l := by
  unfold keysOf
  constructor
  · intro h
    obtain ⟨r, hr, hk⟩ := List.mem_map.1 h
    exact ⟨r.2, by rw [← hk]; exact hr⟩
  · rintro ⟨st, h⟩
    exact List.mem_map.2 ⟨(K, st), h, rfl⟩

theorem effectsSpec_step (tr : State → State) (k : Str) (H E1 : List Effect)
    (c s l c1 s1 l1 : List (Str × State))
    (hH : ∀ e ∈ H, e.key = k)
    (hc : ∀ K st, K ≠ k → ((K, st) ∈ c ↔ (K, st) ∈ c1))
    (hs : ∀ K st, K ≠ k → ((K, st) ∈ s ↔ (K, st) ∈ s1))
    (hl : ∀ K, K ≠ k → (K ∈ keysOf l ↔ K ∈ keysOf l1))
    (hl2 : ∀ K sl, K ≠ k → (K, sl) ∈ l1 → sl.mtime = 0 ∨ (K, sl) ∈ l)
    (hkc : k ∉ keysOf c1) (hks : k ∉ keysOf s1)
    (hk1 : k ∉ keysOf c → k ∉ keysOf s → H = [])
    (hk2 : ∀ st, (k, st) ∈ c → k ∉ keysOf s →
      H = [if k ∈ keysOf l then Effect.serverLog k (set st 'D')
           else Effect.clientLog k (set st 'N')])
    (hk3 : ∀ st, (k, st) ∈ s → k ∉ keysOf c →
      H = [if k ∈ keysOf l then Effect.clientLog k (set (tr st) 'D')
           else Effect.serverLog k (set (tr st) 'N')])
    (hk4 : ∀ sc ss, (k, sc) ∈ c → (k, ss) ∈ s →
      ∃ lm : Int, (lm = 0 ∨ ∃ sl, (k, sl) ∈ l ∧ lm = sl.mtime)
        ∧ H = bothEffects k k sc (tr ss) lm)
    (hP : EffectsSpec tr c1 s1 l1 E1) : EffectsSpec tr c s l (H ++ E1) := by
  obtain ⟨p1, p2, p3, p4⟩ := hP
  have hk0 : effectsFor k E1 = [] := p1 k hkc hks
  have hkeyc : ∀ K, K ≠ k → (K ∈ keysOf c ↔ K ∈ keysOf c1) := by
    intro K hK
    rw [mem_keysOf, mem_keysOf]
    exact ⟨fun ⟨st, h⟩ => ⟨st, (hc K st hK).1 h⟩, fun ⟨st, h⟩ => ⟨st, (hc K st hK).2 h⟩⟩
  have hkeys : ∀ K, K ≠ k → (K ∈ keysOf s ↔ K ∈ keysOf s1) := by
    intro K hK
    rw [mem_keysOf, mem_keysOf]
    exact ⟨fun ⟨st, h⟩ => ⟨st, (hs K st hK).1 h⟩, fun ⟨st, h⟩ => ⟨st, (hs K st hK).2 h⟩⟩
  refine ⟨?_, ?_, ?_, ?_⟩
  · intro K h1 h2
    rw [effectsFor_append]
    by_cases hK : K = k
    · subst hK
      rw [hk1 h1 h2, hk0]; rfl
    · rw [effectsFor_none K k H hH hK, p1 K (fun h => h1 ((hkeyc K hK).2 h))
        (fun h => h2 ((hkeys K hK).2 h))]; rfl
  · intro K st h1 h2
    rw [effectsFor_append]
    by_cases hK : K = k
    · subst hK
      rw [hk0, effectsFor_all K H hH, hk2 st h1 h2]; rfl
    · rw [effectsFor_none K k H hH hK, p2 K st ((hc K st hK).1 h1)
        (fun h => h2 ((hkeys K hK).2 h))]
      simp only [List.nil_append, hl K hK]
  · intro K st h1 h2
    rw [effectsFor_append]
    by_cases hK : K = k
    · subst hK
      rw [hk0, effectsFor_all K H hH, hk3 st h1 h2]; rfl
    · rw [effectsFor_none K k H hH hK, p3 K st ((hs K st hK).1 h1)
        (fun h => h2 ((hkeyc K hK).2 h))]
      simp only [List.nil_append, hl K hK]
  · intro K sc ss h1 h2
    rw [effectsFor_append]
    by_cases hK : K = k
    · subst hK
      obtain ⟨lm, hlm, hHe⟩ := hk4 sc ss h1 h2
      refine ⟨lm, hlm, ?_⟩
      rw [hk0, effectsFor_all K H hH, hHe]; simp
    · obtain ⟨lm, hlm, hE⟩ := p4 K sc ss ((hc K sc hK).1 h1) ((hs K ss hK).1 h2)
      rw [effectsFor_none K k H hH hK, hE]
      rcases hlm with h0 | ⟨sl, hsl, hm⟩
      · exact ⟨lm, Or.inl h0, rfl⟩
      · rcases hl2 K sl hK hsl with h0 | hin
        · exact ⟨lm, Or.inl (by rw [hm, h0]), rfl⟩
        · exact ⟨lm, Or.inr ⟨sl, hin, hm⟩, rfl⟩

theorem snapshot_tail (x : Str × State) (xs : List (Str × State)) (h : Snapshot (x :: xs)) :
    Snapshot xs :=
  ⟨(List.pairwise_cons.1 h.1).2, fun r hr => h.2 r (by simp [hr])⟩

theorem keysOf_clobber (l : List (Str × State)) : keysOf (clobber l) = keysOf l := by
  cases l with
  | nil => rfl
  | cons x xs => rfl

theorem snapshot_clobber (l : List (Str × State)) (h : Snapshot l) : Snapshot (clobber l) := by
  cases l with
  | nil => exact h
  | cons x xs =>
    obtain ⟨k, st⟩ := x
    refine ⟨?_, bound_clobber _ h.2⟩
    have := h.1
    rw [List.pairwise_cons] at this
    simp only [clobber, List.pairwise_cons]
    exact this

theorem head_not_mem_tail (k : Str) (st : State) (rest : List (Str × State))
    (h : Snapshot ((k, st) :: rest)) : k ∉ keysOf rest := by
  intro hk
  obtain ⟨st2, h2⟩ := (mem_keysOf k rest).1 hk
  have := (List.pairwise_cons.1 h.1).1 (k, st2) h2
  simp only [strLt_irrefl] at this
  cases this

theorem lt_keyOf_not_mem (K : Str) (l : List (Str × State)) (h : Snapshot l)
    (hlt : strLt K (keyOf l) = true) : K ∉ keysOf l := by
  intro hk
  cases l with
  | nil => simp [keysOf] at hk
  | cons x xs =>
    obtain ⟨st2, h2⟩ := (mem_keysOf K _).1 hk
    rw [keyOf_cons] at hlt
    rcases List.mem_cons.1 h2 with h3 | h3
    · rw [← h3] at hlt
      simp only [strLt_irrefl] at hlt
      cases hlt
    · have := (List.pairwise_cons.1 h.1).1 (K, st2) h3
      have h4 := strLt_asymm _ _ hlt
      simp only at this
      rw [this] at h4
      cases h4

theorem snapshot_mem_cons (k K : Str) (st st2 : State) (rest : List (Str × State))
    (h : Snapshot ((k, st) :: rest)) (hm : (K, st2) ∈ (k, st) :: rest) :
    (K = k ∧ st2 = st) ∨ ((K, st2) ∈ rest ∧ K ≠ k) := by
  rcases List.mem_cons.1 hm with h1 | h1
  · left
    cases h1
    exact ⟨rfl, rfl⟩
  · right
    refine ⟨h1, ?_⟩
    intro hK
    subst hK
    exact head_not_mem_tail K st rest h ((mem_keysOf K rest).2 ⟨st2, h1⟩)

theorem mem_cons_ne (k K : Str) (st st2 : State) (rest : List (Str × State)) (hK : K ≠ k) :
    (K, st2) ∈ (k, st) :: rest ↔ (K, st2) ∈ rest := by
  simp [hK]

theorem accessEffects_key (k : Str) (sc ss : State) :
    ∀ e ∈ accessEffects k k sc ss, e.key = k := by
  unfold accessEffects
  split_ifs <;> simp [Effect.key]

theorem bothEffects_key (k : Str) (sc ss : State) (lm : Int) :
    ∀ e ∈ bothEffects k k sc ss lm, e.key = k := by
  unfold bothEffects
  split_ifs
  all_goals first
    | exact accessEffects_key k sc ss
    | simp [Effect.key]

theorem effectsSpec_nil (tr : State → State) (l : List (Str × State)) :
    EffectsSpec tr [] [] l [] := by
  refine ⟨fun _ _ _ => rfl, ?_, ?_, ?_⟩
  · intro K st h; simp at h
  · intro K st h; simp at h
  · intro K sc ss h; simp at h

/-- With enough fuel `merge3` returns, and its effects are those of
`EffectsSpec`. -/
theorem merge3_spec (tr : State → State) (n : Nat) :
    ∀ c s l, Snapshot c → Snapshot s → Snapshot l → c.length + s.length + l.length < n →
      ∃ E, merge3 tr n c s l = some E ∧ EffectsSpec tr c s l E := by
  induction n with
  | zero => intro c s l _ _ _ h; omega
  | succ n ih =>
    intro c s l hc hs hl hn
    by_cases h1 : keyOf s = LAST_KEY ∧ keyOf c = LAST_KEY
    · have hc0 := keyOf_eq_last c hc.2 h1.2
      have hs0 := keyOf_eq_last s hs.2 h1.1
      subst hc0 hs0
      exact ⟨[], by simp [merge3, keyOf_nil], effectsSpec_nil tr l⟩
    · by_cases h2 : strLt (keyOf l) (keyOf c) = true ∧ strLt (keyOf l) (keyOf s) = true
      · cases l with
        | nil =>
          have := not_lt_last c hc.2
          rw [keyOf_nil, this] at h2
          cases h2.1
        | cons x l1 =>
          obtain ⟨kl, sl⟩ := x
          rw [keyOf_cons] at h2
          simp only at h2
          obtain ⟨E, hE, hP⟩ := ih c s l1 hc hs (snapshot_tail _ _ hl)
            (by simp only [List.length_cons] at hn; omega)
          have hkc : kl ∉ keysOf c := lt_keyOf_not_mem kl c hc h2.1
          have hks : kl ∉ keysOf s := lt_keyOf_not_mem kl s hs h2.2
          refine ⟨E, by simp [merge3, h1, h2, hE, keyOf_cons], ?_⟩
          have := effectsSpec_step tr kl [] E c s ((kl, sl) :: l1) c s l1 (by simp)
            (fun _ _ _ => Iff.rfl) (fun _ _ _ => Iff.rfl)
            (fun K hK => by simp [keysOf, hK])
            (fun K sl2 _ h => Or.inr (by simp [h]))
            hkc hks (fun _ _ => rfl)
            (fun st h _ => absurd ((mem_keysOf kl c).2 ⟨st, h⟩) hkc)
            (fun st h _ => absurd ((mem_keysOf kl s).2 ⟨st, h⟩) hks)
            (fun sc ss h _ => absurd ((mem_keysOf kl c).2 ⟨sc, h⟩) hkc) hP
          simpa using this
      · by_cases h3 : strLt (keyOf c) (keyOf s) = true
        · cases c with
          | nil =>
            rw [keyOf_nil, not_lt_last s hs.2] at h3
            cases h3
          | cons x c1 =>
            obtain ⟨k, sc⟩ := x
            simp only [keyOf_cons] at h1 h2 h3
            have hkc1 : k ∉ keysOf c1 := head_not_mem_tail k sc c1 hc
            have hks : k ∉ keysOf s := lt_keyOf_not_mem k s hs h3
            have hkin : k ∈ keysOf ((k, sc) :: c1) := by simp [keysOf]
            have hnlt : strLt (keyOf l) k = false := by
              cases hq : strLt (keyOf l) k with
              | false => rfl
              | true => exact absurd ⟨hq, strLt_trans _ _ _ hq h3⟩ h2
            by_cases h4 : keyOf l = k
            · cases l with
              | nil =>
                exfalso
                have := hc.2 (k, sc) (by simp)
                rw [keyOf_nil] at h4
                rw [← h4] at this
                simp only [strLt_irrefl] at this
                cases this
              | cons y l1 =>
                obtain ⟨kl, sl⟩ := y
                rw [keyOf_cons] at h4
                simp only at h4
                subst h4
                obtain ⟨E, hE, hP⟩ := ih c1 s l1 (snapshot_tail _ _ hc) hs (snapshot_tail _ _ hl)
                  (by simp only [List.length_cons] at hn; omega)
                refine ⟨Effect.serverLog kl (set sc 'D') :: E,
                  by simp [merge3, h1, h3, hE, keyOf_cons, strLt_irrefl], ?_⟩
                have := effectsSpec_step tr kl [Effect.serverLog kl (set sc 'D')] E
                  ((kl, sc) :: c1) s ((kl, sl) :: l1) c1 s l1 (by simp [Effect.key])
                  (fun K st hK => mem_cons_ne kl K sc st c1 hK) (fun _ _ _ => Iff.rfl)
                  (fun K hK => by simp [keysOf, hK])
                  (fun K sl2 _ h => Or.inr (by simp [h]))
                  hkc1 hks (fun h _ => absurd hkin h)
                  (fun st h _ => by
                    rcases snapshot_mem_cons kl kl sc st c1 hc h with ⟨_, h5⟩ | ⟨_, h5⟩
                    · rw [h5]; simp [keysOf]
                    · exact absurd rfl h5)
                  (fun st h _ => absurd ((mem_keysOf kl s).2 ⟨st, h⟩) hks)
                  (fun sc2 ss h h6 => absurd ((mem_keysOf kl s).2 ⟨ss, h6⟩) hks) hP
                simpa using this
            · have hkl : k ∉ keysOf l := by
                apply lt_keyOf_not_mem k l hl
                cases hq : strLt k (keyOf l) with
                | true => rfl
                | false => exact absurd (strLt_total _ _ hnlt hq) h4
              obtain ⟨E, hE, hP⟩ := ih c1 s l (snapshot_tail _ _ hc) hs hl
                (by simp only [List.length_cons] at hn; omega)
              refine ⟨Effect.clientLog k (set sc 'N') :: E,
                by simp [merge3, h1, h2, h3, h4, hE, keyOf_cons], ?_⟩
              have := effectsSpec_step tr k [Effect.clientLog k (set sc 'N')] E
                ((k, sc) :: c1) s l c1 s l (by simp [Effect.key])
                (fun K st hK => mem_cons_ne k K sc st c1 hK) (fun _ _ _ => Iff.rfl)
                (fun _ _ => Iff.rfl) (fun K sl2 _ h => Or.inr h)
                hkc1 hks (fun h _ => absurd hkin h)
                (fun st h _ => by
                  rcases snapshot_mem_cons k k sc st c1 hc h with ⟨_, h5⟩ | ⟨_, h5⟩
                  · rw [h5]; simp [hkl]
                  · exact absurd rfl h5)
                (fun st h _ => absurd ((mem_keysOf k s).2 ⟨st, h⟩) hks)
                (fun sc2 ss h h6 => absurd ((mem_keysOf k s).2 ⟨ss, h6⟩) hks) hP
              simpa using this
        · by_cases h5 : strLt (keyOf s) (keyOf c) = true
          · cases s with
            | nil =>
              rw [keyOf_nil, not_lt_last c hc.2] at h5
              cases h5
            | cons x s1 =>
              obtain ⟨k, ss⟩ := x
              simp only [keyOf_cons] at h1 h2 h3 h5
              have hks1 : k ∉ keysOf s1 := head_not_mem_tail k ss s1 hs
              have hkc : k ∉ keysOf c := lt_keyOf_not_mem k c hc h5
              have hkin : k ∈ keysOf ((k, ss) :: s1) := by simp [keysOf]
              have hnlt : strLt (keyOf l) k = false := by
                cases hq : strLt (keyOf l) k with
                | false => rfl
                | true => exact absurd ⟨strLt_trans _ _ _ hq h5, hq⟩ h2
              by_cases h4 : keyOf l = k
              · cases l with
                | nil =>
                  exfalso
                  have := hs.2 (k, ss) (by simp)
                  rw [keyOf_nil] at h4
                  rw [← h4] at this
                  simp only [strLt_irrefl] at this
                  cases this
                | cons y l1 =>
                  obtain ⟨kl, sl⟩ := y
                  rw [keyOf_cons] at h4
                  simp only at h4
                  subst h4
                  obtain ⟨E, hE, hP⟩ := ih c s1 l1 hc (snapshot_tail _ _ hs)
                    (snapshot_tail _ _ hl) (by simp only [List.length_cons] at hn; omega)
                  refine ⟨Effect.clientLog kl (set (tr ss) 'D') :: E,
                    by simp [merge3, h1, h3, h5, hE, keyOf_cons, strLt_irrefl], ?_⟩
                  have := effectsSpec_step tr kl [Effect.clientLog kl (set (tr ss) 'D')] E
                    c ((kl, ss) :: s1) ((kl, sl) :: l1) c s1 l1 (by simp [Effect.key])
                    (fun _ _ _ => Iff.rfl) (fun K st hK => mem_cons_ne kl K ss st s1 hK)
                    (fun K hK => by simp [keysOf, hK])
                    (fun K sl2 _ h => Or.inr (by simp [h]))
                    hkc hks1 (fun _ h => absurd hkin h)
                    (fun st h _ => absurd ((mem_keysOf kl c).2 ⟨st, h⟩) hkc)
                    (fun st h _ => by
                      rcases snapshot_mem_cons kl kl ss st s1 hs h with ⟨_, h6⟩ | ⟨_, h6⟩
                      · rw [h6]; simp [keysOf]
                      · exact absurd rfl h6)
                    (fun sc2 ss2 h _ => absurd ((mem_keysOf kl c).2 ⟨sc2, h⟩) hkc) hP
                  simpa using this
              · have hkl : k ∉ keysOf l := by
                  apply lt_keyOf_not_mem k l hl
                  cases hq : strLt k (keyOf l) with
                  | true => rfl
                  | false => exact absurd (strLt_total _ _ hnlt hq) h4
                obtain ⟨E, hE, hP⟩ := ih c s1 l hc (snapshot_tail _ _ hs) hl
                  (by simp only [List.length_cons] at hn; omega)
                refine ⟨Effect.serverLog k (set (tr ss) 'N') :: E,
                  by simp [merge3, h1, h2, h3, h4, h5, hE, keyOf_cons], ?_⟩
                have := effectsSpec_step tr k [Effect.serverLog k (set (tr ss) 'N')] E
                  c ((k, ss) :: s1) l c s1 l (by simp [Effect.key])
                  (fun _ _ _ => Iff.rfl) (fun K st hK => mem_cons_ne k K ss st s1 hK)
                  (fun _ _ => Iff.rfl) (fun K sl2 _ h => Or.inr h)
                  hkc hks1 (fun _ h => absurd hkin h)
                  (fun st h _ => absurd ((mem_keysOf k c).2 ⟨st, h⟩) hkc)
                  (fun st h _ => by
                    rcases snapshot_mem_cons k k ss st s1 hs h with ⟨_, h6⟩ | ⟨_, h6⟩
                    · rw [h6]; simp [hkl]
                    · exact absurd rfl h6)
                  (fun sc2 ss2 h _ => absurd ((mem_keysOf k c).2 ⟨sc2, h⟩) hkc) hP
                simpa using this
          · have hkeq : keyOf c = keyOf s :=
              strLt_total _ _ (Bool.eq_false_iff.2 h3) (Bool.eq_false_iff.2 h5)
            cases c with
            | nil =>
              exfalso
              rw [keyOf_nil] at hkeq
              exact h1 ⟨hkeq.symm, rfl⟩
            | cons x c1 =>
              cases s with
              | nil =>
                exfalso
                rw [keyOf_nil] at hkeq
                exact h1 ⟨rfl, hkeq⟩
              | cons y s1 =>
                obtain ⟨k, sc⟩ := x
                obtain ⟨k2, ss⟩ := y
                simp only [keyOf_cons] at h1 h2 h3 h5 hkeq
                subst hkeq
                have hkne : ¬ (k = LAST_KEY) := fun h => h1 ⟨h, h⟩
                have h2n : ¬ (strLt (keyOf l) k = true) := fun h => h2 ⟨h, h⟩
                have hkc1 : k ∉ keysOf c1 := head_not_mem_tail k sc c1 hc
                have hks1 : k ∉ keysOf s1 := head_not_mem_tail k ss s1 hs
                have hkinc : k ∈ keysOf ((k, sc) :: c1) := by simp [keysOf]
                have hkins : k ∈ keysOf ((k, ss) :: s1) := by simp [keysOf]
                have hst : ∀ sc2 ss2, (k, sc2) ∈ (k, sc) :: c1 → (k, ss2) ∈ (k, ss) :: s1 →
                    sc2 = sc ∧ ss2 = ss := by
                  intro sc2 ss2 h6 h7
                  rcases snapshot_mem_cons k k sc sc2 c1 hc h6 with ⟨_, h8⟩ | ⟨_, h8⟩
                  · rcases snapshot_mem_cons k k ss ss2 s1 hs h7 with ⟨_, h9⟩ | ⟨_, h9⟩
                    · exact ⟨h8, h9⟩
                    · exact absurd rfl h9
                  · exact absurd rfl h8
                cases l with
                | nil =>
                  obtain ⟨E, hE, hP⟩ := ih c1 s1 [] (snapshot_tail _ _ hc) (snapshot_tail _ _ hs)
                    hl (by simp only [List.length_cons] at hn; omega)
                  refine ⟨bothEffects k k sc (tr ss) 0 ++ E, ?_, ?_⟩
                  · rw [keyOf_nil] at h2n
                    simp [merge3, hkne, h2n, strLt_irrefl, hE, keyOf_cons, keyOf_nil]
                  · exact effectsSpec_step tr k (bothEffects k k sc (tr ss) 0) E
                      ((k, sc) :: c1) ((k, ss) :: s1) [] c1 s1 []
                      (bothEffects_key k sc (tr ss) 0)
                      (fun K st hK => mem_cons_ne k K sc st c1 hK)
                      (fun K st hK => mem_cons_ne k K ss st s1 hK)
                      (fun _ _ => Iff.rfl) (fun K sl2 _ h => Or.inr h)
                      hkc1 hks1 (fun h _ => absurd hkinc h)
                      (fun st _ h => absurd hkins h) (fun st _ h => absurd hkinc h)
                      (fun sc2 ss2 h6 h7 => by
                        obtain ⟨e1, e2⟩ := hst sc2 ss2 h6 h7
                        exact ⟨0, Or.inl rfl, by rw [e1, e2]⟩) hP
                | cons z l1 =>
                  obtain ⟨kl, sl⟩ := z
                  rw [keyOf_cons] at h2n
                  simp only at h2n
                  by_cases h6 : kl = k
                  · subst h6
                    obtain ⟨E, hE, hP⟩ := ih c1 s1 l1 (snapshot_tail _ _ hc)
                      (snapshot_tail _ _ hs) (snapshot_tail _ _ hl)
                      (by simp only [List.length_cons] at hn; omega)
                    refine ⟨bothEffects kl kl sc (tr ss) sl.mtime ++ E, ?_, ?_⟩
                    · simp [merge3, hkne, strLt_irrefl, hE, keyOf_cons]
                    · exact effectsSpec_step tr kl (bothEffects kl kl sc (tr ss) sl.mtime) E
                        ((kl, sc) :: c1) ((kl, ss) :: s1) ((kl, sl) :: l1) c1 s1 l1
                        (bothEffects_key kl sc (tr ss) sl.mtime)
                        (fun K st hK => mem_cons_ne kl K sc st c1 hK)
                        (fun K st hK => mem_cons_ne kl K ss st s1 hK)
                        (fun K hK => by simp [keysOf, hK])
                        (fun K sl2 _ h => Or.inr (by simp [h]))
                        hkc1 hks1 (fun h _ => absurd hkinc h)
                        (fun st _ h => absurd hkins h) (fun st _ h => absurd hkinc h)
                        (fun sc2 ss2 h6 h7 => by
                          obtain ⟨e1, e2⟩ := hst sc2 ss2 h6 h7
                          exact ⟨sl.mtime, Or.inr ⟨sl, by simp, rfl⟩, by rw [e1, e2]⟩) hP
                  · obtain ⟨E, hE, hP⟩ := ih c1 s1 (clobber ((kl, sl) :: l1))
                      (snapshot_tail _ _ hc) (snapshot_tail _ _ hs) (snapshot_clobber _ hl)
                      (by simp only [List.length_cons, clobber] at hn ⊢; omega)
                    refine ⟨bothEffects k k sc (tr ss) 0 ++ E, ?_, ?_⟩
                    · simp [merge3, hkne, h2n, h6, strLt_irrefl, hE, keyOf_cons]
                    · exact effectsSpec_step tr k (bothEffects k k sc (tr ss) 0) E
                        ((k, sc) :: c1) ((k, ss) :: s1) ((kl, sl) :: l1) c1 s1
                        (clobber ((kl, sl) :: l1))
                        (bothEffects_key k sc (tr ss) 0)
                        (fun K st hK => mem_cons_ne k K sc st c1 hK)
                        (fun K st hK => mem_cons_ne k K ss st s1 hK)
                        (fun K _ => by rw [keysOf_clobber])
                        (fun K sl2 _ h => by
                          simp only [clobber, List.mem_cons] at h
                          rcases h with h | h
                          · left; cases h; rfl
                          · right; simp [h])
                        hkc1 hks1 (fun h _ => absurd hkinc h)
                        (fun st _ h => absurd hkins h) (fun st _ h => absurd hkinc h)
                        (fun sc2 ss2 h6 h7 => by
                          obtain ⟨e1, e2⟩ := hst sc2 ss2 h6 h7
                          exact ⟨0, Or.inl rfl, by rw [e1, e2]⟩) hP

theorem compareState_spec (tr : State → State) (s0 : State) (client server lsynst : List (Str × State))
    (fuel : Nat) (hc : Snapshot client) (hs : Snapshot server) (hl : Snapshot lsynst)
    (hf : client.length + server.length + lsynst.length < fuel) :
    ∃ E, compareState tr s0 client server lsynst fuel = some E
      ∧ EffectsSpec tr client server lsynst E := by
  rw [compareState_eq_merge3 tr s0 client server lsynst fuel hc hs hl]
  exact merge3_spec tr fuel client server lsynst hc hs hl hf

theorem set_D_action (st : State) :
    set st 'D' = { st with action := if S_ISDIR st.mode then State.rmdired else State.removed } := by
  simp [set]

theorem set_N_action (st : State) :
    (S_ISDIR st.mode = true → set st 'N' = { st with action := State.mkdired })
      ∧ (S_ISLNK st.mode = true → set st 'N' = { st with action := State.newlink })
      ∧ (S_ISREG st.mode = true → set st 'N' = { st with action := State.created }) := by
  refine ⟨?_, ?_, ?_⟩
  · intro h; simp [set, h]
  · intro h
    have hd : S_ISDIR st.mode = false := by
      simp only [S_ISLNK, S_ISDIR, beq_iff_eq] at h ⊢
      rw [h]; rfl
    simp [set, h, hd]
  · intro h
    have hd : S_ISDIR st.mode = false := by
      simp only [S_ISREG, S_ISDIR, beq_iff_eq] at h ⊢
      rw [h]; rfl
    have hk : S_ISLNK st.mode = false := by
      simp only [S_ISREG, S_ISLNK, beq_iff_eq] at h ⊢
      rw [h]; rfl
    simp [set, h, hd, hk]

/-- Claim C6: for sorted snapshots (keys below `LAST_KEY`, as every path is)
and enough fuel, `compareState` returns, and a key held by exactly one of the
client and the server snapshot gets exactly one effect: for a key of the
client only, `_M_ServerLog.insert` of the client state with the deletion
action when the key is in the last-sync snapshot and `addToLog` of the client
state with the creation action otherwise; for a key of the server only,
`addToLog` of the (translated) server state with the deletion action when the
key is in the last-sync snapshot and `_M_ServerLog.insert` of it with the
creation action otherwise; a key of the last-sync snapshot alone gets no
effect.  The deletion action is `rmdired` for a directory and `removed`
otherwise, the creation action is `mkdired`, `newlink` or `created` for a
directory, a symbolic link or a regular file. -/
theorem compareState_one_sided (tr : State → State) (s0 : State)
    (client server lsynst : List (Str × State)) (fuel : Nat)
    (hc : Snapshot client) (hs : Snapshot server) (hl : Snapshot lsynst)
    (hf : client.length + server.length + lsynst.length < fuel) :
    ∃ E, compareState tr s0 client server lsynst fuel = some E
      ∧ (∀ K st, (K, st) ∈ client → K ∉ keysOf server →
          effectsFor K E = [if K ∈ keysOf lsynst then Effect.serverLog K (set st 'D')
                            else Effect.clientLog K (set st 'N')])
      ∧ (∀ K st, (K, st) ∈ server → K ∉ keysOf client →
          effectsFor K E = [if K ∈ keysOf lsynst then Effect.clientLog K (set (tr st) 'D')
                            else Effect.serverLog K (set (tr st) 'N')])
      ∧ (∀ K, K ∈ keysOf lsynst → K ∉ keysOf client → K ∉ keysOf server → effectsFor K E = [])
      ∧ (∀ st : State,
          set st 'D'
              = { st with action := if S_ISDIR st.mode then State.rmdired else State.removed }
            ∧ (S_ISDIR st.mode = true → set st 'N' = { st with action := State.mkdired })
            ∧ (S_ISLNK st.mode = true → set st 'N' = { st with action := State.newlink })
            ∧ (S_ISREG st.mode = true → set st 'N' = { st with action := State.created })) := by
  obtain ⟨E, hE, p1, p2, p3, _⟩ := compareState_spec tr s0 client server lsynst fuel hc hs hl hf
  exact ⟨E, hE, p2, p3, fun K _ h1 h2 => p1 K h1 h2, fun st => ⟨set_D_action st, set_N_action st⟩⟩

theorem compareState_one_sided_witness :
    ∃ E, compareState id (State.mk [] 0 0 0 0 0 0 0)
          [(bytes "/a", State.mk [1] 0 0 0o100644 30 30 1 0),
           (bytes "/c", State.mk [] 0 0 0o40755 5 5 0 0)]
          [(bytes "/b", State.mk [2] 0 0 0o100644 20 20 1 0),
           (bytes "/d", State.mk [3] 0 0 0o100644 7 7 1 0)]
          [(bytes "/a", State.mk [1] 0 0 0o100644 30 30 1 0),
           (bytes "/d", State.mk [3] 0 0 0o100644 7 7 1 0),
           (bytes "/e", State.mk [4] 0 0 0o100644 9 9 1 0)] 8 = some E
      ∧ (∀ K st, (K, st) ∈ [(bytes "/a", State.mk [1] 0 0 0o100644 30 30 1 0),
              (bytes "/c", State.mk [] 0 0 0o40755 5 5 0 0)] →
          K ∉ keysOf [(bytes "/b", State.mk [2] 0 0 0o100644 20 20 1 0),
              (bytes "/d", State.mk [3] 0 0 0o100644 7 7 1 0)] →
          effectsFor K E
            = [if K ∈ keysOf [(bytes "/a", State.mk [1] 0 0 0o100644 30 30 1 0),
                  (bytes "/d", State.mk [3] 0 0 0o100644 7 7 1 0),
                  (bytes "/e", State.mk [4] 0 0 0o100644 9 9 1 0)] then
                Effect.serverLog K (set st 'D')
               else Effect.clientLog K (set st 'N')])
      ∧ (∀ K st, (K, st) ∈ [(bytes "/b", State.mk [2] 0 0 0o100644 20 20 1 0),
              (bytes "/d", State.mk [3] 0 0 0o100644 7 7 1 0)] →
          K ∉ keysOf [(bytes "/a", State.mk [1] 0 0 0o100644 30 30 1 0),
              (bytes "/c", State.mk [] 0 0 0o40755 5 5 0 0)] →
          effectsFor K E
            = [if K ∈ keysOf [(bytes "/a", State.mk [1] 0 0 0o100644 30 30 1 0),
                  (bytes "/d", State.mk [3] 0 0 0o100644 7 7 1 0),
                  (bytes "/e", State.mk [4] 0 0 0o100644 9 9 1 0)] then
                Effect.clientLog K (set (id st) 'D')
               else Effect.serverLog K (set (id st) 'N')])
      ∧ (∀ K, K ∈ keysOf [(bytes "/a", State.mk [1] 0 0 0o100644 30 30 1 0),
              (bytes "/d", State.mk [3] 0 0 0o100644 7 7 1 0),
              (bytes "/e", State.mk [4] 0 0 0o100644 9 9 1 0)] →
          K ∉ keysOf [(bytes "/a", State.mk [1] 0 0 0o100644 30 30 1 0),
              (bytes "/c", State.mk [] 0 0 0o40755 5 5 0 0)] →
          K ∉ keysOf [(bytes "/b", State.mk [2] 0 0 0o100644 20 20 1 0),
              (bytes "/d", State.mk [3] 0 0 0o100644 7 7 1 0)] → effectsFor K E = [])
      ∧ (∀ st : State,
          set st 'D'
              = { st with action := if S_ISDIR st.mode then State.rmdired else State.removed }
            ∧ (S_ISDIR st.mode = true → set st 'N' = { st with action := State.mkdired })
            ∧ (S_ISLNK st.mode = true → set st 'N' = { st with action := State.newlink })
            ∧ (S_ISREG st.mode = true → set st 'N' = { st with action := State.created })) :=
  compareState_one_sided id (State.mk [] 0 0 0 0 0 0 0)
    [(bytes "/a", State.mk [1] 0 0 0o100644 30 30 1 0),
     (bytes "/c", State.mk [] 0 0 0o40755 5 5 0 0)]
    [(bytes "/b", State.mk [2] 0 0 0o100644 20 20 1 0),
     (bytes "/d", State.mk [3] 0 0 0o100644 7 7 1 0)]
    [(bytes "/a", State.mk [1] 0 0 0o100644 30 30 1 0),
     (bytes "/d", State.mk [3] 0 0 0o100644 7 7 1 0),
     (bytes "/e", State.mk [4] 0 0 0o100644 9 9 1 0)] 8
    (by decide) (by decide) (by decide) (by decide)

/-- Claim C7, failing input.  Client and server both hold `/a` (unchanged and
absent from the last-sync snapshot) and `/b`; `/b` is a regular file with
last-sync mtime `-5`, client mtime `-3`, server mtime `-2` and differing md4,
so both mtimes exceed the last-sync mtime and differ.  While `/a` is handled,
`state_lsynst.mtime = 0` overwrites the mtime of the record of `/b` that is
already read, and for `/b` the code then finds no conflict: it requests no
backup and only inserts the server state.  Without `/a` the same `/b` is
treated as the conflict the claim describes. -/
theorem compareState_conflict_missed :
    compareState id (State.mk [] 0 0 0 0 0 0 0)
        [(bytes "/a", State.mk (List.replicate 16 1) 0 0 0o100644 5 5 1 0),
         (bytes "/b", State.mk (List.replicate 16 2) 0 0 0o100644 (-3) (-3) 1 0)]
        [(bytes "/a", State.mk (List.replicate 16 1) 0 0 0o100644 5 5 1 0),
         (bytes "/b", State.mk (List.replicate 16 3) 0 0 0o100644 (-2) (-2) 1 0)]
        [(bytes "/b", State.mk (List.replicate 16 4) 0 0 0o100644 (-5) (-5) 1 0)] 8
      = some [Effect.serverLog (bytes "/b")
          (State.mk (List.replicate 16 3) 0 0 0o100644 (-2) (-2) 1 State.changed)]
    ∧ compareState id (State.mk [] 0 0 0 0 0 0 0)
        [(bytes "/b", State.mk (List.replicate 16 2) 0 0 0o100644 (-3) (-3) 1 0)]
        [(bytes "/b", State.mk (List.replicate 16 3) 0 0 0o100644 (-2) (-2) 1 0)]
        [(bytes "/b", State.mk (List.replicate 16 4) 0 0 0o100644 (-5) (-5) 1 0)] 8
      = some [Effect.backup (bytes "/b"), Effect.serverLog (bytes "/b")
          (State.mk (List.replicate 16 3) 0 0 0o100644 (-2) (-2) 1 State.changed)] := by
  constructor <;> rfl

/-- Counterexample to claim C8 as stated: `/b` was changed on both sides since
the last sync (last-sync mtime 10, client mtime 30, server mtime 20, md4
differ).  The client's mtime is the later one, yet `compareState` backs up the
client's copy and puts the server's state into the log for the server. -/
theorem compareState_conflict_winner_counterexample :
    compareState id (State.mk [] 0 0 0 0 0 0 0)
        [(bytes "/b", State.mk (List.replicate 16 2) 0 0 0o100644 30 30 1 0)]
        [(bytes "/b", State.mk (List.replicate 16 3) 0 0 0o100644 20 20 1 0)]
        [(bytes "/b", State.mk (List.replicate 16 4) 0 0 0o100644 10 10 1 0)] 8
      = some [Effect.backup (bytes "/b"), Effect.serverLog (bytes "/b")
          (State.mk (List.replicate 16 3) 0 0 0o100644 20 20 1 State.changed)] := by
  rfl

/-- Claim C8, amended: for a key `K` that both snapshots hold, not as a
directory on both sides, whose client mtime and (translated) server mtime are
both positive, both exceed the mtime of `K` in the last-sync snapshot if it is
there, differ from each other, and whose md4 differ, the effects of
`compareState` for `K` are the backup of the client's copy followed by the
insertion of the server's state, with the content action, into the log for the
server: the server's version survives whichever mtime is the later one. -/
theorem compareState_conflict_server_wins (tr : State → State) (s0 : State)
    (client server lsynst : List (Str × State)) (fuel : Nat) (K : Str) (sc ss : State)
    (hc : Snapshot client) (hs : Snapshot server) (hl : Snapshot lsynst)
    (hf : client.length + server.length + lsynst.length < fuel)
    (hKc : (K, sc) ∈ client) (hKs : (K, ss) ∈ server)
    (hdir : ¬ (S_ISDIR (tr ss).mode = true ∧ S_ISDIR sc.mode = true))
    (hpos : 0 < sc.mtime ∧ 0 < (tr ss).mtime)
    (hlm : ∀ r ∈ lsynst, r.1 = K → r.2.mtime < sc.mtime ∧ r.2.mtime < (tr ss).mtime)
    (hne : sc.mtime ≠ (tr ss).mtime) (hmd : sc.md4 ≠ (tr ss).md4) :
    ∃ E, compareState tr s0 client server lsynst fuel = some E
      ∧ effectsFor K E = [Effect.backup K, Effect.serverLog K (set (tr ss) 'C')]
      ∧ (S_ISREG (tr ss).mode = true →
          set (tr ss) 'C' = { tr ss with action := State.changed }) := by
  obtain ⟨E, hE, _, _, _, p4⟩ := compareState_spec tr s0 client server lsynst fuel hc hs hl hf
  obtain ⟨lm, hlm2, heff⟩ := p4 K sc ss hKc hKs
  have hgt : sc.mtime > lm ∧ (tr ss).mtime > lm := by
    rcases hlm2 with h0 | ⟨sl, hsl, hm⟩
    · rw [h0]; exact hpos
    · rw [hm]; exact hlm (K, sl) hsl rfl
  refine ⟨E, hE, ?_, ?_⟩
  · rw [heff]
    unfold bothEffects
    rw [if_neg hdir, if_pos ⟨hgt.1, hgt.2, hne⟩, if_pos hmd]
  · intro h
    have hd : S_ISDIR (tr ss).mode = false := by
      simp only [S_ISREG, S_ISDIR, beq_iff_eq] at h ⊢
      rw [h]; rfl
    have hk : S_ISLNK (tr ss).mode = false := by
      simp only [S_ISREG, S_ISLNK, beq_iff_eq] at h ⊢
      rw [h]; rfl
    simp [set, h, hd, hk]

theorem compareState_conflict_server_wins_witness :
    ∃ E, compareState id (State.mk [] 0 0 0 0 0 0 0)
          [(bytes "/b", State.mk (List.replicate 16 2) 0 0 0o100644 30 30 1 0)]
          [(bytes "/b", State.mk (List.replicate 16 3) 0 0 0o100644 20 20 1 0)]
          [(bytes "/b", State.mk (List.replicate 16 4) 0 0 0o100644 10 10 1 0)] 8 = some E
      ∧ effectsFor (bytes "/b") E
          = [Effect.backup (bytes "/b"), Effect.serverLog (bytes "/b")
              (set (id (State.mk (List.replicate 16 3) 0 0 0o100644 20 20 1 0)) 'C')]
      ∧ (S_ISREG (id (State.mk (List.replicate 16 3) 0 0 0o100644 20 20 1 0)).mode = true →
          set (id (State.mk (List.replicate 16 3) 0 0 0o100644 20 20 1 0)) 'C'
            = { id (State.mk (List.replicate 16 3) 0 0 0o100644 20 20 1 0) with
                action := State.changed }) :=
  compareState_conflict_server_wins id (State.mk [] 0 0 0 0 0 0 0)
    [(bytes "/b", State.mk (List.replicate 16 2) 0 0 0o100644 30 30 1 0)]
    [(bytes "/b", State.mk (List.replicate 16 3) 0 0 0o100644 20 20 1 0)]
    [(bytes "/b", State.mk (List.replicate 16 4) 0 0 0o100644 10 10 1 0)] 8 (bytes "/b")
    (State.mk (List.replicate 16 2) 0 0 0o100644 30 30 1 0)
    (State.mk (List.replicate 16 3) 0 0 0o100644 20 20 1 0)
    (by decide) (by decide) (by decide) (by decide) (by decide) (by decide) (by decide)
    (by decide) (by decide) (by decide) (by decide)

/-- Claim C9, failing input.  `/b` is a regular file in all three snapshots
with last-sync mtime 10, server mtime 10 and client mtime 20 and differing
md4: no conflict on its own last-sync mtime, the client is newer.  When the
snapshots hold nothing else, `compareState` adds the client's state with
action `changed` to the client's write-log and requests no backup.  When
client and server also hold an unchanged `/a` that is not in the last-sync
snapshot, handling `/a` sets `state_lsynst.mtime = 0` in the record of `/b`
that is already read, and `/b` is then treated as a conflict: the client's copy
is backed up and the older server state is put into the log for the server. -/
theorem compareState_newer_side_overridden :
    compareState id (State.mk [] 0 0 0 0 0 0 0)
        [(bytes "/b", State.mk (List.replicate 16 2) 0 0 0o100644 20 20 1 0)]
        [(bytes "/b", State.mk (List.replicate 16 3) 0 0 0o100644 10 10 1 0)]
        [(bytes "/b", State.mk (List.replicate 16 3) 0 0 0o100644 10 10 1 0)] 8
      = some [Effect.clientLog (bytes "/b")
          (State.mk (List.replicate 16 2) 0 0 0o100644 20 20 1 State.changed)]
    ∧ compareState id (State.mk [] 0 0 0 0 0 0 0)
        [(bytes "/a", State.mk (List.replicate 16 1) 0 0 0o100644 5 5 1 0),
         (bytes "/b", State.mk (List.replicate 16 2) 0 0 0o100644 20 20 1 0)]
        [(bytes "/a", State.mk (List.replicate 16 1) 0 0 0o100644 5 5 1 0),
         (bytes "/b", State.mk (List.replicate 16 3) 0 0 0o100644 10 10 1 0)]
        [(bytes "/b", State.mk (List.replicate 16 3) 0 0 0o100644 10 10 1 0)] 8
      = some [Effect.backup (bytes "/b"), Effect.serverLog (bytes "/b")
          (State.mk (List.replicate 16 3) 0 0 0o100644 10 10 1 State.changed)] := by
  constructor <;> rfl

set_option maxRecDepth 100000 in
/-- Claim C10, failing input.  The log holds the removed directory `/x`, the
file `/x/f` inside it, and the unrelated `/xy`, `/xy/f` and `/z`.
`SendLogDialog::start` serializes only `/x` and `/z`: `isParentOf` is a plain
string-prefix test, so `/xy` and `/xy/f` are erased from the log together with
`/x/f` and are never transmitted. -/
theorem sendLog_drops_prefix_siblings :
    (SendLogDialog.start id State.repr (fun _ => false) 8
        (SendLogDialog.new
          [(Path.root (bytes "/x"), State.mk (List.replicate 16 0) 0 0 0o40755 7 7 0 State.rmdired),
           (Path.child (Path.root (bytes "/x")) (bytes "/f"),
             State.mk (List.replicate 16 1) 0 0 0o100644 8 8 1 State.created),
           (Path.root (bytes "/xy"),
             State.mk (List.replicate 16 0) 0 0 0o40755 9 9 0 State.mkdired),
           (Path.child (Path.root (bytes "/xy")) (bytes "/f"),
             State.mk (List.replicate 16 2) 0 0 0o100644 9 9 1 State.created),
           (Path.root (bytes "/z"),
             State.mk (List.replicate 16 3) 0 0 0o100644 9 9 1 State.created)])).map
      (fun r => (r.1.sent.map (fun x => x.1), r.1.log.map (fun x => x.1.str), r.2))
    = some ([bytes "/x", bytes "/z"], [bytes "/x", bytes "/z"], true) := by
  rfl

/-! ## IDTranslator -/

theorem find_filter_ne (m : IdMap) (k j : Nat) (h : ¬ k = j) :
    IdMap.find (m.filter (fun e => decide (e.1 ≠ k))) j = IdMap.find m j := by
  induction m with
  | nil => rfl
  | cons e es ih =>
    obtain ⟨a, b⟩ := e
    rw [List.filter_cons]
    by_cases ha : a = k
    · have hd : decide ((a, b).1 ≠ k) = false := by simp [ha]
      have haj : ¬ a = j := by rw [ha]; exact h
      rw [hd]
      simp only [Bool.false_eq_true, if_false, IdMap.find, haj, ih]
    · have hd : decide ((a, b).1 ≠ k) = true := by simp [ha]
      rw [hd]
      simp only [if_true, IdMap.find, ih]

theorem find_assign (m : IdMap) (k v j : Nat) :
    (m.assign k v).find j = if k = j then some v else m.find j := by
  unfold IdMap.assign
  by_cases h : k = j
  · simp [IdMap.find, h]
  · simp only [IdMap.find, h, if_false]
    exact find_filter_ne m k j h

/-- The two maps after the rules `rules`, each a pair `(server, client)`. -/
theorem fold_rules_spec (rules : List (Nat × Nat)) (h : OneToOne rules) :
    (∀ r ∈ rules,
        ((rules.foldl (fun (p : IdMap × IdMap) r => (p.1.assign r.2 r.1, p.2.assign r.1 r.2))
            ([], [])).1.find r.2 = some r.1)
        ∧ ((rules.foldl (fun (p : IdMap × IdMap) r => (p.1.assign r.2 r.1, p.2.assign r.1 r.2))
            ([], [])).2.find r.1 = some r.2))
      ∧ (∀ i, (∀ r ∈ rules, r.2 ≠ i) →
          (rules.foldl (fun (p : IdMap × IdMap) r => (p.1.assign r.2 r.1, p.2.assign r.1 r.2))
            ([], [])).1.find i = none)
      ∧ (∀ i, (∀ r ∈ rules, r.1 ≠ i) →
          (rules.foldl (fun (p : IdMap × IdMap) r => (p.1.assign r.2 r.1, p.2.assign r.1 r.2))
            ([], [])).2.find i = none) := by
  induction rules using List.reverseRecOn with
  | nil => simp [IdMap.find]
  | append_singleton l a ih =>
    have hl : OneToOne l := fun r1 h1 r2 h2 => h r1 (by simp [h1]) r2 (by simp [h2])
    obtain ⟨i1, i2, i3⟩ := ih hl
    simp only [List.foldl_append, List.foldl_cons, List.foldl_nil, find_assign]
    refine ⟨?_, ?_, ?_⟩
    · intro r hr
      rcases List.mem_append.1 hr with hr1 | hr1
      · have hiff := h a (by simp) r (by simp [hr1])
        constructor
        · by_cases hc : a.2 = r.2
          · simp [hc, hiff.2 hc]
          · simp [hc, (i1 r hr1).1]
        · by_cases hc : a.1 = r.1
          · simp [hc, hiff.1 hc]
          · simp [hc, (i1 r hr1).2]
      · simp only [List.mem_singleton] at hr1
        subst hr1
        simp
    · intro i hi
      have h1 : ¬ a.2 = i := hi a (by simp)
      simp only [h1, if_false]
      exact i2 i (fun r hr => hi r (by simp [hr]))
    · intro i hi
      have h1 : ¬ a.1 = i := hi a (by simp)
      simp only [h1, if_false]
      exact i3 i (fun r hr => hi r (by simp [hr]))

theorem build_user_maps (uids gids : List (Nat × Nat)) :
    ((IDTranslator.build uids gids).userClientToServer,
        (IDTranslator.build uids gids).userServerToClient)
      = uids.foldl (fun (p : IdMap × IdMap) r => (p.1.assign r.2 r.1, p.2.assign r.1 r.2))
          ([], []) := by
  unfold IDTranslator.build
  have hg : ∀ (t : IDTranslator),
      ((gids.foldl (fun t r => t.addGid r.1 r.2) t).userClientToServer,
        (gids.foldl (fun t r => t.addGid r.1 r.2) t).userServerToClient)
      = (t.userClientToServer, t.userServerToClient) := by
    induction gids with
    | nil => intro t; rfl
    | cons g gs ih => intro t; simp only [List.foldl_cons]; rw [ih]; rfl
  rw [hg]
  have hu : ∀ (t : IDTranslator),
      ((uids.foldl (fun t r => t.addUid r.1 r.2) t).userClientToServer,
        (uids.foldl (fun t r => t.addUid r.1 r.2) t).userServerToClient)
      = uids.foldl (fun (p : IdMap × IdMap) r => (p.1.assign r.2 r.1, p.2.assign r.1 r.2))
          (t.userClientToServer, t.userServerToClient) := by
    induction uids with
    | nil => intro t; rfl
    | cons u us ih => intro t; simp only [List.foldl_cons]; rw [ih]; rfl
  exact hu IDTranslator.empty

theorem build_group_maps (uids gids : List (Nat × Nat)) :
    ((IDTranslator.build uids gids).groupClientToServer,
        (IDTranslator.build uids gids).groupServerToClient)
      = gids.foldl (fun (p : IdMap × IdMap) r => (p.1.assign r.2 r.1, p.2.assign r.1 r.2))
          ([], []) := by
  unfold IDTranslator.build
  have hu : ∀ (t : IDTranslator),
      ((uids.foldl (fun t r => t.addUid r.1 r.2) t).groupClientToServer,
        (uids.foldl (fun t r => t.addUid r.1 r.2) t).groupServerToClient)
      = (t.groupClientToServer, t.groupServerToClient) := by
    induction uids with
    | nil => intro t; rfl
    | cons g gs ih => intro t; simp only [List.foldl_cons]; rw [ih]; rfl
  have hg : ∀ (t : IDTranslator),
      ((gids.foldl (fun t r => t.addGid r.1 r.2) t).groupClientToServer,
        (gids.foldl (fun t r => t.addGid r.1 r.2) t).groupServerToClient)
      = gids.foldl (fun (p : IdMap × IdMap) r => (p.1.assign r.2 r.1, p.2.assign r.1 r.2))
          (t.groupClientToServer, t.groupServerToClient) := by
    induction gids with
    | nil => intro t; rfl
    | cons u us ih => intro t; simp only [List.foldl_cons]; rw [ih]; rfl
  rw [hg, hu]
  rfl

/-- Counterexample to claim C18 as stated: after the rules `uid 10 1` and
`uid 10 2` (client 10 to server 1, then client 10 to server 2) server id 1
still has a rule, but translating it to the client and back gives 2. -/
theorem idTranslator_inverse_counterexample :
    (IDTranslator.build [(1, 10), (2, 10)] []).getClientUid 1 = 10
      ∧ (IDTranslator.build [(1, 10), (2, 10)] []).getServerUid
          ((IDTranslator.build [(1, 10), (2, 10)] []).getClientUid 1) = 2 := by
  decide

/-- Claim C18, amended: when the uid rules pair client and server ids one to
one, and so do the gid rules, the translator built from them maps the two ids
of every rule to each other, so the client-to-server and server-to-client maps
are mutually inverse on the ids that have a rule; an id without a rule is
mapped to itself (this part needs no condition on the rules). -/
theorem idTranslator_inverse (uids gids : List (Nat × Nat)) (hu : OneToOne uids)
    (hg : OneToOne gids) :
    (∀ r ∈ uids,
        (IDTranslator.build uids gids).getClientUid
            ((IDTranslator.build uids gids).getServerUid r.2) = r.2
        ∧ (IDTranslator.build uids gids).getServerUid
            ((IDTranslator.build uids gids).getClientUid r.1) = r.1)
      ∧ (∀ r ∈ gids,
        (IDTranslator.build uids gids).getClientGid
            ((IDTranslator.build uids gids).getServerGid r.2) = r.2
        ∧ (IDTranslator.build uids gids).getServerGid
            ((IDTranslator.build uids gids).getClientGid r.1) = r.1)
      ∧ (∀ i, (∀ r ∈ uids, r.2 ≠ i) → (IDTranslator.build uids gids).getServerUid i = i)
      ∧ (∀ i, (∀ r ∈ uids, r.1 ≠ i) → (IDTranslator.build uids gids).getClientUid i = i)
      ∧ (∀ i, (∀ r ∈ gids, r.2 ≠ i) → (IDTranslator.build uids gids).getServerGid i = i)
      ∧ (∀ i, (∀ r ∈ gids, r.1 ≠ i) → (IDTranslator.build uids gids).getClientGid i = i) := by
  obtain ⟨u1, u2, u3⟩ := fold_rules_spec uids hu
  obtain ⟨g1, g2, g3⟩ := fold_rules_spec gids hg
  have hum := build_user_maps uids gids
  have hgm := build_group_maps uids gids
  have hu1 : (IDTranslator.build uids gids).userClientToServer = _ := congrArg Prod.fst hum
  have hu2 : (IDTranslator.build uids gids).userServerToClient = _ := congrArg Prod.snd hum
  have hg1 : (IDTranslator.build uids gids).groupClientToServer = _ := congrArg Prod.fst hgm
  have hg2 : (IDTranslator.build uids gids).groupServerToClient = _ := congrArg Prod.snd hgm
  simp only at hu1 hu2 hg1 hg2
  refine ⟨?_, ?_, ?_, ?_, ?_, ?_⟩
  · intro r hr
    simp only [IDTranslator.getClientUid, IDTranslator.getServerUid, hu1, hu2, (u1 r hr).1,
      (u1 r hr).2, and_self]
  · intro r hr
    simp only [IDTranslator.getClientGid, IDTranslator.getServerGid, hg1, hg2, (g1 r hr).1,
      (g1 r hr).2, and_self]
  · intro i hi
    simp only [IDTranslator.getServerUid, hu1, u2 i hi]
  · intro i hi
    simp only [IDTranslator.getClientUid, hu2, u3 i hi]
  · intro i hi
    simp only [IDTranslator.getServerGid, hg1, g2 i hi]
  · intro i hi
    simp only [IDTranslator.getClientGid, hg2, g3 i hi]

theorem idTranslator_inverse_witness :
    (∀ r ∈ [(1000, 500), (1001, 501)],
        (IDTranslator.build [(1000, 500), (1001, 501)] [(100, 50)]).getClientUid
            ((IDTranslator.build [(1000, 500), (1001, 501)] [(100, 50)]).getServerUid r.2) = r.2
        ∧ (IDTranslator.build [(1000, 500), (1001, 501)] [(100, 50)]).getServerUid
            ((IDTranslator.build [(1000, 500), (1001, 501)] [(100, 50)]).getClientUid r.1) = r.1)
      ∧ (∀ r ∈ [(100, 50)],
        (IDTranslator.build [(1000, 500), (1001, 501)] [(100, 50)]).getClientGid
            ((IDTranslator.build [(1000, 500), (1001, 501)] [(100, 50)]).getServerGid r.2) = r.2
        ∧ (IDTranslator.build [(1000, 500), (1001, 501)] [(100, 50)]).getServerGid
            ((IDTranslator.build [(1000, 500), (1001, 501)] [(100, 50)]).getClientGid r.1) = r.1)
      ∧ (∀ i, (∀ r ∈ [(1000, 500), (1001, 501)], r.2 ≠ i) →
          (IDTranslator.build [(1000, 500), (1001, 501)] [(100, 50)]).getServerUid i = i)
      ∧ (∀ i, (∀ r ∈ [(1000, 500), (1001, 501)], r.1 ≠ i) →
          (IDTranslator.build [(1000, 500), (1001, 501)] [(100, 50)]).getClientUid i = i)
      ∧ (∀ i, (∀ r ∈ [(100, 50)], r.2 ≠ i) →
          (IDTranslator.build [(1000, 500), (1001, 501)] [(100, 50)]).getServerGid i = i)
      ∧ (∀ i, (∀ r ∈ [(100, 50)], r.1 ≠ i) →
          (IDTranslator.build [(1000, 500), (1001, 501)] [(100, 50)]).getClientGid i = i) :=
  idTranslator_inverse [(1000, 500), (1001, 501)] [(100, 50)] (by decide) (by decide)

/-! ## Path policy -/

theorem strFind_isSome_iff (s pat : Str) : strFind s pat ≠ none ↔ pat <:+: s := by
  induction s with
  | nil =>
    simp only [strFind, List.infix_nil]
    by_cases h : pat = [] <;> simp [h]
  | cons c cs ih =>
    rw [List.infix_cons_iff]
    simp only [strFind]
    by_cases h : pat.isPrefixOf (c :: cs) = true
    · simp [h, List.isPrefixOf_iff_prefix.1 h]
    · have h2 : ¬ pat <+: c :: cs := fun hp => h (List.isPrefixOf_iff_prefix.2 hp)
      simp only [h, if_false, h2, false_or, ← ih]
      cases strFind cs pat <;> simp

theorem anyGlob_iff (fnmatch : Str → Str → Int) (globs : List Str) (path : Str) :
    anyGlob fnmatch globs path = true ↔ ∃ g ∈ globs, fnmatch g path = 0 := by
  induction globs with
  | nil => simp [anyGlob]
  | cons g gs ih =>
    simp only [anyGlob]
    by_cases h : fnmatch g path = 0
    · simp [h]
    · simp [h, ih]

/-- Claim C19: `isValidPath(p)` is true exactly when `p` does not contain the
substring `/.fextmp` and either some include glob matches `p` or no exclude
glob matches `p`; so the sentinel rejects a path that an include glob matches,
and an include match overrides an exclude match. -/
theorem isValidPath_iff (fnmatch : Str → Str → Int) (includes excludes : List Str) (p : Str) :
    (WatchPoint.isValidPath fnmatch includes excludes p = true
        ↔ ¬ (bytes "/.fextmp" <:+: p)
          ∧ ((∃ g ∈ includes, fnmatch g p = 0) ∨ ∀ g ∈ excludes, fnmatch g p ≠ 0))
      ∧ (bytes "/.fextmp" <:+: p → (∃ g ∈ includes, fnmatch g p = 0) →
          WatchPoint.isValidPath fnmatch includes excludes p = false)
      ∧ (¬ (bytes "/.fextmp" <:+: p) → (∃ g ∈ includes, fnmatch g p = 0) →
          (∃ g ∈ excludes, fnmatch g p = 0) →
          WatchPoint.isValidPath fnmatch includes excludes p = true) := by
  have key : WatchPoint.isValidPath fnmatch includes excludes p = true
        ↔ ¬ (bytes "/.fextmp" <:+: p)
          ∧ ((∃ g ∈ includes, fnmatch g p = 0) ∨ ∀ g ∈ excludes, fnmatch g p ≠ 0) := by
    unfold WatchPoint.isValidPath
    by_cases h1 : strFind p (bytes "/.fextmp") ≠ none
    · have := (strFind_isSome_iff p _).1 h1
      simp [h1, this]
    · have h1i : ¬ (bytes "/.fextmp" <:+: p) := fun h => h1 ((strFind_isSome_iff p _).2 h)
      rw [if_neg h1]
      by_cases h2 : anyGlob fnmatch includes p = true
      · have := (anyGlob_iff fnmatch includes p).1 h2
        simp [h2, h1i, this]
      · have h2n : ¬ ∃ g ∈ includes, fnmatch g p = 0 :=
          fun h => h2 ((anyGlob_iff fnmatch includes p).2 h)
        rw [if_neg h2]
        by_cases h3 : anyGlob fnmatch excludes p = true
        · obtain ⟨g, hg, hm⟩ := (anyGlob_iff fnmatch excludes p).1 h3
          simp only [h3, if_true, Bool.false_eq_true, false_iff, not_and, not_or, not_forall]
          intro _
          exact ⟨h2n, g, hg, fun hne => hne hm⟩
        · have h3n : ∀ g ∈ excludes, fnmatch g p ≠ 0 :=
            fun g hg hm => h3 ((anyGlob_iff fnmatch excludes p).2 ⟨g, hg, hm⟩)
          simp only [h3, Bool.false_eq_true, if_false, true_iff]
          exact ⟨h1i, Or.inr h3n⟩
  refine ⟨key, ?_, ?_⟩
  · intro hs _
    cases hv : WatchPoint.isValidPath fnmatch includes excludes p with
    | false => rfl
    | true => exact absurd hs (key.1 hv).1
  · intro hs hi _
    exact key.2 ⟨hs, Or.inl hi⟩

/-! ## Incremental synchronisation -/

/-- Claim C12, failing input.  The send-log holds `/a` with action `created`
and the write-log holds the newer record of `/a` with action `newaccess`.
After `undoSync` the send-log is empty and the write-log holds `/a` with the
write-side record unchanged, action `newaccess`: `ModLog::insert(begin, end)`
leaves a key that exists alone, so the content action `created` of the
send-side record is lost.  Likewise a send-side `created` and a write-side
`changed` leave `changed`. -/
theorem undoSync_drops_send_side_action :
    undoSync [(Path.root (bytes "/a"), State.mk (List.replicate 16 1) 0 0 0o100600 9 9 4 State.newaccess)]
        [(Path.root (bytes "/a"), State.mk (List.replicate 16 1) 0 0 0o100644 8 8 4 State.created)]
      = some ([(Path.root (bytes "/a"),
          State.mk (List.replicate 16 1) 0 0 0o100600 9 9 4 State.newaccess)], [], true)
    ∧ undoSync [(Path.root (bytes "/a"), State.mk (List.replicate 16 2) 0 0 0o100644 9 9 5 State.changed)]
        [(Path.root (bytes "/a"), State.mk (List.replicate 16 1) 0 0 0o100644 8 8 4 State.created)]
      = some ([(Path.root (bytes "/a"),
          State.mk (List.replicate 16 2) 0 0 0o100644 9 9 5 State.changed)], [], true) := by
  constructor <;> rfl

/-- Claim C15: `findInLog` looks into the send-log first and then into the
write-log.  When it finds for `K` a record with action `created` or
`changed`, `checkBackup` backs up the local file and accepts the remote record
unchanged if the remote action is `removed`; otherwise, if the remote md4
differs from the logged md4, it sends a `Backup` request for `K` and rejects
the record; otherwise it accepts the record with the action rewritten to
`newaccess`.  When neither log holds `K` the record is accepted unchanged and
nothing is done. -/
theorem checkBackup_created_changed (sendLog writeLog : ModLog) (K : Str) (st log_state : State)
    (hfind : findInLog sendLog writeLog K = some log_state)
    (hact : log_state.action = State.created ∨ log_state.action = State.changed) :
    checkBackup sendLog writeLog K st
        = (if st.action = State.removed then (true, st, [SyncOp.backup K])
           else if log_state.md4 ≠ st.md4 then (false, st, [SyncOp.sendBackup K])
           else (true, { st with action := State.newaccess }, []))
      ∧ (∀ (sl wl : ModLog) (k : Str) (s : State), findInLog sl wl k = none →
          checkBackup sl wl k s = (true, s, []))
      ∧ (∀ (sl wl : ModLog) (k : Str) (i : Nat), ModLog.find sl k = some i →
          findInLog sl wl k = (sl.get? i).map (fun e => e.2))
      ∧ (∀ (sl wl : ModLog) (k : Str), ModLog.find sl k = none →
          findInLog sl wl k = (ModLog.find wl k).bind (fun i => (wl.get? i).map (fun e => e.2))) := by
  refine ⟨?_, ?_, ?_, ?_⟩
  · have h1 : ¬ log_state.action = State.newaccess := by
      rcases hact with h | h <;> rw [h] <;> decide
    have h2 : ¬ (log_state.action = State.removed ∨ log_state.action = State.rmdired) := by
      rcases hact with h | h <;> rw [h] <;> decide
    simp only [checkBackup, hfind, h1, h2, hact, if_true, if_false]
  · intro sl wl k s h
    simp only [checkBackup, h]
  · intro sl wl k i h
    simp only [findInLog, h]
  · intro sl wl k h
    simp only [findInLog, h]
    cases ModLog.find wl k <;> rfl

theorem checkBackup_created_changed_witness :
    checkBackup []
        [(Path.root (bytes "/a"), State.mk (List.replicate 16 1) 0 0 0o100644 8 8 4 State.created)]
        (bytes "/a") (State.mk (List.replicate 16 2) 0 0 0o100644 9 9 5 State.changed)
        = (if (State.mk (List.replicate 16 2) 0 0 0o100644 9 9 5 State.changed).action
              = State.removed then
            (true, State.mk (List.replicate 16 2) 0 0 0o100644 9 9 5 State.changed,
              [SyncOp.backup (bytes "/a")])
           else if (State.mk (List.replicate 16 1) 0 0 0o100644 8 8 4 State.created).md4
              ≠ (State.mk (List.replicate 16 2) 0 0 0o100644 9 9 5 State.changed).md4 then
            (false, State.mk (List.replicate 16 2) 0 0 0o100644 9 9 5 State.changed,
              [SyncOp.sendBackup (bytes "/a")])
           else (true, { State.mk (List.replicate 16 2) 0 0 0o100644 9 9 5 State.changed with
              action := State.newaccess }, []))
      ∧ (∀ (sl wl : ModLog) (k : Str) (s : State), findInLog sl wl k = none →
          checkBackup sl wl k s = (true, s, []))
      ∧ (∀ (sl wl : ModLog) (k : Str) (i : Nat), ModLog.find sl k = some i →
          findInLog sl wl k = (sl.get? i).map (fun e => e.2))
      ∧ (∀ (sl wl : ModLog) (k : Str), ModLog.find sl k = none →
          findInLog sl wl k = (ModLog.find wl k).bind (fun i => (wl.get? i).map (fun e => e.2))) :=
  checkBackup_created_changed []
    [(Path.root (bytes "/a"), State.mk (List.replicate 16 1) 0 0 0o100644 8 8 4 State.created)]
    (bytes "/a") (State.mk (List.replicate 16 2) 0 0 0o100644 9 9 5 State.changed)
    (State.mk (List.replicate 16 1) 0 0 0o100644 8 8 4 State.created) (by rfl) (by decide)

/-- What `doSync` does with a record that `checkBackup` has accepted and that
the server side refuses because the path is not writeable. -/
theorem doSyncRecord_refused (readonly : Bool) (buf : Stat) (junk : State)
    (sendLog writeLog : ModLog) (K : Str) (st : State)
    (hcb : (checkBackup sendLog writeLog K st).1 = true)
    (hw : (WatchPoint.isWriteable readonly buf junk).1 = false) :
    doSyncRecord false readonly buf junk sendLog writeLog K st
      = some ((checkBackup sendLog writeLog K st).2.1,
          (checkBackup sendLog writeLog K st).2.2 ++
            [SyncOp.addToLog K
              { (WatchPoint.isWriteable readonly buf junk).2 with
                action :=
                  if (checkBackup sendLog writeLog K st).2.1.action = State.removed then
                    (if S_ISLNK buf.st_mode then State.newlink else State.created)
                  else if (checkBackup sendLog writeLog K st).2.1.action = State.newlink
                      ∨ (checkBackup sendLog writeLog K st).2.1.action = State.created then
                    State.removed
                  else if (checkBackup sendLog writeLog K st).2.1.action = State.mkdired then
                    State.rmdired
                  else if (checkBackup sendLog writeLog K st).2.1.action = State.rmdired then
                    State.mkdired
                  else (checkBackup sendLog writeLog K st).2.1.action }]) := by
  simp only [doSyncRecord, hcb, hw, not_true_eq_false, if_false, Bool.false_eq_true,
    not_false_eq_true, and_self, if_true]
  rfl
/-- What an accepting `checkBackup` leaves behind: the only operation it can
have done is the backup of the local file, and the action of the record is the
received one unless the own log holds the key as `created` or `changed` with
the same md4, in which case it is `newaccess`. -/
theorem checkBackup_accepted (sendLog writeLog : ModLog) (K : Str) (st : State)
    (hcb : (checkBackup sendLog writeLog K st).1 = true) :
    ((checkBackup sendLog writeLog K st).2.2 = []
        ∨ (checkBackup sendLog writeLog K st).2.2 = [SyncOp.backup K])
      ∧ ((checkBackup sendLog writeLog K st).2.1.action = st.action
        ∨ (st.action ≠ State.removed
          ∧ (checkBackup sendLog writeLog K st).2.1.action = State.newaccess
          ∧ ∃ ls, findInLog sendLog writeLog K = some ls
              ∧ (ls.action = State.created ∨ ls.action = State.changed)
              ∧ ls.md4 = st.md4)) := by
  unfold checkBackup at hcb ⊢
  cases hf : findInLog sendLog writeLog K with
  | none => exact ⟨Or.inl rfl, Or.inl rfl⟩
  | some ls =>
    rw [hf] at hcb
    simp only at hcb ⊢
    split_ifs at hcb ⊢ with h1 h2 h3 h4 h5 h6
    · exact ⟨Or.inl rfl, Or.inl rfl⟩
    · exact ⟨Or.inr rfl, Or.inl rfl⟩
    · exact ⟨Or.inl rfl, Or.inr ⟨h4, rfl, ls, rfl, h3, not_not.1 h5⟩⟩
    · exact ⟨Or.inl rfl, Or.inl rfl⟩

/-- What a rejecting `checkBackup` has done: nothing, or it has sent a
`Backup` request for the key. -/
theorem checkBackup_rejected (sendLog writeLog : ModLog) (K : Str) (st : State)
    (hcb : (checkBackup sendLog writeLog K st).1 = false) :
    (checkBackup sendLog writeLog K st).2.2 = []
      ∨ (checkBackup sendLog writeLog K st).2.2 = [SyncOp.sendBackup K] := by
  unfold checkBackup at hcb ⊢
  cases hf : findInLog sendLog writeLog K with
  | none => rw [hf] at hcb; cases hcb
  | some ls =>
    rw [hf] at hcb
    simp only at hcb ⊢
    split_ifs at hcb ⊢ <;> first | exact Or.inl rfl | exact Or.inr rfl

/-- Claim C13, counterexample.  The server's watchpoint is read-only, the
server's own write-log holds `/a` as `created` with md4 `m`, and the received
record for `/a` is `created` with the same md4.  `checkBackup` accepts the
record and rewrites its action to `newaccess`; the refusal then passes that
action on unchanged, so the record added to the own log has action
`newaccess`, not `removed`. -/
theorem doSync_refusal_inverts_counterexample :
    doSyncRecord false true (Stat.mk 0o100644 1000 1000 8 8 4) (State.mk [] 0 0 0 0 0 0 0) []
        [(Path.root (bytes "/a"), State.mk (List.replicate 16 1) 0 0 0o100644 8 8 4 State.created)]
        (bytes "/a") (State.mk (List.replicate 16 1) 0 0 0o100644 9 9 4 State.created)
      = some (State.mk (List.replicate 16 1) 0 0 0o100644 9 9 4 State.newaccess,
          [SyncOp.addToLog (bytes "/a") (State.mk [] 1000 1000 0o100644 8 8 4 State.newaccess)])
    ∧ State.newaccess ≠ State.removed := by
  constructor
  · rfl
  · decide

/-- Claim C13, amended: for a record that `checkBackup` accepts and that the
server side refuses because the path is not writeable, `doSync` does no
remove, mkdir, changeAccess and pushes no Link or Rsync sub-dialog, and it
calls `addToLog` once, for the same key, with the fresh state of the local
file and the inverse of the action that `checkBackup` left in the record:
`created` for `removed` (`newlink` when the local file is a symlink),
`removed` for `created` and `newlink`, `rmdired` for `mkdired`, `mkdired` for
`rmdired`.  The action that `checkBackup` leaves is the received action,
except that it is `newaccess` when the own log holds the key as `created` or
`changed` with the received md4 and the received action is not `removed`. -/
theorem doSync_refusal_inverts (readonly : Bool) (buf : Stat) (junk : State)
    (sendLog writeLog : ModLog) (K : Str) (st : State)
    (hcb : (checkBackup sendLog writeLog K st).1 = true)
    (hw : (WatchPoint.isWriteable readonly buf junk).1 = false) :
    ∃ ops0 a s,
      doSyncRecord false readonly buf junk sendLog writeLog K st
          = some ({ (checkBackup sendLog writeLog K st).2.1 with action := a },
              ops0 ++ [SyncOp.addToLog K s])
        ∧ (ops0 = [] ∨ ops0 = [SyncOp.backup K])
        ∧ (checkBackup sendLog writeLog K st).2.1.action = a
        ∧ (a = st.action
          ∨ (st.action ≠ State.removed ∧ a = State.newaccess
            ∧ ∃ ls, findInLog sendLog writeLog K = some ls
                ∧ (ls.action = State.created ∨ ls.action = State.changed)
                ∧ ls.md4 = st.md4))
        ∧ s = State.mk junk.md4 buf.st_uid buf.st_gid buf.st_mode buf.st_mtime buf.st_ctime
                buf.st_size s.action
        ∧ (a = State.removed →
            s.action = if S_ISLNK buf.st_mode then State.newlink else State.created)
        ∧ (a = State.created → s.action = State.removed)
        ∧ (a = State.newlink → s.action = State.removed)
        ∧ (a = State.mkdired → s.action = State.rmdired)
        ∧ (a = State.rmdired → s.action = State.mkdired) := by
  obtain ⟨hops, hact⟩ := checkBackup_accepted sendLog writeLog K st hcb
  refine ⟨(checkBackup sendLog writeLog K st).2.2, (checkBackup sendLog writeLog K st).2.1.action,
    _, doSyncRecord_refused readonly buf junk sendLog writeLog K st hcb hw, hops, rfl, hact, rfl,
    ?_, ?_, ?_, ?_, ?_⟩
  · intro h
    simp only [h, if_true]
  · intro h
    simp only [h]
    rfl
  · intro h
    simp only [h]
    rfl
  · intro h
    simp only [h]
    rfl
  · intro h
    simp only [h]
    rfl

theorem doSync_refusal_inverts_witness :
    ∃ ops0 a s,
      doSyncRecord false true (Stat.mk 0o100644 1000 1000 8 8 4) (State.mk [] 0 0 0 0 0 0 0) [] []
          (bytes "/a") (State.mk (List.replicate 16 1) 0 0 0o100644 9 9 4 State.created)
          = some ({ (checkBackup [] [] (bytes "/a")
                (State.mk (List.replicate 16 1) 0 0 0o100644 9 9 4 State.created)).2.1 with
                action := a },
              ops0 ++ [SyncOp.addToLog (bytes "/a") s])
        ∧ (ops0 = [] ∨ ops0 = [SyncOp.backup (bytes "/a")])
        ∧ (checkBackup [] [] (bytes "/a")
            (State.mk (List.replicate 16 1) 0 0 0o100644 9 9 4 State.created)).2.1.action = a
        ∧ (a = (State.mk (List.replicate 16 1) 0 0 0o100644 9 9 4 State.created).action
          ∨ ((State.mk (List.replicate 16 1) 0 0 0o100644 9 9 4 State.created).action
              ≠ State.removed ∧ a = State.newaccess
            ∧ ∃ ls, findInLog [] [] (bytes "/a") = some ls
                ∧ (ls.action = State.created ∨ ls.action = State.changed)
                ∧ ls.md4 = (State.mk (List.replicate 16 1) 0 0 0o100644 9 9 4 State.created).md4))
        ∧ s = State.mk (State.mk [] 0 0 0 0 0 0 0).md4 (Stat.mk 0o100644 1000 1000 8 8 4).st_uid
                (Stat.mk 0o100644 1000 1000 8 8 4).st_gid (Stat.mk 0o100644 1000 1000 8 8 4).st_mode
                (Stat.mk 0o100644 1000 1000 8 8 4).st_mtime (Stat.mk 0o100644 1000 1000 8 8 4).st_ctime
                (Stat.mk 0o100644 1000 1000 8 8 4).st_size s.action
        ∧ (a = State.removed →
            s.action = if S_ISLNK (Stat.mk 0o100644 1000 1000 8 8 4).st_mode then State.newlink
              else State.created)
        ∧ (a = State.created → s.action = State.removed)
        ∧ (a = State.newlink → s.action = State.removed)
        ∧ (a = State.mkdired → s.action = State.rmdired)
        ∧ (a = State.rmdired → s.action = State.mkdired) :=
  doSync_refusal_inverts true (Stat.mk 0o100644 1000 1000 8 8 4) (State.mk [] 0 0 0 0 0 0 0) [] []
    (bytes "/a") (State.mk (List.replicate 16 1) 0 0 0o100644 9 9 4 State.created) (by rfl) (by rfl)

/-- Claim C14, counterexample.  The server's watchpoint is read-only, its own
logs are empty and the received record for `/r.txt` has action `changed`.
`doSync` does nothing to the file and calls `addToLog` with a record whose
action is `changed`, not `removed`. -/
theorem doSync_readonly_changed_counterexample :
    doSyncRecord false true (Stat.mk 0o100644 1000 1000 8 8 4) (State.mk [] 0 0 0 0 0 0 0) [] []
        (bytes "/r.txt") (State.mk (List.replicate 16 1) 0 0 0o100644 9 9 5 State.changed)
      = some (State.mk (List.replicate 16 1) 0 0 0o100644 9 9 5 State.changed,
          [SyncOp.addToLog (bytes "/r.txt")
            (State.mk [] 1000 1000 0o100644 8 8 4 State.changed)])
    ∧ State.changed ≠ State.removed := by
  constructor
  · rfl
  · decide

/-- Claim C14, amended: when the server's watchpoint is read-only and `doSync`
processes a received record with action `changed`, it does no remove, mkdir,
changeAccess or backup and pushes no Link or Rsync sub-dialog; every record it
adds to its own log is for the same key and has action `changed`, or
`newaccess` when `checkBackup` rewrote the action; and when the own logs do
not hold the key, it adds exactly one record, the fresh state of the local
file with action `changed`. -/
theorem doSync_readonly_changed (buf : Stat) (junk : State) (sendLog writeLog : ModLog)
    (K : Str) (st : State) (hact : st.action = State.changed) :
    ∃ st1 ops,
      doSyncRecord false true buf junk sendLog writeLog K st = some (st1, ops)
        ∧ (∀ op ∈ ops, op = SyncOp.sendBackup K
            ∨ ∃ s, op = SyncOp.addToLog K s
              ∧ (s.action = State.changed ∨ s.action = State.newaccess))
        ∧ (findInLog sendLog writeLog K = none →
            st1 = st ∧ ops = [SyncOp.addToLog K
              (State.mk junk.md4 buf.st_uid buf.st_gid buf.st_mode buf.st_mtime buf.st_ctime
                buf.st_size State.changed)]) := by
  have hw : (WatchPoint.isWriteable true buf junk).1 = false := rfl
  cases hcb : (checkBackup sendLog writeLog K st).1 with
  | false =>
    refine ⟨(checkBackup sendLog writeLog K st).2.1, (checkBackup sendLog writeLog K st).2.2,
      ?_, ?_, ?_⟩
    · simp only [doSyncRecord, hcb, Bool.false_eq_true, not_false_eq_true, if_true]
    · intro op hop
      rcases checkBackup_rejected sendLog writeLog K st hcb with h | h
      · rw [h] at hop; cases hop
      · rw [h] at hop
        exact Or.inl (List.mem_singleton.1 hop)
    · intro hnone
      simp only [checkBackup, hnone] at hcb
      cases hcb
  | true =>
    obtain ⟨hops, ha⟩ := checkBackup_accepted sendLog writeLog K st hcb
    have hne : ¬ st.action = State.removed := by rw [hact]; decide
    have hops0 : (checkBackup sendLog writeLog K st).2.2 = [] := by
      rcases hops with h | h
      · exact h
      · exfalso
        revert h
        unfold checkBackup
        cases findInLog sendLog writeLog K with
        | none => intro h; cases h
        | some ls =>
          simp only [hne, if_false]
          split_ifs <;> intro h <;> cases h
    have hcases : (checkBackup sendLog writeLog K st).2.1.action = State.changed
        ∨ (checkBackup sendLog writeLog K st).2.1.action = State.newaccess := by
      rcases ha with h | ⟨_, h, _⟩
      · exact Or.inl (h.trans hact)
      · exact Or.inr h
    refine ⟨_, _, doSyncRecord_refused true buf junk sendLog writeLog K st hcb hw, ?_, ?_⟩
    · intro op hop
      rw [hops0, List.nil_append] at hop
      refine Or.inr ⟨_, List.mem_singleton.1 hop, ?_⟩
      rcases hcases with h | h
      · left; simp only [h]; rfl
      · right; simp only [h]; rfl
    · intro hnone
      have hst : (checkBackup sendLog writeLog K st).2.1 = st := by
        simp only [checkBackup, hnone]
      refine ⟨hst, ?_⟩
      rw [hops0, List.nil_append, hst, hact]
      rfl

theorem doSync_readonly_changed_witness :
    ∃ st1 ops,
      doSyncRecord false true (Stat.mk 0o100644 1000 1000 8 8 4) (State.mk [] 0 0 0 0 0 0 0) [] []
          (bytes "/r.txt") (State.mk (List.replicate 16 1) 0 0 0o100644 9 9 5 State.changed)
          = some (st1, ops)
        ∧ (∀ op ∈ ops, op = SyncOp.sendBackup (bytes "/r.txt")
            ∨ ∃ s, op = SyncOp.addToLog (bytes "/r.txt") s
              ∧ (s.action = State.changed ∨ s.action = State.newaccess))
        ∧ (findInLog [] [] (bytes "/r.txt") = none →
            st1 = State.mk (List.replicate 16 1) 0 0 0o100644 9 9 5 State.changed
            ∧ ops = [SyncOp.addToLog (bytes "/r.txt")
              (State.mk (State.mk [] 0 0 0 0 0 0 0).md4 (Stat.mk 0o100644 1000 1000 8 8 4).st_uid
                (Stat.mk 0o100644 1000 1000 8 8 4).st_gid (Stat.mk 0o100644 1000 1000 8 8 4).st_mode
                (Stat.mk 0o100644 1000 1000 8 8 4).st_mtime
                (Stat.mk 0o100644 1000 1000 8 8 4).st_ctime
                (Stat.mk 0o100644 1000 1000 8 8 4).st_size State.changed)]) :=
  doSync_readonly_changed (Stat.mk 0o100644 1000 1000 8 8 4) (State.mk [] 0 0 0 0 0 0 0) [] []
    (bytes "/r.txt") (State.mk (List.replicate 16 1) 0 0 0o100644 9 9 5 State.changed) (by rfl)

/-! ## State database -/

/-- Claim C16, counterexample.  The database holds the regular file `/w/f`
with mtime 10 and size 4; `lstat` reports the same mode, owner and size and
the smaller mtime 5.  `renewState` returns 0, computes no md4 and leaves the
entry as it is: the stored mtime stays 10 and the action is not set to
`changed`. -/
theorem renewState_smaller_mtime_counterexample :
    StateLog.renewState
        (FS.mk (fun _ => some (Stat.mk 0o100644 1000 1000 5 5 4)) (fun _ => List.replicate 16 7)
          (fun _ => none))
        [(Path.root (bytes "/w/f"), State.mk (List.replicate 16 1) 1000 1000 0o100644 10 5 4 0)]
        (bytes "/w/f") 0
      = some ([(Path.root (bytes "/w/f"),
          State.mk (List.replicate 16 1) 1000 1000 0o100644 10 5 4 0)], 0, 0) := by
  rfl

/-- Claim C16, amended: for a database entry and a fresh `lstat` result of an
existing non-directory at the same path, if the fresh mtime is larger than the
stored mtime or the fresh size differs from the stored size, `renewState`
recomputes the md4, returns and stores the action `changed` (`newlink` for a
symlink) and stores the fresh mtime and size, together with the fresh mode,
owner and group (and the fresh ctime when one of these three differed).  If
the fresh mtime is not larger and size, mode, owner and group are the stored
ones, it returns 0 and leaves the database as it is. -/
theorem renewState_detects_change (fs : FS) (db : ModLog) (key : Str) (i : Nat)
    (e : Path × State) (buf : Stat)
    (hget : db.get? i = some e) (hkey : e.1.str = key) (hstat : fs.lstat key = some buf)
    (hdir : S_ISDIR buf.st_mode = false) :
    ((buf.st_mtime > e.2.mtime ∨ buf.st_size ≠ e.2.size) →
      StateLog.renewState fs db key i
        = some (db.set i (e.1,
            State.mk (fs.md4 key) buf.st_uid buf.st_gid buf.st_mode buf.st_mtime
              (if buf.st_mode ≠ e.2.mode ∨ buf.st_gid ≠ e.2.gid ∨ buf.st_uid ≠ e.2.uid
                then buf.st_ctime else e.2.ctime)
              buf.st_size (if S_ISLNK buf.st_mode then State.newlink else State.changed)),
            i, if S_ISLNK buf.st_mode then State.newlink else State.changed))
    ∧ (¬ (buf.st_mtime > e.2.mtime) → buf.st_size = e.2.size → buf.st_mode = e.2.mode →
        buf.st_gid = e.2.gid → buf.st_uid = e.2.uid →
      StateLog.renewState fs db key i = some (db, i, 0)) := by
  have hne : (if S_ISLNK buf.st_mode then State.newlink else State.changed) ≠ 0 := by
    split_ifs <;> decide
  constructor
  · intro hmod
    by_cases hacc : buf.st_mode ≠ e.2.mode ∨ buf.st_gid ≠ e.2.gid ∨ buf.st_uid ≠ e.2.uid
    · simp only [StateLog.renewState, hget, hkey, hstat, hacc, hmod, hdir, hne, StateLog.store,
        Option.isNone_some, decide_True, decide_False, if_true, if_false, not_true_eq_false,
        Bool.false_eq_true, not_false_eq_true, and_self, ne_eq]
    · have h1 : buf.st_mode = e.2.mode := by
        by_contra h; exact hacc (Or.inl h)
      have h2 : buf.st_gid = e.2.gid := by
        by_contra h; exact hacc (Or.inr (Or.inl h))
      have h3 : buf.st_uid = e.2.uid := by
        by_contra h; exact hacc (Or.inr (Or.inr h))
      have hdir2 : S_ISDIR e.2.mode = false := h1 ▸ hdir
      have hne2 : (if S_ISLNK e.2.mode then State.newlink else State.changed) ≠ 0 := h1 ▸ hne
      simp only [StateLog.renewState, hget, hkey, hstat, hacc, hmod, hdir2, hne2, StateLog.store,
        Option.isNone_some, decide_True, decide_False, if_true, if_false, not_true_eq_false,
        Bool.false_eq_true, not_false_eq_true, and_self, ne_eq]
      simp only [h1, h2, h3]
  · intro hm hs h1 h2 h3
    have hacc : ¬ (buf.st_mode ≠ e.2.mode ∨ buf.st_gid ≠ e.2.gid ∨ buf.st_uid ≠ e.2.uid) := by
      rw [h1, h2, h3]; simp
    have hmod : ¬ (buf.st_mtime > e.2.mtime ∨ buf.st_size ≠ e.2.size) := by
      rw [hs]; simp [hm]
    simp only [StateLog.renewState, hget, hkey, hstat, hacc, hmod, StateLog.store,
      Option.isNone_some, decide_True, decide_False, if_true, if_false, not_true_eq_false,
      Bool.false_eq_true, not_false_eq_true, and_self, ne_eq, false_and]
    congr 2
    exact List.ext_get? (fun n => by
      by_cases hn : n = i
      · rw [hn, hget, List.get?_eq_getElem?, List.getElem?_set_self
          ((List.get?_eq_some.1 hget).1)]
      · rw [List.get?_eq_getElem?, List.getElem?_set_ne (Ne.symm hn), ← List.get?_eq_getElem?])

theorem renewState_detects_change_witness :
    (((Stat.mk 0o100644 1000 1000 9 9 6).st_mtime
          > (Path.root (bytes "/w/f"),
              State.mk (List.replicate 16 1) 1000 1000 0o100644 5 5 4 0).2.mtime
        ∨ (Stat.mk 0o100644 1000 1000 9 9 6).st_size
          ≠ (Path.root (bytes "/w/f"),
              State.mk (List.replicate 16 1) 1000 1000 0o100644 5 5 4 0).2.size) →
      StateLog.renewState
          (FS.mk (fun _ => some (Stat.mk 0o100644 1000 1000 9 9 6)) (fun _ => List.replicate 16 7)
            (fun _ => none))
          [(Path.root (bytes "/w/f"), State.mk (List.replicate 16 1) 1000 1000 0o100644 5 5 4 0)]
          (bytes "/w/f") 0
        = some ([(Path.root (bytes "/w/f"),
              State.mk (List.replicate 16 1) 1000 1000 0o100644 5 5 4 0)].set 0
            ((Path.root (bytes "/w/f"),
                State.mk (List.replicate 16 1) 1000 1000 0o100644 5 5 4 0).1,
            State.mk ((FS.mk (fun _ => some (Stat.mk 0o100644 1000 1000 9 9 6))
                (fun _ => List.replicate 16 7) (fun _ => none)).md4 (bytes "/w/f"))
              (Stat.mk 0o100644 1000 1000 9 9 6).st_uid (Stat.mk 0o100644 1000 1000 9 9 6).st_gid
              (Stat.mk 0o100644 1000 1000 9 9 6).st_mode (Stat.mk 0o100644 1000 1000 9 9 6).st_mtime
              (if (Stat.mk 0o100644 1000 1000 9 9 6).st_mode
                    ≠ (Path.root (bytes "/w/f"),
                        State.mk (List.replicate 16 1) 1000 1000 0o100644 5 5 4 0).2.mode
                  ∨ (Stat.mk 0o100644 1000 1000 9 9 6).st_gid
                    ≠ (Path.root (bytes "/w/f"),
                        State.mk (List.replicate 16 1) 1000 1000 0o100644 5 5 4 0).2.gid
                  ∨ (Stat.mk 0o100644 1000 1000 9 9 6).st_uid
                    ≠ (Path.root (bytes "/w/f"),
                        State.mk (List.replicate 16 1) 1000 1000 0o100644 5 5 4 0).2.uid
                then (Stat.mk 0o100644 1000 1000 9 9 6).st_ctime
                else (Path.root (bytes "/w/f"),
                        State.mk (List.replicate 16 1) 1000 1000 0o100644 5 5 4 0).2.ctime)
              (Stat.mk 0o100644 1000 1000 9 9 6).st_size
              (if S_ISLNK (Stat.mk 0o100644 1000 1000 9 9 6).st_mode then State.newlink
                else State.changed)),
            0, if S_ISLNK (Stat.mk 0o100644 1000 1000 9 9 6).st_mode then State.newlink
                else State.changed))
    ∧ (¬ ((Stat.mk 0o100644 1000 1000 9 9 6).st_mtime
          > (Path.root (bytes "/w/f"),
              State.mk (List.replicate 16 1) 1000 1000 0o100644 5 5 4 0).2.mtime) →
        (Stat.mk 0o100644 1000 1000 9 9 6).st_size
          = (Path.root (bytes "/w/f"),
              State.mk (List.replicate 16 1) 1000 1000 0o100644 5 5 4 0).2.size →
        (Stat.mk 0o100644 1000 1000 9 9 6).st_mode
          = (Path.root (bytes "/w/f"),
              State.mk (List.replicate 16 1) 1000 1000 0o100644 5 5 4 0).2.mode →
        (Stat.mk 0o100644 1000 1000 9 9 6).st_gid
          = (Path.root (bytes "/w/f"),
              State.mk (List.replicate 16 1) 1000 1000 0o100644 5 5 4 0).2.gid →
        (Stat.mk 0o100644 1000 1000 9 9 6).st_uid
          = (Path.root (bytes "/w/f"),
              State.mk (List.replicate 16 1) 1000 1000 0o100644 5 5 4 0).2.uid →
      StateLog.renewState
          (FS.mk (fun _ => some (Stat.mk 0o100644 1000 1000 9 9 6)) (fun _ => List.replicate 16 7)
            (fun _ => none))
          [(Path.root (bytes "/w/f"), State.mk (List.replicate 16 1) 1000 1000 0o100644 5 5 4 0)]
          (bytes "/w/f") 0
        = some ([(Path.root (bytes "/w/f"),
            State.mk (List.replicate 16 1) 1000 1000 0o100644 5 5 4 0)], 0, 0)) :=
  renewState_detects_change
    (FS.mk (fun _ => some (Stat.mk 0o100644 1000 1000 9 9 6)) (fun _ => List.replicate 16 7)
      (fun _ => none))
    [(Path.root (bytes "/w/f"), State.mk (List.replicate 16 1) 1000 1000 0o100644 5 5 4 0)]
    (bytes "/w/f") 0
    (Path.root (bytes "/w/f"), State.mk (List.replicate 16 1) 1000 1000 0o100644 5 5 4 0)
    (Stat.mk 0o100644 1000 1000 9 9 6) (by rfl) (by rfl) (by rfl) (by rfl)
set_option maxRecDepth 100000 in
/-- Claim C17, failing input.  The database holds `/w`, `/w/Z`, `/w/a` and
`/w/a.txt`, each in step with the file system except that the file `/w/a` has
been removed; `readdir` returns `a.txt` before `Z`.  The first rescan reports
`/w/a` as removed and erases with it the entry `/w/a.txt`, which it had visited
before.  The second rescan of the same file system reports `/w/a.txt` as
created and adds it to the database again. -/
theorem changeDB_second_run_emits_event :
    ModLog.insertRange []
        [(Path.root (bytes "/w"), rescanDir), (Path.root (bytes "/w/Z"), rescanFile),
         (Path.root (bytes "/w/a"), rescanFile), (Path.root (bytes "/w/a.txt"), rescanFile)]
      = some [(Path.root (bytes "/w"), rescanDir),
          (Path.child (Path.root (bytes "/w")) (bytes "/Z"), rescanFile),
          (Path.child (Path.root (bytes "/w")) (bytes "/a"), rescanFile),
          (Path.child (Path.root (bytes "/w")) (bytes "/a.txt"), rescanFile)]
    ∧ StateLog.changeDB rescanFS (fun _ => true) (Stat.mk 0 0 0 0 0 0) 20
        [(Path.root (bytes "/w"), rescanDir),
          (Path.child (Path.root (bytes "/w")) (bytes "/Z"), rescanFile),
          (Path.child (Path.root (bytes "/w")) (bytes "/a"), rescanFile),
          (Path.child (Path.root (bytes "/w")) (bytes "/a.txt"), rescanFile)]
        (bytes "/w") none
      = some ([(Path.root (bytes "/w"), rescanDir),
            (Path.child (Path.root (bytes "/w")) (bytes "/Z"), rescanFile)],
          [(bytes "/w/a", State.mk (List.replicate 16 7) 1000 1000 0o100644 5 5 4 State.removed)])
    ∧ StateLog.changeDB rescanFS (fun _ => true) (Stat.mk 0 0 0 0 0 0) 20
        [(Path.root (bytes "/w"), rescanDir),
          (Path.child (Path.root (bytes "/w")) (bytes "/Z"), rescanFile)]
        (bytes "/w") none
      = some ([(Path.root (bytes "/w"), rescanDir),
            (Path.child (Path.root (bytes "/w")) (bytes "/Z"), rescanFile),
            (Path.child (Path.root (bytes "/w")) (bytes "/a.txt"),
              State.mk (List.replicate 16 7) 1000 1000 0o100644 5 5 4 State.created)],
          [(bytes "/w/a.txt",
            State.mk (List.replicate 16 7) 1000 1000 0o100644 5 5 4 State.created)]) := by
  refine ⟨?_, ?_, ?_⟩
  · rfl
  · decide!
  · decide!

/-! ## Backup names -/

/-- Claim C20, failing input.  For the path `/w/my.dir/file`, whose file name
has no `.`, and a database without any backup, `backup` takes the `.` of the
directory name for the start of the extension and names the copy
`/w/my-1.dir/file`, not `/w/my.dir/file-1`.  For the path `/w/f` and a
database that also holds `/w/f-7x`, which is not of the form `/w/f-<digits>`,
the copy is named `/w/f-8`, not `/w/f-1`; and when `/w/f-7x` has the md4 of
`/w/f` no backup is made.  For `/w/n.txt` with the earlier backups
`/w/n-1.txt` and `/w/n-2.txt` of other content the copy is named
`/w/n-3.txt`. -/
theorem backup_name_wrong_extension :
    StateLog.backupName
        [(Path.root (bytes "/w/my.dir/file"),
          State.mk (List.replicate 16 1) 0 0 0o100644 5 5 4 0)]
        (bytes "/w/my.dir/file") = some (some (bytes "/w/my-1.dir/file"))
    ∧ bytes "/w/my-1.dir/file" ≠ bytes "/w/my.dir/file-1"
    ∧ StateLog.backupName
        [(Path.root (bytes "/w/f"), State.mk (List.replicate 16 1) 0 0 0o100644 5 5 4 0),
         (Path.root (bytes "/w/f-7x"), State.mk (List.replicate 16 2) 0 0 0o100644 5 5 4 0)]
        (bytes "/w/f") = some (some (bytes "/w/f-8"))
    ∧ StateLog.backupName
        [(Path.root (bytes "/w/f"), State.mk (List.replicate 16 1) 0 0 0o100644 5 5 4 0),
         (Path.root (bytes "/w/f-7x"), State.mk (List.replicate 16 1) 0 0 0o100644 5 5 4 0)]
        (bytes "/w/f") = some none
    ∧ StateLog.backupName
        [(Path.root (bytes "/w/n-1.txt"), State.mk (List.replicate 16 2) 0 0 0o100644 5 5 4 0),
         (Path.root (bytes "/w/n-2.txt"), State.mk (List.replicate 16 3) 0 0 0o100644 5 5 4 0),
         (Path.root (bytes "/w/n.txt"), State.mk (List.replicate 16 1) 0 0 0o100644 5 5 4 0)]
        (bytes "/w/n.txt") = some (some (bytes "/w/n-3.txt")) := by
  refine ⟨?_, ?_, ?_, ?_, ?_⟩ <;> decide!

/-! ## Log transfer -/

theorem writeAll_append (w : Writer) (a b : List (Str × List Nat)) :
    Serializer.writeAll w (a ++ b) = Serializer.writeAll (Serializer.writeAll w a) b := by
  induction a generalizing w with
  | nil => rfl
  | cons r rs ih =>
    obtain ⟨k, c⟩ := r
    simp only [List.cons_append, Serializer.writeAll]
    exact ih _

theorem mapInsert_at_end (m : ModLog) (c : Path) (s : State)
    (h : ∀ e ∈ m, strLt e.1.str c.str = true) :
    ModLog.mapInsert m c s = (m ++ [(c, s)], m.length, true) := by
  induction m with
  | nil => rfl
  | cons e es ih =>
    have he : strLt e.1.str c.str = true := h e (by simp)
    have ih2 := ih (fun x hx => h x (by simp [hx]))
    simp only [ModLog.mapInsert, he, if_true, ih2, List.cons_append, List.length_cons]

theorem insert_at_end (m : ModLog) (key : Str) (st : State)
    (hn : ∀ e ∈ m, NulFree e.1.str) (hlt : ∀ e ∈ m, strLt e.1.str key = true) :
    ∃ c : Path, c.str = key ∧ ModLog.insert m key st = some (m ++ [(c, st)], m.length, true) := by
  obtain ⟨c, hc, hins⟩ := insert_eq_mapInsert m key st hn
  refine ⟨c, hc, ?_⟩
  rw [hins, mapInsert_at_end m c st (by rw [hc]; exact hlt)]

theorem length_repr (s : State) : (State.repr s).length = sizeofState := by
  simp [State.repr, encodeSignedLE, length_encodeLE, sizeofState]

/-- Reading a block that a writer has produced from the records `seg`: every
record is inserted at the end of the log. -/
theorem receiveLogLoop_written (isValidPath : Str → Bool) (wpPath : Str) (tr : State → State)
    (junk : List Nat) (hj : junk.length = sizeofState) (seg : List (Str × State))
    (w : Writer) (fuel : Nat) (t : List Nat) (log : ModLog)
    (hn : ∀ r ∈ seg, NulFree r.1) (hl : ∀ r ∈ seg, r.1.length < 2 ^ 64)
    (hr : ∀ r ∈ seg, State.ofRepr (State.repr r.2) = r.2)
    (hv : ∀ r ∈ seg, isValidPath (wpPath ++ r.1) = true)
    (hs : (log.map (fun e => e.1.str) ++ seg.map (fun r => r.1)).Pairwise
      (fun a b => strLt a b = true))
    (hlogn : ∀ e ∈ log, NulFree e.1.str)
    (ht : (Serializer.writeAll w (seg.map (fun r => (r.1, State.repr r.2)))).out = w.out ++ t)
    (hf : t.length < fuel) :
    ∃ dest, receiveLogLoop isValidPath wpPath tr junk fuel
          (Reader.mk (IStream.mk t true) w.lastKey) log = some dest
      ∧ dest.map (fun e => (e.1.str, e.2))
          = log.map (fun e => (e.1.str, e.2)) ++ seg.map (fun r => (r.1, tr r.2))
      ∧ ∀ e ∈ dest, NulFree e.1.str := by
  induction seg generalizing w fuel t log with
  | nil =>
    cases fuel with
    | zero => simp at hf
    | succ f =>
      have h0 : t = [] := by simpa [Serializer.writeAll] using ht
      subst h0
      refine ⟨log, ?_, by simp, hlogn⟩
      simp only [receiveLogLoop, read_at_end, if_true, Bool.false_eq_true, if_false]
      cases f <;> simp [receiveLogLoop]
  | cons r rs ih =>
    obtain ⟨k, s⟩ := r
    cases fuel with
    | zero => simp at hf
    | succ f =>
      obtain ⟨t2, ht2⟩ := writeAll_out (Serializer.write w k (State.repr s))
        (rs.map (fun r => (r.1, State.repr r.2)))
      have hk : NulFree k := hn (k, s) (by simp)
      have hkl : k.length < 2 ^ 64 := hl (k, s) (by simp)
      have hks : State.ofRepr (State.repr s) = s := hr (k, s) (by simp)
      have hkv : isValidPath (wpPath ++ k) = true := hv (k, s) (by simp)
      have ht3 : t = encodeLE sizeofSizeT (same_to k w.lastKey)
              ++ (k.drop (same_to k w.lastKey) ++ [0]) ++ State.repr s ++ t2 := by
        have h1 : (Serializer.writeAll w
              (((k, s) :: rs).map (fun r => (r.1, State.repr r.2)))).out
            = w.out ++ (encodeLE sizeofSizeT (same_to k w.lastKey)
              ++ (k.drop (same_to k w.lastKey) ++ [0]) ++ State.repr s ++ t2) := by
          rw [List.map_cons, Serializer.writeAll, ht2]
          simp [Serializer.write]
        rw [h1] at ht
        exact (List.append_cancel_left ht).symm
      have hsl := same_to_le k w.lastKey
      have hlt : t.length = sizeofSizeT + (k.length - same_to k w.lastKey + 1)
          + (State.repr s).length + t2.length := by
        rw [ht3]
        simp only [List.length_append, length_encodeLE, List.length_drop, List.length_cons,
          List.length_nil]
      have hfk : k.length - same_to k w.lastKey < f + 1 := by
        simp only [sizeofSizeT] at hlt; omega
      have hf2 : t2.length < f := by simp only [sizeofSizeT] at hlt; omega
      have hlast : ∀ e ∈ log, strLt e.1.str k = true := by
        intro e he
        rw [List.map_cons, List.pairwise_append] at hs
        exact hs.2.2 e.1.str (List.mem_map_of_mem (fun e => e.1.str) he) k (by simp)
      obtain ⟨c, hc, hins⟩ := insert_at_end log k (tr s) hlogn hlast
      have hs2 : ((log ++ [(c, tr s)]).map (fun e => e.1.str)
          ++ rs.map (fun r => r.1)).Pairwise (fun a b => strLt a b = true) := by
        simpa [hc] using hs
      have hlogn2 : ∀ e ∈ log ++ [(c, tr s)], NulFree e.1.str := by
        intro e he
        rcases List.mem_append.1 he with h | h
        · exact hlogn e h
        · rw [List.mem_singleton.1 h]
          simpa [hc] using hk
      obtain ⟨dest, hd1, hd2, hd3⟩ := ih (Serializer.write w k (State.repr s)) f t2
        (log ++ [(c, tr s)]) (fun r hr2 => hn r (by simp [hr2]))
        (fun r hr2 => hl r (by simp [hr2])) (fun r hr2 => hr r (by simp [hr2]))
        (fun r hr2 => hv r (by simp [hr2])) hs2 hlogn2 ht2 hf2
      have hlk : (Serializer.write w k (State.repr s)).lastKey = k := rfl
      rw [hlk] at hd1
      refine ⟨dest, ?_, ?_, hd3⟩
      · rw [ht3]
        simp only [receiveLogLoop, if_true]
        rw [read_written sizeofState (f + 1) w.lastKey k (State.repr s) t2 _ _ hk hkl
          (length_repr s) (by rw [hj]) hfk]
        simp only [if_true, hkv, hks, hins]
        exact hd1
      · rw [hd2]
        simp [hc]
theorem start_spec (tr : State → State) (pending : Nat → Bool) (log0 : ModLog) (fuel : Nat)
    (d : SendLogDialog) (hinv : SendLogDialog.Inv tr log0 d)
    (hfuel : d.log.length - d.iter < fuel) :
    ∃ r, SendLogDialog.start tr State.repr pending fuel d = some r
      ∧ (r.2 = true → SendLogDialog.Ended tr log0 r.1)
      ∧ (r.2 = false → SendLogDialog.Inv tr log0 r.1
          ∧ r.1.log.length - r.1.iter < d.log.length - d.iter) := by
  induction fuel generalizing d with
  | zero => simp at hfuel
  | succ f ih =>
    obtain ⟨⟨segs, cur, hb, hsent, hw⟩, hsub, htake⟩ := hinv
    cases hget : d.log.get? d.iter with
    | none =>
      refine ⟨({ d with blocks := d.blocks ++ [d.msg] }, true), ?_, ?_, ?_⟩
      · simp only [SendLogDialog.start, hget]
      · intro _
        refine ⟨⟨segs ++ [cur], ?_, ?_⟩, d.log.take d.iter, ?_, htake⟩
        · have hm : d.msg = blockOf cur := by
            unfold blockOf; rw [hw]
          simp only [hb, List.map_append, List.map_cons, List.map_nil, hm]
        · simp only [hsent, List.flatten_append, List.flatten_cons, List.flatten_nil, List.append_nil]
        · exact (List.take_sublist _ _).trans hsub
      · intro h; cases h
    | some e =>
      have hlt : d.iter < d.log.length := (List.get?_eq_some.1 hget).1
      have hlog1 : ∀ n, (d.log.take (d.iter + 1)
          ++ d.log.drop (d.iter + 1 + n)).Sublist d.log := by
        intro n
        have h1 : (d.log.drop (d.iter + 1 + n)).Sublist (d.log.drop (d.iter + 1)) := by
          rw [← List.drop_drop]
          exact List.drop_sublist _ _
        have h2 := List.Sublist.append (List.Sublist.refl (d.log.take (d.iter + 1))) h1
        rwa [List.take_append_drop] at h2
      have htk : d.log.take (d.iter + 1) = d.log.take d.iter ++ [e] := by
        rw [List.take_succ, ← List.get?_eq_getElem?, hget]; rfl
      have hlen1 : ∀ n, (d.log.take (d.iter + 1) ++ d.log.drop (d.iter + 1 + n)).length
          - (d.iter + 1) < d.log.length - d.iter := by
        intro n
        have := (hlog1 n).length_le
        omega
      have htake1 : ∀ n, (d.log.take (d.iter + 1) ++ d.log.drop (d.iter + 1 + n)).take (d.iter + 1)
          = d.log.take d.iter ++ [e] := by
        intro n
        rw [List.take_append_of_le_length (by simp; omega), List.take_take, Nat.min_self, htk]
      -- the log after the children of a removed directory are erased
      obtain ⟨log1, hlog1def, hsub1, hlen1b, htake1b⟩ :
          ∃ log1, log1 = (if e.2.action = State.rmdired then
              d.log.take (d.iter + 1) ++ d.log.drop (d.iter + 1
                + ((d.log.drop (d.iter + 1)).takeWhile
                    (fun x => e.1.isParentOf x.1.str)).length)
              else d.log)
            ∧ log1.Sublist d.log ∧ log1.length - (d.iter + 1) < d.log.length - d.iter
            ∧ log1.take (d.iter + 1) = d.log.take d.iter ++ [e] := by
        refine ⟨_, rfl, ?_, ?_, ?_⟩
        · split
          · exact hlog1 _
          · exact List.Sublist.refl _
        · split
          · exact hlen1 _
          · omega
        · split
          · exact htake1 _
          · exact htk
      have hw1 : Serializer.writeAll Writer.fresh
            ((cur ++ [(e.1.str, tr e.2)]).map (fun r => (r.1, State.repr r.2)))
          = Serializer.write (Writer.mk d.msg d.lastKey) e.1.str (State.repr (tr e.2)) := by
        rw [List.map_append, writeAll_append, hw]
        rfl
      have hinv1 : SendLogDialog.Inv tr log0
          (SendLogDialog.mk log1 (d.iter + 1)
            (Serializer.write (Writer.mk d.msg d.lastKey) e.1.str (State.repr (tr e.2))).out
            (Serializer.write (Writer.mk d.msg d.lastKey) e.1.str (State.repr (tr e.2))).lastKey
            d.blocks (d.sent ++ [(e.1.str, tr e.2)])) := by
        refine ⟨⟨segs, cur ++ [(e.1.str, tr e.2)], hb, ?_, ?_⟩, hsub1.trans hsub, ?_⟩
        · simp only [hsent, List.append_assoc]
        · rw [hw1]
        · simp only [htake1b, htake, List.map_append, List.map_cons, List.map_nil]
      have hinv2 : SendLogDialog.Inv tr log0
          (SendLogDialog.mk log1 (d.iter + 1) [] []
            (d.blocks ++ [(Serializer.write (Writer.mk d.msg d.lastKey) e.1.str
              (State.repr (tr e.2))).out])
            (d.sent ++ [(e.1.str, tr e.2)])) := by
        refine ⟨⟨segs ++ [cur ++ [(e.1.str, tr e.2)]], [], ?_, ?_, rfl⟩, hsub1.trans hsub, ?_⟩
        · have hbk : blockOf (cur ++ [(e.1.str, tr e.2)])
              = (Serializer.write (Writer.mk d.msg d.lastKey) e.1.str
                  (State.repr (tr e.2))).out := by
            unfold blockOf; rw [hw1]
          show d.blocks ++ _ = _
          rw [hb, List.map_append, List.map_cons, List.map_nil, hbk]
        · simp only [hsent, List.flatten_append, List.flatten_cons, List.flatten_nil, List.append_nil,
            List.append_assoc]
        · simp only [htake1b, htake, List.map_append, List.map_cons, List.map_nil]
      simp only [SendLogDialog.start, hget, ← hlog1def]
      by_cases hmax : MAX_COPY_SIZE ≤ (Serializer.write (Writer.mk d.msg d.lastKey) e.1.str
          (State.repr (tr e.2))).out.length
      · rw [if_pos hmax]
        by_cases hp : pending (d.blocks ++ [(Serializer.write (Writer.mk d.msg d.lastKey) e.1.str
            (State.repr (tr e.2))).out]).length = true
        · rw [if_pos hp]
          refine ⟨_, rfl, ?_, ?_⟩
          · intro h; cases h
          · intro _
            exact ⟨hinv2, hlen1b⟩
        · rw [if_neg hp]
          obtain ⟨r, hr, h1, h2⟩ := ih _ hinv2 (by
            show log1.length - (d.iter + 1) < f
            omega)
          refine ⟨r, hr, h1, ?_⟩
          intro hb2
          obtain ⟨h3, h4⟩ := h2 hb2
          refine ⟨h3, ?_⟩
          have h5 : r.1.log.length - r.1.iter < log1.length - (d.iter + 1) := h4
          omega
      · rw [if_neg hmax]
        obtain ⟨r, hr, h1, h2⟩ := ih _ hinv1 (by
          show log1.length - (d.iter + 1) < f
          omega)
        refine ⟨r, hr, h1, ?_⟩
        intro hb2
        obtain ⟨h3, h4⟩ := h2 hb2
        refine ⟨h3, ?_⟩
        have h5 : r.1.log.length - r.1.iter < log1.length - (d.iter + 1) := h4
        omega
theorem run_spec (tr : State → State) (pending : Nat → Bool) (log0 : ModLog) (fuel rounds : Nat)
    (d : SendLogDialog) (hinv : SendLogDialog.Inv tr log0 d)
    (hfuel : d.log.length - d.iter < fuel) (hrounds : d.log.length - d.iter < rounds) :
    ∃ d1, SendLogDialog.run tr State.repr pending fuel rounds d = some d1
      ∧ SendLogDialog.Ended tr log0 d1 := by
  induction rounds generalizing d with
  | zero => simp at hrounds
  | succ n ih =>
    obtain ⟨r, hr, h1, h2⟩ := start_spec tr pending log0 fuel d hinv hfuel
    simp only [SendLogDialog.run, hr]
    cases hb : r.2 with
    | true => exact ⟨r.1, by simp, h1 hb⟩
    | false =>
      obtain ⟨h3, h4⟩ := h2 hb
      obtain ⟨d1, hd1, hd2⟩ := ih r.1 h3 (by omega) (by omega)
      exact ⟨d1, by simpa using hd1, hd2⟩

theorem receiveBlocks_written (isValidPath : Str → Bool) (wpPath : Str) (tr : State → State)
    (junk : List Nat) (hj : junk.length = sizeofState) (fuel : Nat)
    (segs : List (List (Str × State))) (log : ModLog)
    (hn : ∀ r ∈ segs.flatten, NulFree r.1) (hl : ∀ r ∈ segs.flatten, r.1.length < 2 ^ 64)
    (hr : ∀ r ∈ segs.flatten, State.ofRepr (State.repr r.2) = r.2)
    (hv : ∀ r ∈ segs.flatten, isValidPath (wpPath ++ r.1) = true)
    (hs : (log.map (fun e => e.1.str) ++ segs.flatten.map (fun r => r.1)).Pairwise
      (fun a b => strLt a b = true))
    (hlogn : ∀ e ∈ log, NulFree e.1.str)
    (hf : ∀ b ∈ segs.map blockOf, b.length < fuel) :
    ∃ dest, receiveBlocks isValidPath wpPath tr junk fuel (segs.map blockOf) log = some dest
      ∧ dest.map (fun e => (e.1.str, e.2))
          = log.map (fun e => (e.1.str, e.2)) ++ segs.flatten.map (fun r => (r.1, tr r.2)) := by
  induction segs generalizing log with
  | nil => exact ⟨log, rfl, by simp⟩
  | cons seg rest ih =>
    have hmem : ∀ r, r ∈ seg → r ∈ (seg :: rest).flatten := by
      intro r h; simp [h]
    have hmem2 : ∀ r, r ∈ rest.flatten → r ∈ (seg :: rest).flatten := by
      intro r h
      rw [List.flatten_cons]
      exact List.mem_append_right _ h
    have hs1 : (log.map (fun e => e.1.str) ++ seg.map (fun r => r.1)).Pairwise
        (fun a b => strLt a b = true) := by
      rw [List.flatten_cons, List.map_append, ← List.append_assoc] at hs
      exact (List.pairwise_append.1 hs).1
    obtain ⟨d1, hd1, hd2, hd3⟩ := receiveLogLoop_written isValidPath wpPath tr junk hj seg
      Writer.fresh fuel (blockOf seg) log (fun r h => hn r (hmem r h)) (fun r h => hl r (hmem r h))
      (fun r h => hr r (hmem r h)) (fun r h => hv r (hmem r h)) hs1 hlogn
      (by simp [blockOf, Writer.fresh]) (hf _ (by simp))
    have hkeys : d1.map (fun e => e.1.str)
        = log.map (fun e => e.1.str) ++ seg.map (fun r => r.1) := by
      have := congrArg (List.map (fun x : Str × State => x.1)) hd2
      simpa [List.map_map, Function.comp] using this
    obtain ⟨dest, hdest, hmap⟩ := ih d1 (fun r h => hn r (hmem2 r h))
      (fun r h => hl r (hmem2 r h)) (fun r h => hr r (hmem2 r h)) (fun r h => hv r (hmem2 r h))
      (by
        rw [hkeys, List.append_assoc, ← List.map_append, ← List.flatten_cons]
        exact hs)
      hd3 (fun b hb => hf b (by simp only [List.map_cons, List.mem_cons]; exact Or.inr hb))
    refine ⟨dest, ?_, ?_⟩
    · simp only [List.map_cons, receiveBlocks, receiveLog]
      have hd1b : receiveLogLoop isValidPath wpPath tr junk fuel (Reader.fresh (blockOf seg)) log
          = some d1 := hd1
      rw [hd1b]
      exact hdest
    · rw [hmap, hd2, List.flatten_cons, List.map_append, List.append_assoc]

/-- Claim C11: a well-formed log whose states are representable is sent by a
`SendLogDialog` in some number of blocks, whatever the answers of
`write_bytes_pending()` are (the dialog returns after a block and is started
again by `ME_wavail`); the dialog ends.  Passing its blocks one by one, in
order, to `receiveLog` of a receiver that starts from an empty log and for
which every key is a valid path yields (for every fuel of the read loop that
exceeds the length of each block) a log whose keys are exactly the keys sent,
in the same order, and whose state for each key is the receiver's
`translateReceivedState` applied to the state sent, which is the sender's
`translateSendState` of the state of that key in the log. -/
theorem sendLog_receiveLog_round_trip (trS trR : State → State) (pending : Nat → Bool)
    (isValidPath : Str → Bool) (wpPath : Str) (junk : List Nat) (log : ModLog)
    (hw : ModLog.WF log) (hl : ∀ e ∈ log, e.1.str.length < 2 ^ 64)
    (hr : ∀ e ∈ log, State.ofRepr (State.repr (trS e.2)) = trS e.2)
    (hv : ∀ e ∈ log, isValidPath (wpPath ++ e.1.str) = true)
    (hj : junk.length = sizeofState) :
    ∃ d, SendLogDialog.run trS State.repr pending (log.length + 1) (log.length + 1)
          (SendLogDialog.new log) = some d
      ∧ (∀ r ∈ d.sent, ∃ e ∈ log, r = (e.1.str, trS e.2))
      ∧ ∀ fuel, (∀ b ∈ d.blocks, b.length < fuel) →
          ∃ dest, receiveBlocks isValidPath wpPath trR junk fuel d.blocks [] = some dest
            ∧ dest.map (fun e => (e.1.str, e.2)) = d.sent.map (fun r => (r.1, trR r.2)) := by
  have hinv : SendLogDialog.Inv trS log (SendLogDialog.new log) :=
    ⟨⟨[], [], rfl, rfl, rfl⟩, List.Sublist.refl _, rfl⟩
  obtain ⟨d, hd, ⟨segs, hb, hsent⟩, l, hsub, hl2⟩ := run_spec trS pending log (log.length + 1)
    (log.length + 1) (SendLogDialog.new log) hinv (by simp [SendLogDialog.new])
    (by simp [SendLogDialog.new])
  have hfrom : ∀ r ∈ d.sent, ∃ e ∈ log, r = (e.1.str, trS e.2) := by
    intro r hr2
    rw [hl2] at hr2
    obtain ⟨e, he, heq⟩ := List.mem_map.1 hr2
    exact ⟨e, hsub.subset he, heq.symm⟩
  refine ⟨d, hd, hfrom, ?_⟩
  intro fuel hfuel
  have hsorted : (d.sent.map (fun r => r.1)).Pairwise (fun a b => strLt a b = true) := by
    rw [hl2, List.map_map]
    exact (List.pairwise_map.2 (List.Pairwise.sublist hsub hw.1))
  rw [hsent] at hfrom hsorted
  obtain ⟨dest, h1, h2⟩ := receiveBlocks_written isValidPath wpPath trR junk hj fuel segs []
    (fun r h => by
      obtain ⟨e, he, heq⟩ := hfrom r h
      rw [heq]; exact hw.2 e he)
    (fun r h => by
      obtain ⟨e, he, heq⟩ := hfrom r h
      rw [heq]; exact hl e he)
    (fun r h => by
      obtain ⟨e, he, heq⟩ := hfrom r h
      rw [heq]; exact hr e he)
    (fun r h => by
      obtain ⟨e, he, heq⟩ := hfrom r h
      rw [heq]; exact hv e he)
    (by simpa using hsorted) (by simp) (by rw [← hb]; exact hfuel)
  refine ⟨dest, by rw [hb]; exact h1, ?_⟩
  rw [h2, hsent]
  simp

theorem sendLog_receiveLog_round_trip_witness :
    ∃ d, SendLogDialog.run id State.repr (fun _ => false)
          ([(Path.root (bytes "/a"), State.mk (List.replicate 16 1) 1000 100 0o100644 8 9 4
              State.created),
            (Path.child (Path.root (bytes "/a")) (bytes "/b"),
              State.mk (List.replicate 16 2) 0 0 0o100600 (-1) 7 0 State.changed)].length + 1)
          ([(Path.root (bytes "/a"), State.mk (List.replicate 16 1) 1000 100 0o100644 8 9 4
              State.created),
            (Path.child (Path.root (bytes "/a")) (bytes "/b"),
              State.mk (List.replicate 16 2) 0 0 0o100600 (-1) 7 0 State.changed)].length + 1)
          (SendLogDialog.new
            [(Path.root (bytes "/a"), State.mk (List.replicate 16 1) 1000 100 0o100644 8 9 4
              State.created),
            (Path.child (Path.root (bytes "/a")) (bytes "/b"),
              State.mk (List.replicate 16 2) 0 0 0o100600 (-1) 7 0 State.changed)]) = some d
      ∧ (∀ r ∈ d.sent, ∃ e ∈
            [(Path.root (bytes "/a"), State.mk (List.replicate 16 1) 1000 100 0o100644 8 9 4
              State.created),
            (Path.child (Path.root (bytes "/a")) (bytes "/b"),
              State.mk (List.replicate 16 2) 0 0 0o100600 (-1) 7 0 State.changed)],
          r = (e.1.str, id e.2))
      ∧ ∀ fuel, (∀ b ∈ d.blocks, b.length < fuel) →
          ∃ dest, receiveBlocks (fun _ => true) (bytes "/srv") id (List.replicate 64 0) fuel
              d.blocks [] = some dest
            ∧ dest.map (fun e => (e.1.str, e.2)) = d.sent.map (fun r => (r.1, id r.2)) :=
  sendLog_receiveLog_round_trip id id (fun _ => false) (fun _ => true) (bytes "/srv")
    (List.replicate 64 0)
    [(Path.root (bytes "/a"), State.mk (List.replicate 16 1) 1000 100 0o100644 8 9 4
        State.created),
      (Path.child (Path.root (bytes "/a")) (bytes "/b"),
        State.mk (List.replicate 16 2) 0 0 0o100600 (-1) 7 0 State.changed)]
    (by decide) (by decide) (by decide) (by decide) (by decide)

/-! ## Backup mode -/

/-- Claim C21, counterexample.  For the mode `0100644` the backup file gets
the mode `0100440`: the owner-write bit (bit 7) is cleared as well. -/
theorem backupMode_owner_write_counterexample :
    StateLog.backupMode 0o100644 = 0o100440
      ∧ Nat.testBit 0o100644 7 = true
      ∧ Nat.testBit (StateLog.backupMode 0o100644) 7 = false := by
  decide

/-- Claim C21, amended: for every 32-bit mode the mode applied to the backup
file is the original mode with exactly the owner-write (bit 7), group-write
(bit 4) and other-read (bit 2) permission bits cleared and every other bit
unchanged. -/
theorem backupMode_bits (m : Nat) (hm : m < 2 ^ 32) (i : Nat) :
    (StateLog.backupMode m).testBit i = (m.testBit i && decide (i ≠ 7 ∧ i ≠ 4 ∧ i ≠ 2)) := by
  have hmask : (2 ^ 32 - 1 - (S_IWUSR ||| S_IWGRP ||| S_IROTH) : Nat) = 4294967147 := by decide
  unfold StateLog.backupMode
  rw [Nat.testBit_land, hmask]
  by_cases hi : i < 32
  · have : (4294967147 : Nat).testBit i = decide (i ≠ 7 ∧ i ≠ 4 ∧ i ≠ 2) := by
      interval_cases i <;> rfl
    rw [this]
  · have h1 : m.testBit i = false :=
      Nat.testBit_lt_two_pow (lt_of_lt_of_le hm (Nat.pow_le_pow_right (by norm_num) (by omega)))
    rw [h1]
    rfl

theorem backupMode_bits_witness :
    (StateLog.backupMode 0o100664).testBit 4
      = ((0o100664 : Nat).testBit 4 && decide ((4 : Nat) ≠ 7 ∧ (4 : Nat) ≠ 4 ∧ (4 : Nat) ≠ 2)) :=
  backupMode_bits 0o100664 (by decide) 4

/-! ## Connection -/

/-- Claim C22, failing input.  The client's own banner is `fexd 1.2.0` and the
banner received is `fexd 1.20.0`, whose MINOR component differs.
`verifyServer` compares the first 8 bytes, `fexd 1.2`, finds them equal and
accepts the banner.  A banner with another PATCH is accepted and one with
MINOR 3 is rejected. -/
theorem verifyServer_accepts_longer_minor :
    ClientConnection.verifyServer (bytes "fexd 1.2.0") (bytes "fexd 1.20.0" ++ [0]) = some true
      ∧ ClientConnection.verifyServer (bytes "fexd 1.2.0") (bytes "fexd 1.2.7" ++ [0]) = some true
      ∧ ClientConnection.verifyServer (bytes "fexd 1.2.0") (bytes "fexd 1.3.0" ++ [0])
          = some false := by
  refine ⟨?_, ?_, ?_⟩ <;> decide

/-- One `AdjustSpeed` message keeps the level in range. -/
theorem adjustSpeed_step (c : Connection) (delta : Int)
    (h : c.compressionLevel = 0 ∨ (4 ≤ c.compressionLevel ∧ c.compressionLevel ≤ 9)) :
    ((c.adjustSpeed delta).compressionLevel = 0
        ∨ (4 ≤ (c.adjustSpeed delta).compressionLevel
          ∧ (c.adjustSpeed delta).compressionLevel ≤ 9))
      ∧ (1000000 ≤ (c.adjustSpeed delta).uploadSpeed → (c.adjustSpeed delta).compressionLevel = 0)
      ∧ ((c.adjustSpeed delta).uploadSpeed < 1000000 →
          4 ≤ (c.adjustSpeed delta).compressionLevel
            ∧ (c.adjustSpeed delta).compressionLevel ≤ 9) := by
  unfold Connection.adjustSpeed
  generalize (c.uploadSpeed + (delta % (2 : Int) ^ 64).toNat) % 2 ^ 64 = speed
  simp only
  split_ifs <;> simp only <;> refine ⟨?_, ?_, ?_⟩ <;> intros <;> first | omega | simp

/-- The invariant of the compression level along any sequence of
`AdjustSpeed` messages. -/
theorem adjustSpeed_inv (deltas : List Int) (c : Connection)
    (h : (c.compressionLevel = 0 ∨ (4 ≤ c.compressionLevel ∧ c.compressionLevel ≤ 9))
      ∧ (1000000 ≤ c.uploadSpeed → c.compressionLevel = 0)) :
    ((deltas.foldl Connection.adjustSpeed c).compressionLevel = 0
        ∨ (4 ≤ (deltas.foldl Connection.adjustSpeed c).compressionLevel
          ∧ (deltas.foldl Connection.adjustSpeed c).compressionLevel ≤ 9))
      ∧ (1000000 ≤ (deltas.foldl Connection.adjustSpeed c).uploadSpeed →
          (deltas.foldl Connection.adjustSpeed c).compressionLevel = 0) := by
  induction deltas generalizing c with
  | nil => exact h
  | cons d ds ih =>
    have hs := adjustSpeed_step c d h.1
    exact ih (c.adjustSpeed d) ⟨hs.1, hs.2.1⟩

/-- Claim C23: in every state that a `Connection` reaches from `init()` by a
sequence of `AdjustSpeed` messages with any deltas, the compression level is 0
or lies in 4..9, it is 0 whenever `_M_UploadSpeed` is at least 1000000, and
after a further `AdjustSpeed` that leaves `_M_UploadSpeed` below 1000000 it
lies in 4..9. -/
theorem compressionLevel_range (deltas : List Int) :
    ((deltas.foldl Connection.adjustSpeed Connection.init).compressionLevel = 0
        ∨ (4 ≤ (deltas.foldl Connection.adjustSpeed Connection.init).compressionLevel
          ∧ (deltas.foldl Connection.adjustSpeed Connection.init).compressionLevel ≤ 9))
      ∧ (1000000 ≤ (deltas.foldl Connection.adjustSpeed Connection.init).uploadSpeed →
          (deltas.foldl Connection.adjustSpeed Connection.init).compressionLevel = 0)
      ∧ ∀ delta : Int,
          ((deltas.foldl Connection.adjustSpeed Connection.init).adjustSpeed delta).uploadSpeed
              < 1000000 →
            4 ≤ ((deltas.foldl Connection.adjustSpeed Connection.init).adjustSpeed
                  delta).compressionLevel
              ∧ ((deltas.foldl Connection.adjustSpeed Connection.init).adjustSpeed
                  delta).compressionLevel ≤ 9 := by
  have h := adjustSpeed_inv deltas Connection.init ⟨Or.inl rfl, fun _ => rfl⟩
  exact ⟨h.1, h.2, fun delta => (adjustSpeed_step _ delta h.1).2.2⟩

theorem compressionLevel_range_witness :
    (([500, -100, 2000000, -1999000].foldl Connection.adjustSpeed
          Connection.init).compressionLevel = 0
        ∨ (4 ≤ ([500, -100, 2000000, -1999000].foldl Connection.adjustSpeed
              Connection.init).compressionLevel
          ∧ ([500, -100, 2000000, -1999000].foldl Connection.adjustSpeed
              Connection.init).compressionLevel ≤ 9))
      ∧ (1000000 ≤ ([500, -100, 2000000, -1999000].foldl Connection.adjustSpeed
            Connection.init).uploadSpeed →
          ([500, -100, 2000000, -1999000].foldl Connection.adjustSpeed
            Connection.init).compressionLevel = 0)
      ∧ ∀ delta : Int,
          (([500, -100, 2000000, -1999000].foldl Connection.adjustSpeed
              Connection.init).adjustSpeed delta).uploadSpeed < 1000000 →
            4 ≤ (([500, -100, 2000000, -1999000].foldl Connection.adjustSpeed
                  Connection.init).adjustSpeed delta).compressionLevel
              ∧ (([500, -100, 2000000, -1999000].foldl Connection.adjustSpeed
                  Connection.init).adjustSpeed delta).compressionLevel ≤ 9 :=
  compressionLevel_range [500, -100, 2000000, -1999000]

/-! ## Held file locks -/

theorem lockFile_cons (l : Lock) (ls : List Lock) (wp : Nat) (path : Str) (type : Char)
    (fd : Int) :
    Connection.lockFile (l :: ls) wp path type fd
      = if strLt l.path path then
          (l :: (Connection.lockFile ls wp path type fd).1,
            (Connection.lockFile ls wp path type fd).2)
        else if l.path = path then (l :: ls, [])
        else (Lock.mk path fd wp :: l :: ls,
          [LockOp.openFile path, LockOp.setlk fd type, LockOp.notifyFileLock wp path type]) := by
  by_cases h : strLt l.path path = true
  · simp only [Connection.lockFile, lockLowerBound, h, if_true, List.get?_cons_succ,
      List.take_succ_cons, List.drop_succ_cons]
    split_ifs <;> simp
  · by_cases h2 : l.path = path
    · subst h2
      simp [Connection.lockFile, lockLowerBound, strLt_irrefl]
    · simp [Connection.lockFile, lockLowerBound, h, h2]

theorem unlockFile_cons (l : Lock) (ls : List Lock) (path : Str) :
    Connection.unlockFile (l :: ls) path
      = if strLt l.path path then
          (l :: (Connection.unlockFile ls path).1, (Connection.unlockFile ls path).2)
        else if l.path = path then
          (ls, [LockOp.closeFile l.fd, LockOp.notifyFileLock l.wp path 'u'])
        else (l :: ls, []) := by
  by_cases h : strLt l.path path = true
  · simp only [Connection.unlockFile, lockLowerBound, h, if_true, List.get?_cons_succ,
      List.eraseIdx_cons_succ]
    cases ls.get? (lockLowerBound ls path) with
    | none => rfl
    | some f => simp only; split_ifs <;> rfl
  · by_cases h2 : l.path = path
    · subst h2
      simp [Connection.unlockFile, lockLowerBound, strLt_irrefl]
    · simp [Connection.unlockFile, lockLowerBound, h, h2]

theorem lockFile_mem (ls : List Lock) (wp : Nat) (path : Str) (type : Char) (fd : Int)
    (x : Lock) (hx : x ∈ (Connection.lockFile ls wp path type fd).1) :
    x ∈ ls ∨ x.path = path := by
  induction ls with
  | nil =>
    simp [Connection.lockFile, lockLowerBound] at hx
    right; rw [hx]
  | cons l ls ih =>
    rw [lockFile_cons] at hx
    split_ifs at hx with h1 h2
    · rcases List.mem_cons.1 hx with h | h
      · left; rw [h]; simp
      · rcases ih h with h3 | h3
        · left; simp [h3]
        · right; exact h3
    · left; exact hx
    · rcases List.mem_cons.1 hx with h | h
      · right; rw [h]
      · left; exact h

theorem lockFile_sorted (ls : List Lock) (wp : Nat) (path : Str) (type : Char) (fd : Int)
    (hs : ls.Pairwise (fun a b => strLt a.path b.path = true)) :
    (Connection.lockFile ls wp path type fd).1.Pairwise
      (fun a b => strLt a.path b.path = true) := by
  induction ls with
  | nil => simp [Connection.lockFile, lockLowerBound]
  | cons l ls ih =>
    rw [List.pairwise_cons] at hs
    rw [lockFile_cons]
    split_ifs with h1 h2
    · rw [List.pairwise_cons]
      refine ⟨?_, ih hs.2⟩
      intro x hx
      rcases lockFile_mem ls wp path type fd x hx with h | h
      · exact hs.1 x h
      · rw [h]; exact h1
    · exact List.pairwise_cons.2 hs
    · have hlt : strLt path l.path = true := by
        cases hpl : strLt path l.path with
        | true => rfl
        | false =>
          exact absurd (strLt_total l.path path (by simpa using h1) hpl) h2
      refine List.pairwise_cons.2 ⟨?_, List.pairwise_cons.2 hs⟩
      intro x hx
      rcases List.mem_cons.1 hx with h | h
      · rw [h]; exact hlt
      · exact strLt_trans _ _ _ hlt (hs.1 x h)

theorem unlockFile_sublist (ls : List Lock) (path : Str) :
    (Connection.unlockFile ls path).1.Sublist ls := by
  induction ls with
  | nil => simp [Connection.unlockFile, lockLowerBound]
  | cons l ls ih =>
    rw [unlockFile_cons]
    split_ifs
    · exact ih.cons₂ l
    · exact List.sublist_cons_self l ls
    · exact List.Sublist.refl _

theorem strLt_ne (a b : Str) (h : strLt a b = true) : a ≠ b := by
  intro hab
  rw [hab, strLt_irrefl] at h
  cases h

theorem lockFile_held (ls : List Lock) (wp : Nat) (path : Str) (type : Char) (fd : Int)
    (hs : ls.Pairwise (fun a b => strLt a.path b.path = true))
    (hh : ∃ x ∈ ls, x.path = path) :
    Connection.lockFile ls wp path type fd = (ls, []) := by
  induction ls with
  | nil => simp at hh
  | cons l ls ih =>
    rw [List.pairwise_cons] at hs
    obtain ⟨x, hx, hxp⟩ := hh
    rw [lockFile_cons]
    split_ifs with h1 h2
    · have hne : l.path ≠ path := strLt_ne _ _ h1
      rcases List.mem_cons.1 hx with h | h
      · rw [h] at hxp; exact absurd hxp hne
      · rw [ih hs.2 ⟨x, h, hxp⟩]
    · rfl
    · exfalso
      rcases List.mem_cons.1 hx with h | h
      · rw [h] at hxp; exact h2 hxp
      · have := hs.1 x h
        rw [hxp] at this
        exact h1 this

theorem filter_path_of_lt (ls : List Lock) (path : Str)
    (h : ∀ x ∈ ls, strLt path x.path = true) :
    ls.filter (fun x => decide (x.path ≠ path)) = ls := by
  rw [List.filter_eq_self]
  intro x hx
  simpa using (strLt_ne _ _ (h x hx)).symm

theorem unlockFile_held (ls : List Lock) (path : Str) (x : Lock)
    (hs : ls.Pairwise (fun a b => strLt a.path b.path = true))
    (hx : x ∈ ls) (hxp : x.path = path) :
    Connection.unlockFile ls path
        = (ls.filter (fun l => decide (l.path ≠ path)),
            [LockOp.closeFile x.fd, LockOp.notifyFileLock x.wp path 'u'])
      ∧ (ls.filter (fun l => decide (l.path ≠ path))).length + 1 = ls.length
      ∧ ∀ l ∈ ls, l.path = path → l = x := by
  induction ls with
  | nil => simp at hx
  | cons l ls ih =>
    rw [List.pairwise_cons] at hs
    rw [unlockFile_cons]
    split_ifs with h1 h2
    · have hne : l.path ≠ path := strLt_ne _ _ h1
      have hxl : x ∈ ls := by
        rcases List.mem_cons.1 hx with h | h
        · rw [h] at hxp; exact absurd hxp hne
        · exact h
      obtain ⟨e1, e2, e3⟩ := ih hs.2 hxl
      have hk : (l :: ls).filter (fun l => decide (l.path ≠ path))
          = l :: ls.filter (fun l => decide (l.path ≠ path)) := by
        rw [List.filter_cons]
        simp [hne]
      refine ⟨?_, ?_, ?_⟩
      · rw [e1, hk]
      · rw [hk, List.length_cons, List.length_cons, e2]
      · intro y hy hyp
        rcases List.mem_cons.1 hy with h | h
        · rw [h] at hyp; exact absurd hyp hne
        · exact e3 y h hyp
    · have hrest : ∀ y ∈ ls, strLt path y.path = true := by
        intro y hy
        rw [← h2]; exact hs.1 y hy
      have hxl : x = l := by
        rcases List.mem_cons.1 hx with h | h
        · exact h
        · exact absurd hxp (strLt_ne _ _ (hrest x h)).symm
      refine ⟨?_, ?_, ?_⟩
      · rw [List.filter_cons, filter_path_of_lt ls path hrest, hxl]
        simp [h2]
      · rw [List.filter_cons, filter_path_of_lt ls path hrest]
        simp [h2]
      · intro y hy hyp
        rcases List.mem_cons.1 hy with h | h
        · rw [h, hxl]
        · exact absurd hyp (strLt_ne _ _ (hrest y h)).symm
    · exfalso
      rcases List.mem_cons.1 hx with h | h
      · rw [h] at hxp; exact h2 hxp
      · have := hs.1 x h
        rw [hxp] at this
        exact h1 this

theorem lockStep_sorted (calls : List LockCall) (ls : List Lock)
    (hs : ls.Pairwise (fun a b => strLt a.path b.path = true)) :
    (calls.foldl Connection.lockStep ls).Pairwise (fun a b => strLt a.path b.path = true) := by
  induction calls generalizing ls with
  | nil => exact hs
  | cons c cs ih =>
    apply ih
    cases c with
    | lock wp path type fd => exact lockFile_sorted ls wp path type fd hs
    | unlock path => exact List.Pairwise.sublist (unlockFile_sublist ls path) hs

/-- Claim C26: after every sequence of `lockFile` and `unlockFile` calls on a
fresh `Connection` the vector of held locks is strictly sorted by path, so it
holds at most one entry per path.  In such a state `lockFile` on a path that
is held leaves the vector as it is, opens no file and sends no notification,
and `unlockFile` on a held path closes the descriptor of its entry, notifies
the watchpoint of the entry and removes exactly that entry, the only one with
that path. -/
theorem lock_list_sorted (calls : List LockCall) :
    (calls.foldl Connection.lockStep []).Pairwise (fun a b => strLt a.path b.path = true)
      ∧ (∀ (wp : Nat) (path : Str) (type : Char) (fd : Int),
          (∃ x ∈ calls.foldl Connection.lockStep [], x.path = path) →
          Connection.lockFile (calls.foldl Connection.lockStep []) wp path type fd
            = (calls.foldl Connection.lockStep [], []))
      ∧ (∀ x ∈ calls.foldl Connection.lockStep [],
          Connection.unlockFile (calls.foldl Connection.lockStep []) x.path
              = ((calls.foldl Connection.lockStep []).filter (fun l => decide (l.path ≠ x.path)),
                  [LockOp.closeFile x.fd, LockOp.notifyFileLock x.wp x.path 'u'])
            ∧ ((calls.foldl Connection.lockStep []).filter
                (fun l => decide (l.path ≠ x.path))).length + 1
                = (calls.foldl Connection.lockStep []).length
            ∧ ∀ l ∈ calls.foldl Connection.lockStep [], l.path = x.path → l = x) := by
  have hs := lockStep_sorted calls [] List.Pairwise.nil
  refine ⟨hs, ?_, ?_⟩
  · intro wp path type fd hh
    exact lockFile_held _ wp path type fd hs hh
  · intro x hx
    exact unlockFile_held _ x.path x hs hx rfl

theorem lock_list_sorted_witness :
    ([LockCall.lock 0 (bytes "/w/b") 'w' 5, LockCall.lock 0 (bytes "/w/a") 'r' 6,
        LockCall.lock 1 (bytes "/w/b") 'r' 7, LockCall.unlock (bytes "/w/a"),
        LockCall.lock 0 (bytes "/w/c") 'w' 8].foldl Connection.lockStep []).Pairwise
        (fun a b => strLt a.path b.path = true)
      ∧ (∀ (wp : Nat) (path : Str) (type : Char) (fd : Int),
          (∃ x ∈ [LockCall.lock 0 (bytes "/w/b") 'w' 5, LockCall.lock 0 (bytes "/w/a") 'r' 6,
              LockCall.lock 1 (bytes "/w/b") 'r' 7, LockCall.unlock (bytes "/w/a"),
              LockCall.lock 0 (bytes "/w/c") 'w' 8].foldl Connection.lockStep [],
            x.path = path) →
          Connection.lockFile
              ([LockCall.lock 0 (bytes "/w/b") 'w' 5, LockCall.lock 0 (bytes "/w/a") 'r' 6,
                LockCall.lock 1 (bytes "/w/b") 'r' 7, LockCall.unlock (bytes "/w/a"),
                LockCall.lock 0 (bytes "/w/c") 'w' 8].foldl Connection.lockStep [])
              wp path type fd
            = ([LockCall.lock 0 (bytes "/w/b") 'w' 5, LockCall.lock 0 (bytes "/w/a") 'r' 6,
                LockCall.lock 1 (bytes "/w/b") 'r' 7, LockCall.unlock (bytes "/w/a"),
                LockCall.lock 0 (bytes "/w/c") 'w' 8].foldl Connection.lockStep [], []))
      ∧ (∀ x ∈ [LockCall.lock 0 (bytes "/w/b") 'w' 5, LockCall.lock 0 (bytes "/w/a") 'r' 6,
              LockCall.lock 1 (bytes "/w/b") 'r' 7, LockCall.unlock (bytes "/w/a"),
              LockCall.lock 0 (bytes "/w/c") 'w' 8].foldl Connection.lockStep [],
          Connection.unlockFile
                ([LockCall.lock 0 (bytes "/w/b") 'w' 5, LockCall.lock 0 (bytes "/w/a") 'r' 6,
                  LockCall.lock 1 (bytes "/w/b") 'r' 7, LockCall.unlock (bytes "/w/a"),
                  LockCall.lock 0 (bytes "/w/c") 'w' 8].foldl Connection.lockStep []) x.path
              = (([LockCall.lock 0 (bytes "/w/b") 'w' 5, LockCall.lock 0 (bytes "/w/a") 'r' 6,
                  LockCall.lock 1 (bytes "/w/b") 'r' 7, LockCall.unlock (bytes "/w/a"),
                  LockCall.lock 0 (bytes "/w/c") 'w' 8].foldl Connection.lockStep []).filter
                    (fun l => decide (l.path ≠ x.path)),
                  [LockOp.closeFile x.fd, LockOp.notifyFileLock x.wp x.path 'u'])
            ∧ (([LockCall.lock 0 (bytes "/w/b") 'w' 5, LockCall.lock 0 (bytes "/w/a") 'r' 6,
                  LockCall.lock 1 (bytes "/w/b") 'r' 7, LockCall.unlock (bytes "/w/a"),
                  LockCall.lock 0 (bytes "/w/c") 'w' 8].foldl Connection.lockStep []).filter
                (fun l => decide (l.path ≠ x.path))).length + 1
                = ([LockCall.lock 0 (bytes "/w/b") 'w' 5, LockCall.lock 0 (bytes "/w/a") 'r' 6,
                  LockCall.lock 1 (bytes "/w/b") 'r' 7, LockCall.unlock (bytes "/w/a"),
                  LockCall.lock 0 (bytes "/w/c") 'w' 8].foldl Connection.lockStep []).length
            ∧ ∀ l ∈ [LockCall.lock 0 (bytes "/w/b") 'w' 5, LockCall.lock 0 (bytes "/w/a") 'r' 6,
                  LockCall.lock 1 (bytes "/w/b") 'r' 7, LockCall.unlock (bytes "/w/a"),
                  LockCall.lock 0 (bytes "/w/c") 'w' 8].foldl Connection.lockStep [],
                l.path = x.path → l = x) :=
  lock_list_sorted [LockCall.lock 0 (bytes "/w/b") 'w' 5, LockCall.lock 0 (bytes "/w/a") 'r' 6,
    LockCall.lock 1 (bytes "/w/b") 'r' 7, LockCall.unlock (bytes "/w/a"),
    LockCall.lock 0 (bytes "/w/c") 'w' 8]

/-! ## Reconciliation of identical trees -/

theorem bothEffects_same (k : Str) (sc : State) (lm : Int) : bothEffects k k sc sc lm = [] := by
  simp [bothEffects, accessEffects]

theorem length_clobber (l : List (Str × State)) : (clobber l).length = l.length := by
  cases l with
  | nil => rfl
  | cons x xs => rfl

/-- The merge of a client snapshot with a server snapshot that holds, after
the id translation, the same records has no effects. -/
theorem merge3_same (tr : State → State) (n : Nat) :
    ∀ c s l : List (Str × State), s.map (fun r => (r.1, tr r.2)) = c →
      (∀ r ∈ c, strLt r.1 LAST_KEY = true) → (∀ r ∈ l, strLt r.1 LAST_KEY = true) →
      c.length + l.length < n → merge3 tr n c s l = some [] := by
  induction n with
  | zero => intro c s l _ _ _ h; omega
  | succ n ih =>
    intro c s l hmap hbc hbl hn
    cases s with
    | nil =>
      subst hmap
      simp [merge3, keyOf_nil]
    | cons x s1 =>
      obtain ⟨k, ss⟩ := x
      subst hmap
      have hk : strLt k LAST_KEY = true := hbc (k, tr ss) (by simp)
      have hkne : k ≠ LAST_KEY := strLt_ne _ _ hk
      have hbc1 : ∀ r ∈ s1.map (fun r => (r.1, tr r.2)), strLt r.1 LAST_KEY = true :=
        fun r hr => hbc r (by simp only [List.map_cons, List.mem_cons]; exact Or.inr hr)
      have hlen : (s1.map (fun r => (r.1, tr r.2))).length + 1
          = (((k, ss) :: s1).map (fun r => (r.1, tr r.2))).length := by simp
      by_cases h2 : strLt (keyOf l) k = true
      · cases l with
        | nil =>
          rw [keyOf_nil, strLt_asymm _ _ hk] at h2
          cases h2
        | cons y l1 =>
          have := ih (((k, ss) :: s1).map (fun r => (r.1, tr r.2))) ((k, ss) :: s1) l1 rfl hbc
            (fun r hr => hbl r (by simp [hr])) (by simp at hn ⊢; omega)
          simp only [merge3, List.map_cons, keyOf_cons, hkne, and_self, if_false]
          simp only [keyOf_cons] at h2
          simp only [h2, and_self, if_true, List.tail_cons]
          exact this
      · simp only [merge3, List.map_cons, keyOf_cons, hkne, and_self, if_false, h2,
          strLt_irrefl, Bool.false_eq_true]
        cases l with
        | nil =>
          rw [ih _ s1 [] rfl hbc1 (by simp) (by simp at hn ⊢; omega)]
          simp [bothEffects_same]
        | cons y l1 =>
          obtain ⟨kl, sl⟩ := y
          simp only
          by_cases h3 : kl = k
          · rw [if_pos h3, ih _ s1 l1 rfl hbc1 (fun r hr => hbl r (by simp [hr]))
              (by simp at hn ⊢; omega)]
            simp [bothEffects_same]
          · rw [if_neg h3, ih _ s1 (clobber ((kl, sl) :: l1)) rfl hbc1
              (bound_clobber _ hbl)
              (by rw [length_clobber]; simp at hn ⊢; omega)]
            simp [bothEffects_same]

/-- Claim C27: when the server snapshot holds, after the id translation, the
same records as the client snapshot (all keys below `LAST_KEY`, as every path
is), then for every last-sync snapshot, an empty or absent one included,
`compareState` returns with no effect at all: no `addToLog` call, which is
what adds to the client's write-log and requests the resync, no
`_M_ServerLog.insert`, so the log for `FullSyncLog` stays empty, and no
backup. -/
theorem compareState_identical_trees (tr : State → State) (s0 : State)
    (client server lsynst : List (Str × State)) (fuel : Nat)
    (hmap : server.map (fun r => (r.1, tr r.2)) = client)
    (hbc : ∀ r ∈ client, strLt r.1 LAST_KEY = true)
    (hbl : ∀ r ∈ lsynst, strLt r.1 LAST_KEY = true)
    (hf : client.length + lsynst.length < fuel) :
    compareState tr s0 client server lsynst fuel = some [] := by
  have hbs : ∀ r ∈ server, strLt r.1 LAST_KEY = true := by
    intro r hr
    have : (r.1, tr r.2) ∈ client := by
      rw [← hmap]
      exact List.mem_map.2 ⟨r, hr, rfl⟩
    exact hbc (r.1, tr r.2) this
  unfold compareState
  rw [compareLoop_eq_merge3 tr fuel _ client server lsynst hbc hbs hbl (Or.inl ⟨rfl, rfl⟩)
    (Or.inl ⟨rfl, rfl⟩) (Or.inl ⟨rfl, rfl⟩), merge3_same tr fuel client server lsynst hmap hbc hbl hf]
  rfl

theorem compareState_identical_trees_witness :
    compareState id (State.mk [] 0 0 0 0 0 0 0)
      [(bytes "/a", State.mk (List.replicate 16 1) 0 0 0o100644 5 5 1 0),
       (bytes "/b", State.mk (List.replicate 16 2) 0 0 0o040755 7 7 1 0)]
      [(bytes "/a", State.mk (List.replicate 16 1) 0 0 0o100644 5 5 1 0),
       (bytes "/b", State.mk (List.replicate 16 2) 0 0 0o040755 7 7 1 0)]
      [(bytes "/0", State.mk (List.replicate 16 3) 0 0 0o100644 1 1 1 0),
       (bytes "/b", State.mk (List.replicate 16 4) 0 0 0o040755 3 3 1 0)] 5 = some [] :=
  compareState_identical_trees id (State.mk [] 0 0 0 0 0 0 0)
    [(bytes "/a", State.mk (List.replicate 16 1) 0 0 0o100644 5 5 1 0),
     (bytes "/b", State.mk (List.replicate 16 2) 0 0 0o040755 7 7 1 0)]
    [(bytes "/a", State.mk (List.replicate 16 1) 0 0 0o100644 5 5 1 0),
     (bytes "/b", State.mk (List.replicate 16 2) 0 0 0o040755 7 7 1 0)]
    [(bytes "/0", State.mk (List.replicate 16 3) 0 0 0o100644 1 1 1 0),
     (bytes "/b", State.mk (List.replicate 16 4) 0 0 0o040755 3 3 1 0)] 5
    (by decide) (by decide) (by decide) (by decide)
/-- Claim C25, failing input.  Client and server both hold the regular file
`/a` with the same mtime, so `compareState` reaches the access check; the
modes differ, the server's ctime is the later one and the md4 values differ.
`compareState` inserts the access record for `/a` into `_M_ServerLog`,
requests the backup and then calls `_M_ServerLog.insert` with the record of
action `changed`; `ModLog::insert` leaves the existing key as it is, so the
log sent via `FullSyncLog` holds for `/a` only the record with action
`newaccess`.  When the client's ctime is the later one the access record goes
to the client's log and the log sent holds the `changed` record. -/
theorem compareState_content_record_lost :
    compareState id (State.mk [] 0 0 0 0 0 0 0)
        [(bytes "/a", State.mk (List.replicate 16 1) 0 0 0o100644 5 5 1 0)]
        [(bytes "/a", State.mk (List.replicate 16 2) 0 0 0o100600 5 6 1 0)] [] 4
      = some [Effect.serverLog (bytes "/a")
            (State.mk (List.replicate 16 2) 0 0 0o100600 5 6 1 State.newaccess),
          Effect.backup (bytes "/a"),
          Effect.serverLog (bytes "/a")
            (State.mk (List.replicate 16 2) 0 0 0o100600 5 6 1 State.changed)]
    ∧ serverLogAfter [Effect.serverLog (bytes "/a")
            (State.mk (List.replicate 16 2) 0 0 0o100600 5 6 1 State.newaccess),
          Effect.backup (bytes "/a"),
          Effect.serverLog (bytes "/a")
            (State.mk (List.replicate 16 2) 0 0 0o100600 5 6 1 State.changed)] []
      = some [(Path.root (bytes "/a"),
          State.mk (List.replicate 16 2) 0 0 0o100600 5 6 1 State.newaccess)]
    ∧ (compareState id (State.mk [] 0 0 0 0 0 0 0)
        [(bytes "/a", State.mk (List.replicate 16 1) 0 0 0o100644 5 7 1 0)]
        [(bytes "/a", State.mk (List.replicate 16 2) 0 0 0o100600 5 6 1 0)] [] 4).bind
        (fun e => serverLogAfter e [])
      = some [(Path.root (bytes "/a"),
          State.mk (List.replicate 16 2) 0 0 0o100600 5 6 1 State.changed)] := by
  refine ⟨?_, ?_, ?_⟩ <;> rfl
/-! ## Truncated streams -/

/-- On a stream whose remaining bytes hold no NUL the key loop of
`Serializer::read` does not end, whatever the fuel. -/
theorem readTail_no_nul (fuel : Nat) :
    ∀ (s : IStream) (acc : Str), (∀ c ∈ s.buf, c ≠ 0) → Serializer.readTail fuel s acc = none := by
  induction fuel with
  | zero => intro s acc _; rfl
  | succ n ih =>
    intro s acc h
    obtain ⟨buf, good⟩ := s
    cases good with
    | false =>
      simp only [Serializer.readTail, IStream.get, Bool.false_eq_true, if_false]
      exact ih _ _ h
    | true =>
      cases buf with
      | nil =>
        simp only [Serializer.readTail, IStream.get, if_true]
        exact ih _ _ (by simp)
      | cons c cs =>
        have hc : c ≠ 0 := h c (by simp)
        simp only [Serializer.readTail, IStream.get, if_true, hc, if_false]
        exact ih _ _ (fun x hx => h x (by simp [hx]))

/-- Claim C28, failing input.  The stream holds a complete 8-byte header and
the key bytes `/w/file` without the terminating NUL, as a file or block
truncated in the middle of a key tail does.  For every amount of fuel the
model of `Serializer::read` runs out of fuel: at the end of the stream `get()`
returns `EOF`, which as a `char` is not 0, so the loop
`while(ch = _M_Stream.get())` goes on appending to the key.  The loop of
`receiveLog` on that block does not return either. -/
theorem serializer_read_truncated_key :
    (∀ (fuel : Nat) (key : Str) (container : List Nat),
        Serializer.read sizeofState fuel
          (Reader.fresh (encodeLE sizeofSizeT 0 ++ bytes "/w/file")) key container = none)
      ∧ ∀ (fuel : Nat) (log : ModLog),
          receiveLog (fun _ => true) [] id (List.replicate sizeofState 0) fuel
            (encodeLE sizeofSizeT 0 ++ bytes "/w/file") log = none := by
  have hread : ∀ (fuel : Nat) (key : Str) (container : List Nat),
      Serializer.read sizeofState fuel
        (Reader.fresh (encodeLE sizeofSizeT 0 ++ bytes "/w/file")) key container = none := by
    intro fuel key container
    have hbuf : encodeLE sizeofSizeT 0 ++ bytes "/w/file"
        = [0, 0, 0, 0, 0, 0, 0, 0] ++ [47, 119, 47, 102, 105, 108, 101] := by decide
    have hr : IStream.read (IStream.mk ([0, 0, 0, 0, 0, 0, 0, 0]
          ++ [47, 119, 47, 102, 105, 108, 101]) true) sizeofSizeT
        = ([0, 0, 0, 0, 0, 0, 0, 0], IStream.mk [47, 119, 47, 102, 105, 108, 101] true) := by
      decide
    simp only [Serializer.read, Reader.fresh, hbuf, hr]
    rw [readTail_no_nul fuel _ _ (by decide)]
    simp [sizeofSizeT]
  refine ⟨hread, ?_⟩
  intro fuel log
  cases fuel with
  | zero => rfl
  | succ n =>
    simp only [receiveLog, receiveLogLoop, hread]
    rfl
set_option maxRecDepth 100000 in
/-- Claim C30, failing input.  The database holds `/w`, `/w/Z`, `/w/a` and
`/w/a.txt`; on disk the file `/w/a` is gone and `/w/a.txt` exists with exactly
the stored state.  `testPath` on `/w/a` reports the removal and deletes two
entries, `/w/a` and `/w/a.txt`: `ModLog::erase` takes every following key that
starts with the string `/w/a`.  `testPath` on `/w/a.txt` then reports the file
as created although nothing on disk differs from the entry that was stored
for it. -/
theorem testPath_erases_sibling :
    StateLog.testPath rescanFS 20
        [(Path.root (bytes "/w"), rescanDir),
          (Path.child (Path.root (bytes "/w")) (bytes "/Z"), rescanFile),
          (Path.child (Path.root (bytes "/w")) (bytes "/a"), rescanFile),
          (Path.child (Path.root (bytes "/w")) (bytes "/a.txt"), rescanFile)]
        (bytes "/w/a")
      = some ([(Path.root (bytes "/w"), rescanDir),
            (Path.child (Path.root (bytes "/w")) (bytes "/Z"), rescanFile)],
          [(bytes "/w/a", State.mk (List.replicate 16 7) 1000 1000 0o100644 5 5 4 State.removed)],
          State.removed)
    ∧ rescanFS.lstat (bytes "/w/a.txt")
        = some (Stat.mk rescanFile.mode rescanFile.uid rescanFile.gid rescanFile.mtime
            rescanFile.ctime rescanFile.size)
    ∧ rescanFS.md4 (bytes "/w/a.txt") = rescanFile.md4
    ∧ StateLog.testPath rescanFS 20
        [(Path.root (bytes "/w"), rescanDir),
          (Path.child (Path.root (bytes "/w")) (bytes "/Z"), rescanFile)]
        (bytes "/w/a.txt")
      = some ([(Path.root (bytes "/w"), rescanDir),
            (Path.child (Path.root (bytes "/w")) (bytes "/Z"), rescanFile),
            (Path.child (Path.root (bytes "/w")) (bytes "/a.txt"), rescanFile)],
          [(bytes "/w/a.txt", rescanFile)], State.created) := by
  refine ⟨?_, ?_, ?_, ?_⟩ <;> decide!

/-! ## Size of the blocks of a log transfer -/

theorem length_write (w : Writer) (key : Str) (container : List Nat) :
    (Serializer.write w key container).out.length
      = w.out.length + sizeofSizeT + (key.length - same_to key w.lastKey) + 1
          + container.length := by
  simp [Serializer.write, length_encodeLE]
  omega

theorem start_blocks (tr : State → State) (pending : Nat → Bool) (L : Nat) (fuel : Nat) :
    ∀ d : SendLogDialog, SendLogDialog.BlockInv L d →
      ∀ r, SendLogDialog.start tr State.repr pending fuel d = some r →
        (r.2 = true → SendLogDialog.BlockEnd L r.1)
          ∧ (r.2 = false → SendLogDialog.BlockInv L r.1) := by
  induction fuel with
  | zero => intro d _ r h; cases h
  | succ f ih =>
    intro d hinv r hr
    obtain ⟨hmsg, hlog, hblocks⟩ := hinv
    cases hget : d.log.get? d.iter with
    | none =>
      simp only [SendLogDialog.start, hget, Option.some.injEq] at hr
      subst hr
      refine ⟨fun _ => ⟨?_, ?_, ?_⟩, fun h => by cases h⟩
      · intro b hb
        rcases List.mem_append.1 hb with h | h
        · exact (hblocks b h).2
        · rw [List.mem_singleton.1 h]; omega
      · intro b hb
        simp only [List.dropLast_concat] at hb
        exact (hblocks b hb).1
      · intro b hb
        simp only [List.getLast?_concat, Option.some.injEq] at hb
        rw [← hb]; exact hmsg
    | some e =>
      have he : e ∈ d.log := List.get?_mem hget
      have hkey : e.1.str.length ≤ L := hlog e he
      have hwlen : (Serializer.write (Writer.mk d.msg d.lastKey) e.1.str
          (State.repr (tr e.2))).out.length < MAX_COPY_SIZE + L + 73 := by
        rw [length_write, length_repr]
        simp only [sizeofSizeT, sizeofState]
        omega
      obtain ⟨log1, hlog1def, hmem1⟩ :
          ∃ log1, log1 = (if e.2.action = State.rmdired then
              d.log.take (d.iter + 1) ++ d.log.drop (d.iter + 1
                + ((d.log.drop (d.iter + 1)).takeWhile
                    (fun x => e.1.isParentOf x.1.str)).length)
              else d.log)
            ∧ ∀ x ∈ log1, x.1.str.length ≤ L := by
        refine ⟨_, rfl, ?_⟩
        intro x hx
        split at hx
        · rcases List.mem_append.1 hx with h | h
          · exact hlog x (List.mem_of_mem_take h)
          · exact hlog x (List.mem_of_mem_drop h)
        · exact hlog x hx
      simp only [SendLogDialog.start, hget, ← hlog1def] at hr
      by_cases hmax : MAX_COPY_SIZE ≤ (Serializer.write (Writer.mk d.msg d.lastKey) e.1.str
          (State.repr (tr e.2))).out.length
      · have hinv2 : SendLogDialog.BlockInv L
            (SendLogDialog.mk log1 (d.iter + 1) [] []
              (d.blocks ++ [(Serializer.write (Writer.mk d.msg d.lastKey) e.1.str
                (State.repr (tr e.2))).out])
              (d.sent ++ [(e.1.str, tr e.2)])) := by
          refine ⟨by simp [MAX_COPY_SIZE], hmem1, ?_⟩
          intro b hb
          rcases List.mem_append.1 hb with h | h
          · exact hblocks b h
          · rw [List.mem_singleton.1 h]; exact ⟨hmax, hwlen⟩
        rw [if_pos hmax] at hr
        by_cases hp : pending (d.blocks ++ [(Serializer.write (Writer.mk d.msg d.lastKey)
            e.1.str (State.repr (tr e.2))).out]).length = true
        · rw [if_pos hp] at hr
          simp only [Option.some.injEq] at hr
          subst hr
          exact ⟨fun h => absurd h (by simp), fun _ => hinv2⟩
        · rw [if_neg hp] at hr
          exact ih _ hinv2 r hr
      · have hinv1 : SendLogDialog.BlockInv L
            (SendLogDialog.mk log1 (d.iter + 1)
              (Serializer.write (Writer.mk d.msg d.lastKey) e.1.str (State.repr (tr e.2))).out
              (Serializer.write (Writer.mk d.msg d.lastKey) e.1.str (State.repr (tr e.2))).lastKey
              d.blocks (d.sent ++ [(e.1.str, tr e.2)])) :=
          ⟨by simpa using hmax, hmem1, hblocks⟩
        rw [if_neg hmax] at hr
        exact ih _ hinv1 r hr

theorem run_blocks (tr : State → State) (pending : Nat → Bool) (L fuel rounds : Nat) :
    ∀ d : SendLogDialog, SendLogDialog.BlockInv L d →
      ∀ d1, SendLogDialog.run tr State.repr pending fuel rounds d = some d1 →
        SendLogDialog.BlockEnd L d1 := by
  induction rounds with
  | zero => intro d _ d1 h; cases h
  | succ n ih =>
    intro d hinv d1 h
    simp only [SendLogDialog.run] at h
    cases hs : SendLogDialog.start tr State.repr pending fuel d with
    | none => rw [hs] at h; cases h
    | some r =>
      rw [hs] at h
      obtain ⟨h1, h2⟩ := start_blocks tr pending L fuel d hinv r hs
      cases hb : r.2 with
      | true =>
        simp only [hb, if_true, Option.some.injEq] at h
        rw [← h]; exact h1 hb
      | false =>
        simp only [hb, Bool.false_eq_true, if_false] at h
        exact ih r.1 (h2 hb) d1 h

set_option maxRecDepth 1000000 in
/-- Claim C24, counterexample.  The log holds four keys of 4090 bytes each
(`/a`, `/b`, `/c`, `/d` followed by 4088 times `x`).  No block is written
after the third record, when `_M_msg` holds 12487 bytes; the fourth record
brings it to 16649 bytes, and that is the block written: 265 bytes more than
`MAX_COPY_SIZE` = 16384.  The last block is empty. -/
theorem sendLog_block_exceeds_limit :
    (SendLogDialog.run id State.repr (fun _ => false) 5 5
        (SendLogDialog.new
          [(Path.root (47 :: 97 :: List.replicate 4088 120),
              State.mk (List.replicate 16 1) 0 0 0o100644 5 5 4 State.created),
           (Path.root (47 :: 98 :: List.replicate 4088 120),
              State.mk (List.replicate 16 1) 0 0 0o100644 5 5 4 State.created),
           (Path.root (47 :: 99 :: List.replicate 4088 120),
              State.mk (List.replicate 16 1) 0 0 0o100644 5 5 4 State.created),
           (Path.root (47 :: 100 :: List.replicate 4088 120),
              State.mk (List.replicate 16 1) 0 0 0o100644 5 5 4 State.created)])).map
        (fun d => d.blocks.map List.length)
      = some [16649, 0]
    ∧ MAX_COPY_SIZE = 16384 := by
  constructor
  · decide!
  · rfl

/-- Claim C24, amended: `MAX_COPY_SIZE` (16384 bytes) is the size at which a
block is written, not a limit of its size.  For every log whose keys are at
most `L` bytes long and every answer of `write_bytes_pending()`, the dialog
ends, every block it has written carries less than `16384 + L + 73` bytes
(less than 16384 bytes before its last record was added), every block but the
last carries at least 16384 bytes, and the last block carries less than 16384
bytes. -/
theorem sendLog_block_size (tr : State → State) (pending : Nat → Bool) (log : ModLog) (L : Nat)
    (hL : ∀ e ∈ log, e.1.str.length ≤ L) :
    ∃ d, SendLogDialog.run tr State.repr pending (log.length + 1) (log.length + 1)
          (SendLogDialog.new log) = some d
      ∧ (∀ b ∈ d.blocks, b.length < MAX_COPY_SIZE + L + 73)
      ∧ (∀ b ∈ d.blocks.dropLast, MAX_COPY_SIZE ≤ b.length)
      ∧ ∀ b, d.blocks.getLast? = some b → b.length < MAX_COPY_SIZE := by
  have hinv : SendLogDialog.Inv tr log (SendLogDialog.new log) :=
    ⟨⟨[], [], rfl, rfl, rfl⟩, List.Sublist.refl _, rfl⟩
  obtain ⟨d, hd, _⟩ := run_spec tr pending log (log.length + 1) (log.length + 1)
    (SendLogDialog.new log) hinv (by simp [SendLogDialog.new]) (by simp [SendLogDialog.new])
  have hb : SendLogDialog.BlockInv L (SendLogDialog.new log) :=
    ⟨by simp [SendLogDialog.new, MAX_COPY_SIZE], hL, by simp [SendLogDialog.new]⟩
  exact ⟨d, hd, run_blocks tr pending L _ _ _ hb d hd⟩

theorem sendLog_block_size_witness :
    ∃ d, SendLogDialog.run id State.repr (fun _ => true)
          ([(Path.root (bytes "/a"), State.mk (List.replicate 16 1) 0 0 0o100644 5 5 4
              State.created),
            (Path.root (bytes "/b"), State.mk (List.replicate 16 2) 0 0 0o100644 6 6 4
              State.changed)].length + 1)
          ([(Path.root (bytes "/a"), State.mk (List.replicate 16 1) 0 0 0o100644 5 5 4
              State.created),
            (Path.root (bytes "/b"), State.mk (List.replicate 16 2) 0 0 0o100644 6 6 4
              State.changed)].length + 1)
          (SendLogDialog.new
            [(Path.root (bytes "/a"), State.mk (List.replicate 16 1) 0 0 0o100644 5 5 4
              State.created),
            (Path.root (bytes "/b"), State.mk (List.replicate 16 2) 0 0 0o100644 6 6 4
              State.changed)]) = some d
      ∧ (∀ b ∈ d.blocks, b.length < MAX_COPY_SIZE + 2 + 73)
      ∧ (∀ b ∈ d.blocks.dropLast, MAX_COPY_SIZE ≤ b.length)
      ∧ ∀ b, d.blocks.getLast? = some b → b.length < MAX_COPY_SIZE :=
  sendLog_block_size id (fun _ => true)
    [(Path.root (bytes "/a"), State.mk (List.replicate 16 1) 0 0 0o100644 5 5 4 State.created),
     (Path.root (bytes "/b"), State.mk (List.replicate 16 2) 0 0 0o100644 6 6 4 State.changed)]
    2 (by decide)

/-! ## Session state machine -/

theorem sendInv_of_empty (s : Session) (h : s.sendLog = []) : Session.SendInv s := Or.inl h

theorem getLast?_cons_ne_nil (x : Dialog) (l : List Dialog) (h : l ≠ []) :
    (x :: l).getLast? = l.getLast? := by
  cases l with
  | nil => exact absurd rfl h
  | cons y ys => rfl

theorem popDialog_sendLog (s : Session) : s.popDialog.sendLog = s.sendLog := by
  unfold Session.popDialog
  split <;> rfl

theorem popDialog_writeLog (s : Session) : s.popDialog.writeLog = s.writeLog := by
  unfold Session.popDialog
  split <;> rfl

/-- Ending the dialog on top keeps the invariant when that dialog is no
`SyncSendDialog` or the send-log is empty. -/
theorem popDialog_inv (s : Session) (h : Session.SendInv s)
    (htop : s.sendLog = [] ∨ ∃ cls rest, s.stack = Dialog.other cls :: rest) :
    Session.SendInv s.popDialog := by
  rcases htop with h0 | ⟨cls, rest, hst⟩
  · exact Or.inl (by rw [popDialog_sendLog]; exact h0)
  · rcases h with h0 | ⟨c, m, hl⟩
    · exact Or.inl (by rw [popDialog_sendLog]; exact h0)
    · right
      rw [hst] at hl
      cases rest with
      | nil => simp at hl
      | cons y ys =>
        rw [getLast?_cons_ne_nil _ _ (by simp)] at hl
        cases y with
        | syncSend c2 m2 =>
          have hp : s.popDialog.stack = Dialog.syncSend c2 (SyncSendDialog.popUp m2) :: ys := by
            simp only [Session.popDialog, hst]
          rw [hp]
          cases ys with
          | nil => exact ⟨c2, _, rfl⟩
          | cons z zs =>
            rw [getLast?_cons_ne_nil _ _ (by simp)] at hl ⊢
            exact ⟨c, m, hl⟩
        | other cls2 =>
          have hp : s.popDialog.stack = Dialog.other cls2 :: ys := by
            simp only [Session.popDialog, hst]
          rw [hp]
          exact ⟨c, m, hl⟩

theorem startSync_spec (s : Session) (hs : s.stack = []) (h : Session.SendInv s) :
    ∃ s1, s.startSync = some s1 ∧ Session.SendInv s1 ∧ s1.sendLog = s.writeLog
      ∧ s1.writeLog = [] ∧ s1.stack = [Dialog.syncSend s.isClient SSD_Start] := by
  have h0 : s.sendLog = [] := by
    rcases h with h | ⟨c, m, hl⟩
    · exact h
    · rw [hs] at hl; simp at hl
  have he : s.startSync = some (Session.mk s.isClient s.mode
      (Dialog.syncSend s.isClient SSD_Start :: s.stack) false s.sendLog s.writeLog) := by
    simp only [Session.startSync, h0, ne_eq, not_true_eq_false, if_false]
  refine ⟨_, he, ?_, rfl, h0, by simp only [hs]⟩
  right
  exact ⟨s.isClient, SSD_Start, by simp only [hs, List.getLast?_singleton]⟩

theorem fire_inv (s s1 : Session) (h : Session.SendInv s) (hf : s.fire = some s1) :
    Session.SendInv s1 := by
  unfold Session.fire at hf
  split_ifs at hf with h1 h2
  · cases hf; exact h
  · cases hf; exact h
  · obtain ⟨s2, e, hi, _⟩ := startSync_spec s (by simpa using h2) h
    rw [e] at hf; cases hf; exact hi

theorem afterMessage_inv (s s1 : Session) (h : Session.SendInv s)
    (hf : s.afterMessage = some s1) : Session.SendInv s1 := by
  unfold Session.afterMessage at hf
  split_ifs at hf with h1
  · obtain ⟨s2, e, hi, _⟩ := startSync_spec s h1.1 h
    rw [e] at hf; cases hf; exact hi
  · cases hf; exact h

theorem afterMessage_isSome (s : Session) (h : Session.SendInv s) :
    ∃ s1, s.afterMessage = some s1 := by
  unfold Session.afterMessage
  split_ifs with h1
  · obtain ⟨s2, e, _⟩ := startSync_spec s h1.1 h
    exact ⟨s2, e⟩
  · exact ⟨s, rfl⟩

theorem fire_isSome (s : Session) (h : Session.SendInv s) : ∃ s1, s.fire = some s1 := by
  unfold Session.fire
  split_ifs with h1 h2
  · exact ⟨s, rfl⟩
  · exact ⟨_, rfl⟩
  · obtain ⟨s2, e, _⟩ := startSync_spec s (by simpa using h2) h
    exact ⟨s2, e⟩

/-- Pushing a dialog on a stack that is not empty keeps the invariant. -/
theorem push_inv (s : Session) (d : Dialog) (h : Session.SendInv s) (hne : s.stack ≠ []) :
    Session.SendInv { s with stack := d :: s.stack } := by
  rcases h with h0 | ⟨c, m, hl⟩
  · exact Or.inl h0
  · right
    exact ⟨c, m, by simp only [getLast?_cons_ne_nil _ _ hne, hl]⟩

theorem otherMove_inv (s s1 : Session) (h : Session.SendInv s) (hm : Session.OtherMove s s1) :
    Session.SendInv s1 := by
  cases hm with
  | push cls top rest hst => exact push_inv s _ h (by rw [hst]; simp)
  | endDialog top rest hst => exact popDialog_inv s h (Or.inr ⟨top, rest, hst⟩)
  | writeLog log => exact h
  | eraseSendLog log hsub =>
    rcases h with h0 | h1
    · left
      simp only
      rw [h0] at hsub
      exact List.sublist_nil.1 hsub
    · exact Or.inr h1

theorem otherMoves_inv (s s1 : Session) (h : Session.SendInv s)
    (hm : Relation.ReflTransGen Session.OtherMove s s1) : Session.SendInv s1 := by
  induction hm with
  | refl => exact h
  | tail _ hstep ih => exact otherMove_inv _ _ ih hstep

/-- Replacing the `SyncSendDialog` on top by itself in another mode, with a
dialog pushed above it, keeps the invariant. -/
theorem retop_inv (s : Session) (c : Bool) (m m1 : Nat) (rest : List Dialog) (d : Dialog)
    (h : Session.SendInv s) (hst : s.stack = Dialog.syncSend c m :: rest) :
    Session.SendInv { s with stack := d :: Dialog.syncSend c m1 :: rest } := by
  rcases h with h0 | ⟨c2, m2, hl⟩
  · exact Or.inl h0
  · right
    rw [hst] at hl
    show ∃ c3 m3, (d :: Dialog.syncSend c m1 :: rest).getLast? = some (Dialog.syncSend c3 m3)
    rw [getLast?_cons_ne_nil _ _ (by simp)]
    cases rest with
    | nil => exact ⟨c, m1, rfl⟩
    | cons y ys =>
      rw [getLast?_cons_ne_nil _ _ (by simp)] at hl ⊢
      exact ⟨c2, m2, hl⟩

theorem syncSend_incoming_inv (s s1 : Session) (c : Bool) (mode : Nat) (rest : List Dialog)
    (m : Msg) (h : Session.SendInv s) (hst : s.stack = Dialog.syncSend c mode :: rest)
    (hd : SyncSendDialog.incoming_message s c mode rest m = some s1) : Session.SendInv s1 := by
  cases m with
  | Reject =>
    simp only [SyncSendDialog.incoming_message] at hd
    split_ifs at hd with h1
    · cases hu : undoSync s.writeLog s.sendLog with
      | none => rw [hu] at hd; cases hd
      | some r =>
        rw [hu] at hd
        simp only [Option.some.injEq] at hd
        have hr : r.2.1 = [] := by
          unfold undoSync at hu
          split at hu
          · cases hu
          · cases hu; rfl
        rw [← hd]
        exact Or.inl (by rw [popDialog_sendLog]; exact hr)
    · cases hd; exact h
  | SyncStart =>
    simp only [SyncSendDialog.incoming_message] at hd
    split_ifs at hd with h1 h2
    · cases hd; exact retop_inv s c mode SSD_Receive rest _ h hst
    · cases hd; exact h
  | SyncStartOk =>
    simp only [SyncSendDialog.incoming_message, Option.some.injEq] at hd
    rw [← hd]; exact retop_inv s c mode SSD_SendingSyncLog rest _ h hst
  | SyncComplete =>
    simp only [SyncSendDialog.incoming_message, Option.some.injEq] at hd
    rw [← hd]
    exact Or.inl (by rw [popDialog_sendLog])
  | RsyncStart =>
    simp only [SyncSendDialog.incoming_message] at hd
    split_ifs at hd with h1
    cases hd; exact retop_inv s c mode mode rest _ h hst
  | Backup =>
    simp only [SyncSendDialog.incoming_message] at hd
    split_ifs at hd with h1
    cases hd; exact h
  | GetLink =>
    simp only [SyncSendDialog.incoming_message] at hd
    split_ifs at hd with h1
    cases hd; exact h
  | CreateWriteLock => cases hd; exact h
  | CreateReadLock => cases hd; exact h
  | ReleaseLock => cases hd; exact h
  | FullSyncStart => cases hd; exact h
  | Accept => cases hd; exact h
  | other t => cases hd; exact h

theorem deliver_inv (s s1 : Session) (m : Msg) (h : Session.SendInv s)
    (hd : s.deliver m = some s1) : Session.SendInv s1 := by
  cases hst : s.stack with
  | nil =>
    have h0 : s.sendLog = [] := by
      rcases h with h | ⟨c, m, hl⟩
      · exact h
      · rw [hst] at hl; simp at hl
    have hs1 : s1.sendLog = [] := by
      simp only [Session.deliver, hst] at hd
      split at hd <;> cases hd <;> exact h0
    exact Or.inl hs1
  | cons d rest =>
    cases d with
    | syncSend c mode =>
      simp only [Session.deliver, hst] at hd
      exact syncSend_incoming_inv s s1 c mode rest m h hst hd
    | other cls =>
      simp only [Session.deliver, hst, Option.some.injEq] at hd
      rw [← hd]; exact h

theorem step_inv (s s1 : Session) (h : Session.SendInv s) (hs : Session.Step s s1) :
    Session.SendInv s1 := by
  cases hs
  case fire hf => exact fire_inv s s1 h hf
  case file_changed key state ownLock hf =>
    unfold Session.file_changed at hf
    cases ha : addToLog s.writeLog key state ownLock true with
    | none => rw [ha] at hf; cases hf
    | some r =>
      rw [ha] at hf
      simp only [Option.map_some', Option.some.injEq] at hf
      rw [← hf]; exact h
  case lockMessage m hm => exact h
  case message s2 s3 m hm h1 h2 h3 =>
    exact afterMessage_inv _ _ (otherMoves_inv _ _ (deliver_inv s s2 m h h1) h2) h3

theorem reachable_inv (isClient : Bool) (s : Session) (h : Session.Reachable isClient s) :
    Session.SendInv s := by
  induction h with
  | init => exact Or.inl rfl
  | step s s1 _ hs ih => exact step_inv s s1 ih hs

/-- Claim C29: in every session state reachable from the initial state by
timer fires, change notifications and incoming messages, the send-log is empty
whenever the dialog stack is empty.  Hence `startSync`, which is called only
with an empty dialog stack, by `fire` and at the end of `incoming_message`,
never fails its assertion: `fire` returns in every reachable state and the
last statement of `incoming_message` returns after every message and every
reaction of the dialogs; and when `startSync` rotates the logs the new
write-log is empty and the new send-log is the old write-log, so no record is
overwritten. -/
theorem sendLog_empty_when_idle (isClient : Bool) (s : Session)
    (h : Session.Reachable isClient s) :
    (s.stack = [] → s.sendLog = [])
      ∧ (∃ s1, s.fire = some s1)
      ∧ (∀ (m : Msg) (s1 s2 : Session), s.deliver m = some s1 →
          Relation.ReflTransGen Session.OtherMove s1 s2 → ∃ s3, s2.afterMessage = some s3)
      ∧ (s.stack = [] → ∃ s1, s.startSync = some s1 ∧ s1.sendLog = s.writeLog
          ∧ s1.writeLog = [] ∧ s1.stack = [Dialog.syncSend s.isClient SSD_Start]) := by
  have hinv := reachable_inv isClient s h
  refine ⟨?_, fire_isSome s hinv, ?_, ?_⟩
  · intro hs
    rcases hinv with h0 | ⟨c, m, hl⟩
    · exact h0
    · rw [hs] at hl; simp at hl
  · intro m s1 s2 h1 h2
    exact afterMessage_isSome s2 (otherMoves_inv _ _ (deliver_inv s s1 m hinv h1) h2)
  · intro hs
    obtain ⟨s1, e, _, h1, h2, h3⟩ := startSync_spec s hs hinv
    exact ⟨s1, e, h1, h2, h3⟩

theorem sendLog_empty_when_idle_witness :
    ((Session.mk true MO_fullsynched [] false [] []).stack = [] →
        (Session.mk true MO_fullsynched [] false [] []).sendLog = [])
      ∧ (∃ s1, (Session.mk true MO_fullsynched [] false [] []).fire = some s1)
      ∧ (∀ (m : Msg) (s1 s2 : Session),
          (Session.mk true MO_fullsynched [] false [] []).deliver m = some s1 →
          Relation.ReflTransGen Session.OtherMove s1 s2 → ∃ s3, s2.afterMessage = some s3)
      ∧ ((Session.mk true MO_fullsynched [] false [] []).stack = [] →
          ∃ s1, (Session.mk true MO_fullsynched [] false [] []).startSync = some s1
            ∧ s1.sendLog = (Session.mk true MO_fullsynched [] false [] []).writeLog
            ∧ s1.writeLog = []
            ∧ s1.stack = [Dialog.syncSend
                (Session.mk true MO_fullsynched [] false [] []).isClient SSD_Start]) :=
  sendLog_empty_when_idle true (Session.mk true MO_fullsynched [] false [] [])
    (Session.Reachable.step
      (Session.mk true MO_fullsynched [Dialog.syncSend true SSD_WaitForComplete] false []
        [(Path.root (bytes "/a"), State.mk (List.replicate 16 1) 0 0 0o100644 5 5 4 State.created)])
      _
      (Session.Reachable.step
        (Session.mk true MO_fullsynched [Dialog.syncSend true SSD_Start] false []
          [(Path.root (bytes "/a"),
            State.mk (List.replicate 16 1) 0 0 0o100644 5 5 4 State.created)])
        _
        (Session.Reachable.step
          (Session.mk true MO_fullsynched [] false
            [(Path.root (bytes "/a"),
              State.mk (List.replicate 16 1) 0 0 0o100644 5 5 4 State.created)] [])
          _
          (Session.Reachable.step
            (Session.mk true MO_fullsynched [] false [] [])
            _
            (Session.Reachable.step (Session.init true) _ Session.Reachable.init
              (Session.Step.message _
                (Session.mk true MO_fullsynched
                  [Dialog.other DialogClass.ClientFullSyncDialog] false [] [])
                (Session.mk true MO_fullsynched [] false [] []) _ Msg.Accept rfl rfl
                (Relation.ReflTransGen.single
                  (Session.OtherMove.endDialog _ DialogClass.ClientFullSyncDialog [] rfl))
                rfl))
            (Session.Step.file_changed _ _ (bytes "/a")
              (State.mk (List.replicate 16 1) 0 0 0o100644 5 5 4 State.created) false rfl))
          (Session.Step.fire _ _ rfl))
        (Session.Step.message _
          (Session.mk true MO_fullsynched
            [Dialog.other DialogClass.SendLogDialog, Dialog.syncSend true SSD_SendingSyncLog]
            false []
            [(Path.root (bytes "/a"),
              State.mk (List.replicate 16 1) 0 0 0o100644 5 5 4 State.created)])
          (Session.mk true MO_fullsynched [Dialog.syncSend true SSD_WaitForComplete] false []
            [(Path.root (bytes "/a"),
              State.mk (List.replicate 16 1) 0 0 0o100644 5 5 4 State.created)])
          _ Msg.SyncStartOk rfl rfl
          (Relation.ReflTransGen.single
            (Session.OtherMove.endDialog _ DialogClass.SendLogDialog
              [Dialog.syncSend true SSD_SendingSyncLog] rfl))
          rfl))
      (Session.Step.message _ (Session.mk true MO_fullsynched [] false [] [])
        (Session.mk true MO_fullsynched [] false [] []) _ Msg.SyncComplete rfl rfl
        Relation.ReflTransGen.refl rfl))

end Fex
